import Mathlib

/-!
Verification of the extremal disk-packing analysis engine.

This file gives a shallow embedding, in Lean 4, of the core analysis pipeline of
the repository (TypeScript sources under `src/`):

* `src/services/contactGraphs.ts`  — contact-graph validation,
* `src/services/perimeter.ts`      — convex hull, collinearity, perimeter, gradient,
* `src/services/constraints.ts`    — contact Jacobian and rolling-space basis,
* the Hessian engine               — Euclidean/geometric Hessian, Lagrange
  multipliers, projection, spectrum, Morse classification.

Modelling conventions:

* Machine floating-point numbers are modelled as elements of a linear ordered
  field `α` (instantiated with `ℚ` or `ℝ` in the theorems); arithmetic is exact.
* `Math.sqrt` is passed in as an explicit function argument `sqrt : α → α`
  (instantiated with `Real.sqrt` at `ℝ`); `Math.PI` as an argument `pi : α`.
* Calls into the external dense linear-algebra library (`ml-matrix`'s
  `EigenvalueDecomposition` and `SVD`) are modelled as explicit oracle
  arguments producing the library's raw output (eigenvalue list and
  eigenvector matrix, or `U`/`S`/`V` factors); theorems that depend on this
  output assume the algebraic validity of the returned decomposition.
* JavaScript arrays are modelled as `List`s; out-of-range reads use `getD`
  defaults and out-of-range writes are no-ops (only reached on malformed
  input, which the relevant theorems exclude by hypothesis).
* Thrown exceptions are modelled with `Except String`.
* `console.log` diagnostics in the source have no observable effect on the
  returned values and are omitted.
-/

deriving instance DecidableEq for Except

/-! ## Data model (`src/types/index.ts`) -/

/-- Embedding of the `Configuration` record: disk count, centers, radii,
contact pairs and optional lattice (periodic) contacts. -/
structure Configuration (α : Type) where
  n : Nat
  positions : List (α × α)
  radii : List α
  contacts : List (Nat × Nat)
  latticeContacts : List (Nat × Nat)
  latticeShifts : List (α × α)
deriving DecidableEq

/-- Embedding of the `GraphValidation` record returned by `checkGraphValidity`. -/
structure GraphValidation where
  isValid : Bool
  expectedEdges : Nat
  actualEdges : Nat
  message : String
deriving DecidableEq

/-- Embedding of the `ConstraintData` record returned by `computeConstraints`. -/
structure ConstraintData (α : Type) where
  contactMatrix : List (List α)
  rollingMatrix : List (List α)
  dimension : Nat
deriving DecidableEq

/-- Embedding of the `PerimeterResult` record. -/
structure PerimeterResult (α : Type) where
  perimeter : α
  gradient : List α
deriving DecidableEq

/-- Embedding of the `HessianResult` record. -/
structure HessianResult (α : Type) where
  hessian : List (List α)
  eigenvalues : List α
  eigenvectors : List (List α)
  isLocalMinimum : Bool
  indexMorseCritical : Nat
deriving DecidableEq

/-! ## List-matrix helpers

The source manipulates `number[][]` arrays and `ml-matrix` `Matrix` values;
both are modelled as `List (List α)` (row major), with the library's
transpose and matrix product given their standard mathematical meaning. -/

variable {α : Type}

/-- Helper for `dedupFirst`: drop elements already seen. -/
def dedupFirstGo [DecidableEq β] (seen : List β) : List β → List β
  | [] => []
  | x :: xs =>
      if seen.contains x then dedupFirstGo seen xs
      else x :: dedupFirstGo (x :: seen) xs

/-- Deduplication keeping the first occurrence of each element, the order
`new Set(list)` iterates in JavaScript. -/
def dedupFirst [DecidableEq β] (l : List β) : List β := dedupFirstGo [] l

/-! ## Graph validator (`src/services/contactGraphs.ts`) -/

/-- Neighbor list of vertex `k` in the adjacency structure built by
`buildAdjacencyList`: sets exist only for vertices `k < n`, each contact
`(u, v)` adds `v` to `u`'s set and `u` to `v`'s set, and set semantics keep
the first occurrence of each neighbor. -/
def neighborsOf (n : Nat) (contacts : List (Nat × Nat)) (k : Nat) : List Nat :=
  if k < n then
    dedupFirst (contacts.foldl (fun acc uv =>
      (acc ++ (if uv.1 = k then [uv.2] else []) ++ (if uv.2 = k then [uv.1] else []))) [])
  else []

/-- One BFS round for a single dequeued node: scan its neighbors, adding the
unvisited ones to both the visited set and the queue (in order), exactly as
the inner `for` loop of `isConnected` does. -/
def bfsVisit (nbrs : List Nat) (visited queue : List Nat) : List Nat × List Nat :=
  nbrs.foldl (fun vq w =>
    if vq.1.contains w then vq else (vq.1 ++ [w], vq.2 ++ [w])) (visited, queue)

/-- Fueled version of the `while (queue.length > 0)` BFS loop.  Every
dequeued node was enqueued exactly once, and a node is enqueued only when
first marked visited, so the loop performs at most `1 + n + 2·|contacts|`
iterations; any fuel at least that large yields the loop's exact result. -/
def bfsLoop (adj : Nat → List Nat) : Nat → List Nat → List Nat → List Nat
  | 0, _, visited => visited
  | _ + 1, [], visited => visited
  | fuel + 1, node :: queue, visited =>
      let vq := bfsVisit (adj node) visited queue
      bfsLoop adj fuel vq.2 vq.1

/-- Embedding of `isConnected`: breadth-first search from disk `0`;
connected iff every disk was reached. -/
def isConnected (n : Nat) (contacts : List (Nat × Nat)) : Bool :=
  if n = 0 then true
  else if n = 1 then true
  else if contacts = [] then decide (n ≤ 1)
  else
    let visited := bfsLoop (neighborsOf n contacts) (1 + n + 2 * contacts.length) [0] [0]
    decide (visited.length = n)

/-- Embedding of `computeVertexDegrees`: each contact increments the degree
of both of its endpoints. -/
def computeVertexDegrees (n : Nat) (contacts : List (Nat × Nat)) : List Nat :=
  contacts.foldl (fun degs uv =>
    let degs1 := degs.set uv.1 (degs.getD uv.1 0 + 1)
    degs1.set uv.2 (degs1.getD uv.2 0 + 1)) (List.replicate n 0)

/-- Canonical undirected key of a contact, mirroring the string key
`u < v ? u-v : v-u` used by the duplicate-edge check. -/
def canonKey (uv : Nat × Nat) : Nat × Nat :=
  if uv.1 < uv.2 then (uv.1, uv.2) else (uv.2, uv.1)

/-- Scan for the first duplicate undirected edge, threading the set of keys
already seen (the `edgeSet` of the source). -/
def findDuplicate (seen : List (Nat × Nat)) : List (Nat × Nat) → Option (Nat × Nat)
  | [] => none
  | uv :: rest =>
      if seen.contains (canonKey uv) then some uv
      else findDuplicate (canonKey uv :: seen) rest

/-- Embedding of `checkGraphValidity`: index bounds, self-loops, duplicate
edges, connectivity, degree bound, then the informational
`expectedEdges = 2n + 1` report.  Contact indices are natural numbers, so
the `u < 0` half of the source's bounds check is vacuous. -/
def checkGraphValidity (config : Configuration α) : GraphValidation :=
  let n := config.n
  let allContacts := config.contacts ++ config.latticeContacts
  let actualEdges := allContacts.length
  match allContacts.find? (fun uv => decide (n ≤ uv.1 ∨ n ≤ uv.2)) with
  | some uv =>
      { isValid := false, expectedEdges := 0, actualEdges := actualEdges,
        message := s!"Invalid index in contact ({uv.1}, {uv.2}): must be in [0, {(n : Int) - 1}]" }
  | none =>
  match allContacts.find? (fun uv => decide (uv.1 = uv.2)) with
  | some uv =>
      { isValid := false, expectedEdges := 0, actualEdges := actualEdges,
        message := s!"Self-loop detected at vertex {uv.1}" }
  | none =>
  match findDuplicate [] allContacts with
  | some uv =>
      { isValid := false, expectedEdges := 0, actualEdges := actualEdges,
        message := s!"Duplicate edge ({uv.1}, {uv.2})" }
  | none =>
  if ¬ isConnected n allContacts then
    { isValid := false, expectedEdges := 0, actualEdges := actualEdges,
      message := "Graph is not connected" }
  else
  match (List.range n).find? (fun i => decide (6 < (computeVertexDegrees n allContacts).getD i 0)) with
  | some i =>
      { isValid := false, expectedEdges := 0, actualEdges := actualEdges,
        message := s!"Vertex {i} has degree {(computeVertexDegrees n allContacts).getD i 0} > 6 (kissing number violation)" }
  | none =>
      { isValid := true, expectedEdges := 2 * n + 1, actualEdges := actualEdges,
        message :=
          if actualEdges = 2 * n + 1 then "Valid graph with expected edge count"
          else s!"Valid graph ({actualEdges} edges, expected {2 * n + 1} for rigidity)" }

variable [LinearOrderedField α]

/-- Dot product of two rows (zipped multiplication, summed). -/
def dotL (xs ys : List α) : α := (List.zipWith (fun a b => a * b) xs ys).sum

/-- Transpose of a row-major matrix; the column count is read off the first
row, as `ml-matrix` does. -/
def transposeL (m : List (List α)) : List (List α) :=
  match m with
  | [] => []
  | r :: _ => (List.range r.length).map (fun j => m.map (fun row => row.getD j 0))

/-- Row-major matrix product (`ml-matrix`'s `mmul`). -/
def mmulL (x y : List (List α)) : List (List α) :=
  x.map (fun row => (transposeL y).map (fun col => dotL row col))

/-! ## Constraint builder (`src/services/constraints.ts`) -/

/-- Row of the contact Jacobian for one contact `(i, j)`: `-u` at columns
`2i, 2i+1` and `+u` at columns `2j, 2j+1`, where `u` is the unit vector from
center `i` to center `j`; fails when the centers are closer than `1e-15`. -/
def contactRow (sqrt : α → α) (config : Configuration α) (i j : Nat) :
    Except String (List α) :=
  let pi0 := config.positions.getD i (0, 0)
  let pj0 := config.positions.getD j (0, 0)
  let dx := pj0.1 - pi0.1
  let dy := pj0.2 - pi0.2
  let dist := sqrt (dx * dx + dy * dy)
  if dist < 1 / 10 ^ 15 then
    Except.error s!"Disks {i} and {j} have coincident centers"
  else
    let ux := dx / dist
    let uy := dy / dist
    Except.ok (((((List.replicate (2 * config.n) (0 : α)).set (2 * i) (-ux)).set
      (2 * i + 1) (-uy)).set (2 * j) ux).set (2 * j + 1) uy)

/-- Loop of `buildContactMatrix`: build one row per contact, in order,
aborting at the first contact whose centers coincide (the thrown error). -/
def buildRows (sqrt : α → α) (config : Configuration α) :
    List (Nat × Nat) → Except String (List (List α))
  | [] => Except.ok []
  | uv :: rest =>
      match contactRow sqrt config uv.1 uv.2 with
      | Except.error e => Except.error e
      | Except.ok row =>
          match buildRows sqrt config rest with
          | Except.error e => Except.error e
          | Except.ok rows => Except.ok (row :: rows)

/-- Embedding of `buildContactMatrix`: one row per contact, in order, aborting
at the first contact whose centers coincide. -/
def buildContactMatrix (sqrt : α → α) (config : Configuration α) :
    Except String (List (List α)) :=
  buildRows sqrt config config.contacts

/-- Row value produced by `contactRow` for a valid contact `(i, j)`:
`-u` at columns `2i, 2i+1` and `+u` at columns `2j, 2j+1`. -/
def contactRowValue (sqrt : α → α) (config : Configuration α) (i j : Nat) : List α :=
  let p := config.positions.getD i (0, 0)
  let q := config.positions.getD j (0, 0)
  let dist := sqrt ((q.1 - p.1) * (q.1 - p.1) + (q.2 - p.2) * (q.2 - p.2))
  ((((List.replicate (2 * config.n) (0 : α)).set (2 * i) (-((q.1 - p.1) / dist))).set
    (2 * i + 1) (-((q.2 - p.2) / dist))).set (2 * j) ((q.1 - p.1) / dist)).set
    (2 * j + 1) ((q.2 - p.2) / dist)

/-- Embedding of `rollingSpaceBasis`.  The eigendecomposition of `AᵗA` is an
oracle `eig` returning the library's raw output: the list of (real)
eigenvalues and the eigenvector matrix `V` (row major; column `i` is the
eigenvector for eigenvalue `i`).  Columns with `|eigenvalue| < tolerance`
are collected as the rolling-space basis; with no contacts the result is
empty, and with no near-zero eigenvalue it is a `2n × 0` matrix. -/
def rollingSpaceBasis (eig : List (List α) → List α × List (List α))
    (A : List (List α)) (tolerance : α) : List (List α) :=
  if A = [] then []
  else
    let cols := (A.headD []).length
    let AtA := mmulL (transposeL A) A
    let ev := (eig AtA).1
    let V := (eig AtA).2
    let nullIndices := (List.range ev.length).filter (fun i => decide (|ev.getD i 0| < tolerance))
    if nullIndices = [] then List.replicate cols []
    else V.map (fun row => nullIndices.map (fun colIdx => row.getD colIdx 0))

/-- Embedding of `computeConstraints`: contact matrix, rolling matrix (with
the default tolerance `1e-10`), and the rolling dimension read off as the
column count of the rolling matrix. -/
def computeConstraints (sqrt : α → α)
    (eig : List (List α) → List α × List (List α)) (config : Configuration α) :
    Except String (ConstraintData α) :=
  match buildContactMatrix sqrt config with
  | Except.error e => Except.error e
  | Except.ok contactMatrix =>
      let rollingMatrix := rollingSpaceBasis eig contactMatrix (1 / 10 ^ 10)
      let dimension := if rollingMatrix.length > 0 then (rollingMatrix.headD []).length else 0
      Except.ok ⟨contactMatrix, rollingMatrix, dimension⟩

/-! ## Convex hull and perimeter (`src/services/perimeter.ts`) -/

/-- Indexed point used by `convexHullIndices` (the `{x, y, i}` records). -/
structure IndexedPoint (α : Type) where
  x : α
  y : α
  i : Nat
deriving DecidableEq

/-- Lexicographic comparison `(a.x - b.x) || (a.y - b.y)` used by the hull's
sort; non-strict so that sorting is stable on equal points, as JavaScript's
`Array.prototype.sort` is. -/
def lexLe (a b : IndexedPoint α) : Prop :=
  a.x < b.x ∨ (a.x = b.x ∧ a.y ≤ b.y)

instance : DecidableRel (lexLe (α := α)) :=
  fun a b => inferInstanceAs (Decidable (a.x < b.x ∨ (a.x = b.x ∧ a.y ≤ b.y)))

/-- Cross product turn test of `convexHullIndices`. -/
def crossIP (o a b : IndexedPoint α) : α :=
  (a.x - o.x) * (b.y - o.y) - (a.y - o.y) * (b.x - o.x)

/-- The `while`/`pop` loop of the monotone chain: the accumulator is the
current half-hull in reverse order (most recent point first); pop while the
last two points and `p` make a right turn (cross product below `-1e-12`). -/
def chainStep (p : IndexedPoint α) : List (IndexedPoint α) → List (IndexedPoint α)
  | b :: c :: rest =>
      if crossIP c b p < -(1 / 10 ^ 12) then chainStep p (c :: rest)
      else p :: b :: c :: rest
  | acc => p :: acc

/-- Build a half-hull (in reverse order) by scanning the given point list. -/
def buildHalf (pts : List (IndexedPoint α)) : List (IndexedPoint α) :=
  pts.foldl (fun acc p => chainStep p acc) []

/-- Embedding of `convexHullIndices`: Andrew's monotone chain over the
lexicographically sorted indexed points, keeping near-collinear points,
with the final `Array.from(new Set(...))` deduplication. -/
def convexHullIndices (points : List (α × α)) : List Nat :=
  let n := points.length
  if n ≤ 1 then List.range n
  else
    let indexed := points.enum.map (fun p => IndexedPoint.mk p.2.1 p.2.2 p.1)
    let sorted := List.insertionSort lexLe indexed
    let lower := (buildHalf sorted).reverse
    let upper := (buildHalf sorted.reverse).reverse
    dedupFirst ((lower.dropLast ++ upper.dropLast).map (fun p => p.i))

/-- Second singular value of the centered `n × 2` point matrix, as the
`ml-matrix` SVD reports it: `sqrt` applied to the smaller eigenvalue of the
`2 × 2` Gram matrix `CᵗC`, computed in closed form from its trace and
determinant. -/
def secondSingularValue (sqrt : α → α) (points : List (α × α)) : α :=
  let n := points.length
  let meanX := (points.map Prod.fst).sum / (n : α)
  let meanY := (points.map Prod.snd).sum / (n : α)
  let ca := points.map (fun p => p.1 - meanX)
  let cb := points.map (fun p => p.2 - meanY)
  let saa := (ca.map (fun t => t * t)).sum
  let sab := (List.zipWith (fun s t => s * t) ca cb).sum
  let sbb := (cb.map (fun t => t * t)).sum
  let tr := saa + sbb
  let det := saa * sbb - sab * sab
  sqrt ((tr - sqrt (tr * tr - 4 * det)) / 2)

/-- Embedding of `isCollinear`: fewer than three points are collinear
outright; otherwise the second singular value of the centered point matrix
is compared against `1e-8`. -/
def isCollinear (sqrt : α → α) (points : List (α × α)) : Bool :=
  if points.length < 3 then true
  else decide (secondSingularValue sqrt points < 1 / 10 ^ 8)

/-- Euclidean distance between two points, as computed in the source. -/
def distOf (sqrt : α → α) (p q : α × α) : α :=
  sqrt ((q.1 - p.1) * (q.1 - p.1) + (q.2 - p.2) * (q.2 - p.2))

/-- Ordered pairs `(l i, l j)` with `i < j`, in the iteration order of the
source's nested `for` loops. -/
def pairsL {β : Type} : List β → List (β × β)
  | [] => []
  | x :: xs => xs.map (fun y => (x, y)) ++ pairsL xs

/-- Collinear branch of `perimeterOfCenters`: twice the maximal pairwise
distance among hull points (the degenerate stadium case). -/
def collinearPerimeter (sqrt : α → α) (positions : List (α × α))
    (hull : List Nat) : α :=
  2 * (pairsL hull).foldl (fun m ij =>
    max m (distOf sqrt (positions.getD ij.1 (0, 0))
      (positions.getD ij.2 (0, 0)))) 0

/-- Non-collinear branch of `perimeterOfCenters`: sum of the Euclidean edge
lengths around the hull cycle. -/
def hullCyclePerimeter (sqrt : α → α) (positions : List (α × α))
    (hull : List Nat) : α :=
  ((List.range hull.length).map (fun i =>
    distOf sqrt (positions.getD (hull.getD i 0) (0, 0))
      (positions.getD (hull.getD ((i + 1) % hull.length) 0) (0, 0)))).sum

/-- Embedding of `perimeterOfCenters`: `0` for at most one hull point, twice
the maximal pairwise hull distance in the collinear case, and the hull cycle
length otherwise. -/
def perimeterOfCenters (sqrt : α → α) (config : Configuration α) : α :=
  let hull := convexHullIndices config.positions
  if hull.length ≤ 1 then 0
  else if isCollinear sqrt config.positions then
    collinearPerimeter sqrt config.positions hull
  else
    hullCyclePerimeter sqrt config.positions hull

/-- Embedding of `perimeterOfDisks`: centers perimeter plus `2π·r` with
`r = radii[0]`. -/
def perimeterOfDisks (pi : α) (sqrt : α → α) (config : Configuration α) : α :=
  perimeterOfCenters sqrt config + 2 * pi * config.radii.getD 0 0

/-- Maximizer scan of the collinear gradient branch: fold over hull pairs
keeping the first pair attaining the strictly largest squared distance;
state is `(maxDistSq, endA, endB)` starting from `(0, 0, 0)`. -/
def extremalPairSq (positions : List (α × α)) (hull : List Nat) : α × Nat × Nat :=
  (pairsL hull).foldl (fun (st : α × Nat × Nat) ij =>
    let p := positions.getD ij.1 (0, 0)
    let q := positions.getD ij.2 (0, 0)
    let dSq := (q.1 - p.1) * (q.1 - p.1) + (q.2 - p.2) * (q.2 - p.2)
    if st.1 < dSq then (dSq, ij.1, ij.2) else st) (0, 0, 0)

/-- Collinear branch of `perimeterGradient`: `∓2u`/`±2u` at the two extremal
endpoints, zero when they are closer than `1e-15`. -/
def collinearGradient (sqrt : α → α) (config : Configuration α)
    (hull : List Nat) : List α :=
  let grad0 : List α := List.replicate (2 * config.n) 0
  let acc := extremalPairSq config.positions hull
  let dist := sqrt acc.1
  if dist < 1 / 10 ^ 15 then grad0
  else
    let endA := acc.2.1
    let endB := acc.2.2
    let pA := config.positions.getD endA (0, 0)
    let pB := config.positions.getD endB (0, 0)
    let ux := (pB.1 - pA.1) / dist
    let uy := (pB.2 - pA.2) / dist
    let g1 := grad0.set (2 * endA) (grad0.getD (2 * endA) 0 - 2 * ux)
    let g2 := g1.set (2 * endA + 1) (g1.getD (2 * endA + 1) 0 - 2 * uy)
    let g3 := g2.set (2 * endB) (g2.getD (2 * endB) 0 + 2 * ux)
    g3.set (2 * endB + 1) (g3.getD (2 * endB + 1) 0 + 2 * uy)

/-- Non-collinear branch of `perimeterGradient`: for each hull edge `(i, j)`
with unit direction `u`, subtract `u` at `i` and add `u` at `j`. -/
def hullCycleGradient (sqrt : α → α) (config : Configuration α)
    (hull : List Nat) : List α :=
  (List.range hull.length).foldl (fun g k =>
    let i := hull.getD k 0
    let j := hull.getD ((k + 1) % hull.length) 0
    let p := config.positions.getD i (0, 0)
    let q := config.positions.getD j (0, 0)
    let dist := sqrt ((q.1 - p.1) * (q.1 - p.1) + (q.2 - p.2) * (q.2 - p.2))
    if dist < 1 / 10 ^ 15 then g
    else
      let ux := (q.1 - p.1) / dist
      let uy := (q.2 - p.2) / dist
      let g1 := g.set (2 * i) (g.getD (2 * i) 0 - ux)
      let g2 := g1.set (2 * i + 1) (g1.getD (2 * i + 1) 0 - uy)
      let g3 := g2.set (2 * j) (g2.getD (2 * j) 0 + ux)
      g3.set (2 * j + 1) (g3.getD (2 * j + 1) 0 + uy)) (List.replicate (2 * config.n) 0)

/-- Embedding of `perimeterGradient`. -/
def perimeterGradient (sqrt : α → α) (config : Configuration α) : List α :=
  let hull := convexHullIndices config.positions
  if hull.length ≤ 1 then List.replicate (2 * config.n) 0
  else if isCollinear sqrt config.positions then
    collinearGradient sqrt config hull
  else
    hullCycleGradient sqrt config hull

/-- Embedding of `computePerimeter`. -/
def computePerimeter (pi : α) (sqrt : α → α) (config : Configuration α) :
    PerimeterResult α :=
  ⟨perimeterOfDisks pi sqrt config, perimeterGradient sqrt config⟩

/-! ## Hessian engine -/

/-- Entry read `H[r][c]` with JavaScript-style defaults. -/
def getEntry (H : List (List α)) (r c : Nat) : α := (H.getD r []).getD c 0

/-- In-place `H[r][c] += v`, modelled functionally. -/
def addEntry (H : List (List α)) (r c : Nat) (v : α) : List (List α) :=
  H.set r ((H.getD r []).set c (getEntry H r c + v))

/-- Embedding of `computeEdgeBlock`: the 2×2 block `(I - t·tᵗ)/dist`. -/
def computeEdgeBlock (t : α × α) (dist : α) : List (List α) :=
  [[(1 - t.1 * t.1) / dist, (-(t.1 * t.2)) / dist],
   [(-(t.1 * t.2)) / dist, (1 - t.2 * t.2) / dist]]

/-- Embedding of `addBlock`: add `sign · block` into the 2×2 sub-block of `H`
at block position `(row, col)`. -/
def addBlock (H block : List (List α)) (row col : Nat) (sign : α) : List (List α) :=
  let H1 := addEntry H (2 * row) (2 * col) (sign * getEntry block 0 0)
  let H2 := addEntry H1 (2 * row) (2 * col + 1) (sign * getEntry block 0 1)
  let H3 := addEntry H2 (2 * row + 1) (2 * col) (sign * getEntry block 1 0)
  addEntry H3 (2 * row + 1) (2 * col + 1) (sign * getEntry block 1 1)

/-- Maximizer scan of the collinear Hessian branch: unlike the gradient
branch it maximizes the (non-squared) distance, and its endpoints start from
the first two hull entries. -/
def extremalPairDist (sqrt : α → α) (positions : List (α × α))
    (hull : List Nat) : α × Nat × Nat :=
  (pairsL hull).foldl (fun (st : α × Nat × Nat) ij =>
    let d := distOf sqrt (positions.getD ij.1 (0, 0)) (positions.getD ij.2 (0, 0))
    if st.1 < d then (d, ij.1, ij.2) else st) (0, hull.getD 0 0, hull.getD 1 0)

/-- Collinear branch of `buildEuclideanHessian`: one doubled edge block
between the two extremal hull points. -/
def collinearEuclHessian (sqrt : α → α) (config : Configuration α)
    (hull : List Nat) : List (List α) :=
  let dim := 2 * config.n
  let H0 : List (List α) := List.replicate dim (List.replicate dim 0)
  let acc := extremalPairDist sqrt config.positions hull
  let maxDist := acc.1
  let endA := acc.2.1
  let endB := acc.2.2
  if 1 / 10 ^ 15 < maxDist then
    let pA := config.positions.getD endA (0, 0)
    let pB := config.positions.getD endB (0, 0)
    let t : α × α := ((pB.1 - pA.1) / maxDist, (pB.2 - pA.2) / maxDist)
    let block := computeEdgeBlock t maxDist
    let scaled := block.map (fun r => r.map (fun v => 2 * v))
    addBlock (addBlock (addBlock (addBlock H0 scaled endA endA 1)
      scaled endB endB 1) scaled endA endB (-1)) scaled endB endA (-1)
  else H0

/-- Non-collinear branch of `buildEuclideanHessian`: standard second
derivative blocks of the hull-edge lengths. -/
def hullCycleEuclHessian (sqrt : α → α) (config : Configuration α)
    (hull : List Nat) : List (List α) :=
  let dim := 2 * config.n
  (List.range hull.length).foldl (fun H k =>
    let u := hull.getD k 0
    let v := hull.getD ((k + 1) % hull.length) 0
    let p := config.positions.getD u (0, 0)
    let q := config.positions.getD v (0, 0)
    let dist := sqrt ((q.1 - p.1) * (q.1 - p.1) + (q.2 - p.2) * (q.2 - p.2))
    if dist < 1 / 10 ^ 15 then H
    else
      let t : α × α := ((q.1 - p.1) / dist, (q.2 - p.2) / dist)
      let block := computeEdgeBlock t dist
      addBlock (addBlock (addBlock (addBlock H block u u 1)
        block v v 1) block u v (-1)) block v u (-1))
    (List.replicate dim (List.replicate dim 0))

/-- Embedding of `buildEuclideanHessian`: hull-edge curvature blocks, with the
single doubled extremal edge in the collinear case. -/
def buildEuclideanHessian (sqrt : α → α) (config : Configuration α) : List (List α) :=
  let hull := convexHullIndices config.positions
  if isCollinear sqrt config.positions then
    collinearEuclHessian sqrt config hull
  else
    hullCycleEuclHessian sqrt config hull

/-- Largest element of a nonempty list, as `Math.max(...list)` computes it. -/
def jsMax : List α → α
  | [] => 0
  | x :: xs => xs.foldl max x

/-- Embedding of `solveLagrangeMultipliers`: truncated SVD least squares for
`Aᵗ·λ ≈ grad`.  The library SVD of `Aᵗ` is an oracle `svd` returning the raw
factors `(U, S, V)` (left singular vectors, singular values, right singular
vectors); singular directions with `S[i] ≤ 1e-10·max(S)` are discarded. -/
def solveLagrangeMultipliers
    (svd : List (List α) → List (List α) × List α × List (List α))
    (A : List (List α)) (gradient : List α) : List α :=
  if A = [] then []
  else
    let At := transposeL A
    let b := gradient.map (fun g => [g])
    let U := (svd At).1
    let S := (svd At).2.1
    let V := (svd At).2.2
    let Utb := mmulL (transposeL U) b
    let tol := 1 / 10 ^ 10 * jsMax S
    let m := A.length
    (List.range (min S.length m)).foldl (fun res i =>
      if tol < S.getD i 0 then
        let coeff := getEntry Utb i 0 / S.getD i 0
        (List.range m).foldl (fun r j =>
          r.set j (r.getD j 0 + getEntry V j i * coeff)) res
      else res) (List.replicate m 0)

/-- Embedding of `buildGeometricHessian`: per-contact curvature blocks
`-(λ/2)·(I - u·uᵗ)`, skipping contacts with coincident centers. -/
def buildGeometricHessian (sqrt : α → α) (config : Configuration α)
    (lambdas : List α) : List (List α) :=
  let dim := 2 * config.n
  let H0 : List (List α) := List.replicate dim (List.replicate dim 0)
  config.contacts.enum.foldl (fun H iduv =>
    let idx := iduv.1
    let i := iduv.2.1
    let j := iduv.2.2
    let p := config.positions.getD i (0, 0)
    let q := config.positions.getD j (0, 0)
    let dx := q.1 - p.1
    let dy := q.2 - p.2
    let dist := sqrt (dx * dx + dy * dy)
    if dist < 1 / 10 ^ 15 then H
    else
      let ux := dx / dist
      let uy := dy / dist
      let lam := lambdas.getD idx 0
      let factor := -lam / 2
      let block := [[factor * (1 - ux * ux), factor * (-(ux * uy))],
                    [factor * (-(ux * uy)), factor * (1 - uy * uy)]]
      addBlock (addBlock (addBlock (addBlock H block i i 1)
        block j j 1) block i j (-1)) block j i (-1)) H0

/-- Embedding of `projectToRoll`: `Rᵗ · H · R`. -/
def projectToRoll (HAmbient R : List (List α)) : List (List α) :=
  mmulL (mmulL (transposeL R) HAmbient) R

/-- Embedding of `symmetrize`: `(H + Hᵗ)/2`. -/
def symmetrize (H : List (List α)) : List (List α) :=
  (List.range H.length).map (fun i =>
    (List.range H.length).map (fun j => (getEntry H i j + getEntry H j i) / 2))

/-- Comparison of index positions by their eigenvalue, the sort key of
`indices.sort((a, b) => eigenvalues[a] - eigenvalues[b])`; non-strict so the
sort is stable, as JavaScript's is. -/
def evLe (ev : List α) (a b : Nat) : Prop := ev.getD a 0 ≤ ev.getD b 0

instance (ev : List α) : DecidableRel (evLe ev) :=
  fun a b => inferInstanceAs (Decidable (ev.getD a 0 ≤ ev.getD b 0))

instance (ev : List α) : IsTotal Nat (evLe ev) :=
  ⟨fun a b => le_total (ev.getD a 0) (ev.getD b 0)⟩

instance (ev : List α) : IsTrans Nat (evLe ev) :=
  ⟨fun _ _ _ => le_trans⟩

/-- Eigenvalue snapping of `intrinsicSpectrum`: magnitudes below the
tolerance become exactly `0`. -/
def snapped (ev : List α) (tolerance : α) : List α :=
  ev.map (fun v => if |v| < tolerance then 0 else v)

/-- Eigenpair list in the eigensolver's original order: the snapped
eigenvalue and the matching eigenvector column of `V`, for each index. -/
def rawSpectrumPairs (eig : List (List α) → List α × List (List α))
    (H : List (List α)) (tolerance : α) : List (α × List α) :=
  let sym := symmetrize H
  let ev := snapped (eig sym).1 tolerance
  let V := (eig sym).2
  (List.range ev.length).map (fun i => (ev.getD i 0, V.map (fun row => row.getD i 0)))

/-- Embedding of `intrinsicSpectrum`: symmetrize, eigendecompose through the
oracle `eig`, snap eigenvalues of magnitude below the tolerance to `0`, then
sort eigenvalues ascending, permuting the eigenvector columns identically
(stable sort of the index list by eigenvalue). -/
def intrinsicSpectrum (eig : List (List α) → List α × List (List α))
    (H : List (List α)) (tolerance : α) : List α × List (List α) :=
  let sym := symmetrize H
  let ev := snapped (eig sym).1 tolerance
  let V := (eig sym).2
  let indices := List.insertionSort (evLe ev) (List.range ev.length)
  (indices.map (fun i => ev.getD i 0),
   indices.map (fun i => V.map (fun row => row.getD i 0)))

/-- Rolling dimension read off a rolling matrix: the column count of its
first row (`R.length > 0 ? R[0].length : 0`). -/
def rollDimOf (R : List (List α)) : Nat :=
  if R.length > 0 then (R.headD []).length else 0

/-- Embedding of `computeHessian`: trivial result when the rolling dimension
is `0`; otherwise assemble `H_E + H_G`, project to the rolling space, take
the spectrum and classify.  Exact arithmetic has no non-finite values, so
the source's `isFinite` clamp is the identity here. -/
def computeHessian (sqrt : α → α)
    (svd : List (List α) → List (List α) × List α × List (List α))
    (eig : List (List α) → List α × List (List α))
    (config : Configuration α) (R : List (List α)) :
    Except String (HessianResult α) :=
  let rollDim := rollDimOf R
  if rollDim = 0 then
    Except.ok ⟨[], [], [], true, 0⟩
  else
    match buildContactMatrix sqrt config with
    | Except.error e => Except.error e
    | Except.ok A =>
        let HEucl := buildEuclideanHessian sqrt config
        let grad := perimeterGradient sqrt config
        let lambdas := solveLagrangeMultipliers svd A grad
        let HGeom := buildGeometricHessian sqrt config lambdas
        let dim := 2 * config.n
        let HTotal := (List.range dim).map (fun i =>
          (List.range dim).map (fun j => getEntry HEucl i j + getEntry HGeom i j))
        let HRoll := projectToRoll HTotal R
        let spec := intrinsicSpectrum eig HRoll (1 / 10 ^ 10)
        let eigenvalues := spec.1
        let eigenvectors := spec.2
        let indexMorseCritical := (eigenvalues.filter (fun v => decide (v < -(1 / 10 ^ 6)))).length
        Except.ok ⟨HRoll, eigenvalues, eigenvectors, decide (indexMorseCritical = 0),
          indexMorseCritical⟩

/-! ## Concrete configurations and oracles used by witnesses and
counterexamples -/

/-- A single disk at the origin with no contacts. -/
def soloConfig : Configuration ℚ := ⟨1, [(0, 0)], [1], [], [], []⟩

/-- Two unit disks in contact at `(-1, 0)` and `(1, 0)`. -/
def twoDiskConfig (α : Type) [LinearOrderedField α] : Configuration α :=
  ⟨2, [(-1, 0), (1, 0)], [1, 1], [(0, 1)], [], []⟩

/-- A 4-cycle contact graph on 4 disks (unit square); in range, loop-free,
duplicate-free, connected, all degrees 2. -/
def squareConfig : Configuration ℚ :=
  ⟨4, [(0, 0), (1, 0), (1, 1), (0, 1)], [1, 1, 1, 1], [(0, 1), (1, 2), (2, 3), (3, 0)], [], []⟩

/-- A configuration with an out-of-range contact listed before a self-loop:
the validator reports the index error, not the self-loop. -/
def loopAfterRangeConfig : Configuration ℚ := ⟨3, [], [], [(5, 0), (1, 1)], [], []⟩

/-- A disconnected contact graph that also contains a duplicate edge: the
validator reports the duplicate, not the disconnection. -/
def dupDisconnConfig : Configuration ℚ := ⟨4, [], [], [(0, 1), (0, 1), (2, 3)], [], []⟩

/-- A self-loop on an otherwise in-range contact list. -/
def selfLoopConfig : Configuration ℚ := ⟨2, [], [], [(0, 1), (1, 1)], [], []⟩

/-- Two disconnected contact components with clean contacts. -/
def disconnConfig : Configuration ℚ := ⟨4, [], [], [(0, 1), (2, 3)], [], []⟩

/-- Rational stand-in for `Math.sqrt` where the values taken do not matter. -/
def sqrtZero : ℚ → ℚ := fun _ => 0

/-- Eigendecomposition oracle returning nothing. -/
def emptyEig : List (List ℚ) → List ℚ × List (List ℚ) := fun _ => ([], [])

/-- Eigendecomposition oracle returning a fixed 1-dimensional answer. -/
def oneEig : List (List ℚ) → List ℚ × List (List ℚ) := fun _ => ([7], [[1]])

/-- SVD oracle returning nothing. -/
def emptySvd : List (List ℚ) → List (List ℚ) × List ℚ × List (List ℚ) :=
  fun _ => ([], [], [])

/-- A one-column rolling matrix for the single-disk configuration. -/
def soloRoll : List (List ℚ) := [[1], [0]]

/-- The Hessian result computed for `soloConfig` with rolling matrix
`soloRoll` and the fixed oracle `oneEig`. -/
def hessOkRes : HessianResult ℚ := ⟨[[0]], [7], [[1]], true, 0⟩

/-- One step of the extremal-pair scan in the collinear gradient branch. -/
def maxPairStep (d : Nat × Nat → α) (st : α × Nat × Nat) (ij : Nat × Nat) :
    α × Nat × Nat :=
  if st.1 < d ij then (d ij, ij.1, ij.2) else st

/-- The squared distance `dSq` between two indexed positions, as written in
the source's maximizer loops. -/
def sqDistPts (positions : List (α × α)) (i j : Nat) : α :=
  let p := positions.getD i (0, 0)
  let q := positions.getD j (0, 0)
  (q.1 - p.1) * (q.1 - p.1) + (q.2 - p.2) * (q.2 - p.2)

/-- Two distinct collinear centers only `1e-20` apart. -/
def tinyPairConfig (α) [LinearOrderedField α] : Configuration α :=
  ⟨2, [(0, 0), (1 / 10 ^ 20, 0)], [1, 1], [(0, 1)], [], []⟩
def threeCollinearConfig (α) [LinearOrderedField α] : Configuration α :=
  ⟨3, [(0, 0), (1, 0), (2, 0)], [1, 1, 1], [(0, 1), (1, 2)], [], []⟩

def toMat (m n : Nat) (L : List (List α)) : Matrix (Fin m) (Fin n) α :=
  Matrix.of (fun i j => (L.getD i []).getD j 0)

def fromMat {m n : Nat} (M : Matrix (Fin m) (Fin n) α) : List (List α) :=
  List.ofFn (fun i => List.ofFn (fun j => M i j))

def triConfig (α) [LinearOrderedField α] (s : α) : Configuration α :=
  ⟨3, [(0, 0), (2, 0), (1, s)], [1, 1, 1], [(0, 1), (0, 2), (1, 2)], [], []⟩

def triA (α) [LinearOrderedField α] (s : α) : List (List α) :=
  [[-1, 0, 1, 0, 0, 0],
   [-(1 / 2), -(s / 2), 0, 0, 1 / 2, s / 2],
   [0, 0, 1 / 2, -(s / 2), -(1 / 2), s / 2]]

def triEucl (α) [LinearOrderedField α] (s : α) : List (List α) :=
  [[3 / 8, -(s / 8), 0, 0, -(3 / 8), s / 8],
   [-(s / 8), 5 / 8, 0, -(1 / 2), s / 8, -(1 / 8)],
   [0, 0, 3 / 8, s / 8, -(3 / 8), -(s / 8)],
   [0, -(1 / 2), s / 8, 5 / 8, -(s / 8), -(1 / 8)],
   [-(3 / 8), s / 8, -(3 / 8), -(s / 8), 3 / 4, 0],
   [s / 8, -(1 / 8), -(s / 8), -(1 / 8), 0, 1 / 4]]

def euclEdgeStep (sqrt : α → α) (config : Configuration α) (hull : List Nat)
    (H : List (List α)) (k : Nat) : List (List α) :=
  let u := hull.getD k 0
  let v := hull.getD ((k + 1) % hull.length) 0
  let p := config.positions.getD u (0, 0)
  let q := config.positions.getD v (0, 0)
  let dist := sqrt ((q.1 - p.1) * (q.1 - p.1) + (q.2 - p.2) * (q.2 - p.2))
  if dist < 1 / 10 ^ 15 then H
  else
    let t : α × α := ((q.1 - p.1) / dist, (q.2 - p.2) / dist)
    let block := computeEdgeBlock t dist
    addBlock (addBlock (addBlock (addBlock H block u u 1)
      block v v 1) block u v (-1)) block v u (-1)

def triGeom (α) [LinearOrderedField α] (s : α) : List (List α) :=
  [[-(3 / 8), s / 8, 0, 0, 3 / 8, -(s / 8)],
   [s / 8, -(5 / 8), 0, 1 / 2, -(s / 8), 1 / 8],
   [0, 0, -(3 / 8), -(s / 8), 3 / 8, s / 8],
   [0, 1 / 2, -(s / 8), -(5 / 8), s / 8, 1 / 8],
   [3 / 8, -(s / 8), 3 / 8, s / 8, -(3 / 4), 0],
   [-(s / 8), 1 / 8, s / 8, 1 / 8, 0, -(1 / 4)]]

def geomContactStep (sqrt : α → α) (config : Configuration α) (lambdas : List α)
    (H : List (List α)) (iduv : Nat × Nat × Nat) : List (List α) :=
  let idx := iduv.1
  let i := iduv.2.1
  let j := iduv.2.2
  let p := config.positions.getD i (0, 0)
  let q := config.positions.getD j (0, 0)
  let dx := q.1 - p.1
  let dy := q.2 - p.2
  let dist := sqrt (dx * dx + dy * dy)
  if dist < 1 / 10 ^ 15 then H
  else
    let ux := dx / dist
    let uy := dy / dist
    let lam := lambdas.getD idx 0
    let factor := -lam / 2
    let block := [[factor * (1 - ux * ux), factor * (-(ux * uy))],
                  [factor * (-(ux * uy)), factor * (1 - uy * uy)]]
    addBlock (addBlock (addBlock (addBlock H block i i 1)
      block j j 1) block i j (-1)) block j i (-1)

def triG (α) [LinearOrderedField α] : List (List α) :=
  [[2, 1 / 2, 1 / 2], [1 / 2, 2, 1 / 2], [1 / 2, 1 / 2, 2]]

def eigSpecValid (k : Nat) (M : List (List ℝ)) (out : List ℝ × List (List ℝ)) : Prop :=
  out.1.length = k ∧ out.2.length = k ∧ (∀ r ∈ out.2, r.length = k) ∧
  toMat k k M * toMat k k out.2 =
    toMat k k out.2 * Matrix.diagonal (fun i : Fin k => out.1.getD i 0) ∧
  Matrix.transpose (toMat k k out.2) * toMat k k out.2 = 1

def toVec (n : Nat) (l : List α) : Fin n → α := fun i => l.getD i 0

def svdSpecValid (m n : Nat) (M : List (List ℝ))
    (out : List (List ℝ) × List ℝ × List (List ℝ)) : Prop :=
  out.1.length = m ∧ (∀ r ∈ out.1, r.length = n) ∧ out.2.1.length = n ∧
  out.2.2.length = n ∧ (∀ r ∈ out.2.2, r.length = n) ∧
  (∀ i : Nat, 0 ≤ out.2.1.getD i 0) ∧
  toMat m n out.1 * Matrix.diagonal (toVec n out.2.1) *
    Matrix.transpose (toMat n n out.2.2) = toMat m n M ∧
  Matrix.transpose (toMat m n out.1) * toMat m n out.1 = 1 ∧
  Matrix.transpose (toMat n n out.2.2) * toMat n n out.2.2 = 1


/-! ## Helper lemmas -/

theorem getD_set_self {β : Type} (l : List β) (u : Nat) (hu : u < l.length) (x d : β) :
    (l.set u x).getD u d = x := by
  rw [List.getD_eq_getElem _ _ (by simpa using hu)]
  simp [List.getElem_set, hu]

theorem getD_set_other {β : Type} (l : List β) (u k : Nat) (h : u ≠ k) (x d : β) :
    (l.set u x).getD k d = l.getD k d := by
  rcases lt_or_ge k l.length with hk | hk
  · rw [List.getD_eq_getElem _ _ (by simpa using hk), List.getD_eq_getElem _ _ hk]
    simp [List.getElem_set, h]
  · rw [List.getD_eq_default _ _ (by simpa using hk), List.getD_eq_default _ _ hk]

/-- One step of the degree fold adds the incidence indicators of the contact. -/
theorem degreeStep_getD (degs : List Nat) (u v k : Nat)
    (hu : u < degs.length) (hv : v < degs.length) :
    (let degs1 := degs.set u (degs.getD u 0 + 1)
     degs1.set v (degs1.getD v 0 + 1)).getD k 0 =
      degs.getD k 0 + (if u = k then 1 else 0) + (if v = k then 1 else 0) := by
  by_cases hvk : v = k
  · subst hvk
    rw [getD_set_self _ _ (by simpa using hv)]
    by_cases huv : u = v
    · subst huv
      rw [getD_set_self _ _ hu]
      simp
    · rw [getD_set_other _ _ _ huv]
      simp [huv]
  · rw [getD_set_other _ _ _ hvk]
    by_cases huk : u = k
    · subst huk
      rw [getD_set_self _ _ hu]
      simp [hvk]
    · rw [getD_set_other _ _ _ huk]
      simp [huk, hvk]

theorem degrees_fold_getD (k n : Nat) :
    ∀ (l : List (Nat × Nat)) (degs : List Nat), degs.length = n →
    (∀ uv ∈ l, uv.1 < n ∧ uv.2 < n) →
    (l.foldl (fun degs uv =>
      let degs1 := degs.set uv.1 (degs.getD uv.1 0 + 1)
      degs1.set uv.2 (degs1.getD uv.2 0 + 1)) degs).getD k 0 =
      degs.getD k 0 + l.countP (fun uv => decide (uv.1 = k)) +
        l.countP (fun uv => decide (uv.2 = k))
  | [], degs, _, _ => by simp
  | uv :: rest, degs, hlen, hin => by
      rw [List.foldl_cons]
      rw [degrees_fold_getD k n rest _
        (by simp [hlen]) (fun x hx => hin x (List.mem_cons_of_mem _ hx))]
      rw [degreeStep_getD degs uv.1 uv.2 k
        (by rw [hlen]; exact (hin uv (List.mem_cons_self _ _)).1)
        (by rw [hlen]; exact (hin uv (List.mem_cons_self _ _)).2)]
      simp [List.countP_cons]
      by_cases h1 : uv.1 = k <;> by_cases h2 : uv.2 = k <;> simp [h1, h2] <;> omega

/-- The computed degree of a vertex equals its incidence count, for in-range
contacts. -/
theorem computeVertexDegrees_getD (n k : Nat) (contacts : List (Nat × Nat))
    (hin : ∀ uv ∈ contacts, uv.1 < n ∧ uv.2 < n) :
    (computeVertexDegrees n contacts).getD k 0 =
      contacts.countP (fun uv => decide (uv.1 = k)) +
        contacts.countP (fun uv => decide (uv.2 = k)) := by
  unfold computeVertexDegrees
  rw [degrees_fold_getD k n contacts (List.replicate n 0) (by simp) hin]
  have hz : (List.replicate n (0 : Nat)).getD k 0 = 0 := by
    rcases lt_or_ge k n with hk | hk
    · rw [List.getD_eq_getElem _ _ (by simpa using hk)]
      simp
    · rw [List.getD_eq_default _ _ (by simpa using hk)]
  rw [hz]
  omega

/-- A duplicate-free contact list (pairwise distinct undirected keys, none
already seen) passes the duplicate scan. -/
theorem findDuplicate_eq_none :
    ∀ (l : List (Nat × Nat)) (seen : List (Nat × Nat)),
    l.Pairwise (fun a b => canonKey a ≠ canonKey b) →
    (∀ x ∈ l, canonKey x ∉ seen) →
    findDuplicate seen l = none
  | [], _, _, _ => rfl
  | uv :: rest, seen, hpw, hseen => by
      rw [findDuplicate]
      rw [if_neg (fun hmem =>
        hseen uv (List.mem_cons_self _ _) (List.elem_iff.mp hmem))]
      exact findDuplicate_eq_none rest (canonKey uv :: seen)
        (List.Pairwise.of_cons hpw)
        (fun x hx hmem => by
          rcases List.mem_cons.mp hmem with h | h
          · exact (List.rel_of_pairwise_cons hpw hx) h.symm
          · exact hseen x (List.mem_cons_of_mem _ hx) h)

/-! ## Claim theorems -/

/-- Claim C3: for a Configuration whose combined contacts are in range, free
of self-loops and duplicate undirected pairs, whose contact graph is
connected (BFS from disk 0 reaches every disk, the spec's own criterion) and
whose vertex degrees are all at most 6, `checkGraphValidity` reports
`isValid = true` with the informational `expectedEdges = 2n + 1`, and is
valid regardless of whether the actual count matches, with the two cases
distinguished only in the message. -/
theorem checkGraphValidity_valid {α : Type} (config : Configuration α)
    (hin : ∀ uv ∈ config.contacts ++ config.latticeContacts,
      uv.1 < config.n ∧ uv.2 < config.n)
    (hloop : ∀ uv ∈ config.contacts ++ config.latticeContacts, uv.1 ≠ uv.2)
    (hdup : (config.contacts ++ config.latticeContacts).Pairwise
      (fun a b => canonKey a ≠ canonKey b))
    (hconn : isConnected config.n (config.contacts ++ config.latticeContacts) = true)
    (hdeg : ∀ k < config.n, (config.contacts ++ config.latticeContacts).countP
        (fun uv => decide (uv.1 = k)) +
      (config.contacts ++ config.latticeContacts).countP
        (fun uv => decide (uv.2 = k)) ≤ 6) :
    checkGraphValidity config =
      ⟨true, 2 * config.n + 1, (config.contacts ++ config.latticeContacts).length,
        if (config.contacts ++ config.latticeContacts).length = 2 * config.n + 1
        then "Valid graph with expected edge count"
        else s!"Valid graph ({(config.contacts ++ config.latticeContacts).length} edges, expected {2 * config.n + 1} for rigidity)"⟩ := by
  have h1 : (config.contacts ++ config.latticeContacts).find?
      (fun uv => decide (config.n ≤ uv.1 ∨ config.n ≤ uv.2)) = none := by
    rw [List.find?_eq_none]
    intro x hx
    simp only [decide_eq_true_eq]
    push_neg
    exact ⟨(hin x hx).1, (hin x hx).2⟩
  have h2 : (config.contacts ++ config.latticeContacts).find?
      (fun uv => decide (uv.1 = uv.2)) = none := by
    rw [List.find?_eq_none]
    intro x hx
    simpa using hloop x hx
  have h3 : findDuplicate [] (config.contacts ++ config.latticeContacts) = none :=
    findDuplicate_eq_none _ _ hdup (by simp)
  have h4 : (List.range config.n).find? (fun i =>
      decide (6 < (computeVertexDegrees config.n
        (config.contacts ++ config.latticeContacts)).getD i 0)) = none := by
    rw [List.find?_eq_none]
    intro x hx
    simp only [decide_eq_true_eq, not_lt]
    rw [computeVertexDegrees_getD _ _ _ hin]
    exact hdeg x (List.mem_range.mp hx)
  unfold checkGraphValidity
  simp only [h1, h2, h3, h4, hconn]
  simp

/-- Witness for C3 at the 4-cycle configuration: all hypotheses hold and the
validator reports a valid graph with the informational message (here the
actual edge count 4 differs from the heuristic 9). -/
theorem checkGraphValidity_valid_witness :
    checkGraphValidity squareConfig =
      ⟨true, 9, 4, "Valid graph (4 edges, expected 9 for rigidity)"⟩ := by
  have h := checkGraphValidity_valid squareConfig
    (by decide) (by decide) (by decide) (by decide) (by decide)
  simpa using h

/-- Claim C9 (amended): a Configuration containing a self-loop always fails
validation; when all contact indices are in range the reported message names
the vertex of the first self-loop in list order; and a disconnected contact
graph yields exactly the "Graph is not connected" record provided the earlier
checks (index bounds, self-loops, duplicates) pass. -/
theorem checkGraphValidity_selfLoop_disconnected {α : Type} (config : Configuration α) :
    ((∃ i, (i, i) ∈ config.contacts ++ config.latticeContacts) →
      (checkGraphValidity config).isValid = false) ∧
    ((∀ uv ∈ config.contacts ++ config.latticeContacts,
        uv.1 < config.n ∧ uv.2 < config.n) →
      ∀ uv, (config.contacts ++ config.latticeContacts).find?
          (fun x => decide (x.1 = x.2)) = some uv →
        (checkGraphValidity config).isValid = false ∧
        (checkGraphValidity config).message = s!"Self-loop detected at vertex {uv.1}") ∧
    ((∀ uv ∈ config.contacts ++ config.latticeContacts,
        uv.1 < config.n ∧ uv.2 < config.n) →
      (∀ uv ∈ config.contacts ++ config.latticeContacts, uv.1 ≠ uv.2) →
      (config.contacts ++ config.latticeContacts).Pairwise
        (fun a b => canonKey a ≠ canonKey b) →
      isConnected config.n (config.contacts ++ config.latticeContacts) = false →
      checkGraphValidity config =
        ⟨false, 0, (config.contacts ++ config.latticeContacts).length,
          "Graph is not connected"⟩) := by
  refine ⟨?_, ?_, ?_⟩
  · rintro ⟨i, hi⟩
    unfold checkGraphValidity
    cases hfind1 : (config.contacts ++ config.latticeContacts).find?
        (fun uv => decide (config.n ≤ uv.1 ∨ config.n ≤ uv.2)) with
    | some uv => simp only [hfind1]
    | none =>
        cases hfind2 : (config.contacts ++ config.latticeContacts).find?
            (fun uv => decide (uv.1 = uv.2)) with
        | some uv => simp only [hfind1, hfind2]
        | none =>
            exfalso
            have := List.find?_eq_none.mp hfind2 (i, i) hi
            simp at this
  · intro hin uv hfind2
    have h1 : (config.contacts ++ config.latticeContacts).find?
        (fun uv => decide (config.n ≤ uv.1 ∨ config.n ≤ uv.2)) = none := by
      rw [List.find?_eq_none]
      intro x hx
      simp only [decide_eq_true_eq]
      push_neg
      exact ⟨(hin x hx).1, (hin x hx).2⟩
    unfold checkGraphValidity
    simp only [h1, hfind2]
    simp
  · intro hin hloop hdup hconn
    have h1 : (config.contacts ++ config.latticeContacts).find?
        (fun uv => decide (config.n ≤ uv.1 ∨ config.n ≤ uv.2)) = none := by
      rw [List.find?_eq_none]
      intro x hx
      simp only [decide_eq_true_eq]
      push_neg
      exact ⟨(hin x hx).1, (hin x hx).2⟩
    have h2 : (config.contacts ++ config.latticeContacts).find?
        (fun uv => decide (uv.1 = uv.2)) = none := by
      rw [List.find?_eq_none]
      intro x hx
      simpa using hloop x hx
    have h3 : findDuplicate [] (config.contacts ++ config.latticeContacts) = none :=
      findDuplicate_eq_none _ _ hdup (by simp)
    unfold checkGraphValidity
    simp only [h1, h2, h3, hconn]
    simp

/-- Counterexample for C9 as frozen: with an out-of-range contact listed
before the self-loop `(1, 1)`, the validator is invalid but its message is
the index error, not one naming vertex 1; and with a duplicate edge in a
disconnected graph the message is the duplicate report, not
"Graph is not connected". -/
theorem c9_counterexample :
    ((1, 1) ∈ loopAfterRangeConfig.contacts ++ loopAfterRangeConfig.latticeContacts ∧
     (checkGraphValidity loopAfterRangeConfig).isValid = false ∧
     (checkGraphValidity loopAfterRangeConfig).message ≠
       "Self-loop detected at vertex 1") ∧
    (isConnected dupDisconnConfig.n
       (dupDisconnConfig.contacts ++ dupDisconnConfig.latticeContacts) = false ∧
     (checkGraphValidity dupDisconnConfig).isValid = false ∧
     (checkGraphValidity dupDisconnConfig).message ≠ "Graph is not connected") := by
  decide

/-- Witness for C9 at clean inputs: a self-loop on in-range contacts yields
the naming message, and a clean disconnected graph yields the connectivity
record. -/
theorem c9_witness :
    (checkGraphValidity selfLoopConfig).isValid = false ∧
    (checkGraphValidity selfLoopConfig).message = "Self-loop detected at vertex 1" ∧
    checkGraphValidity disconnConfig = ⟨false, 0, 2, "Graph is not connected"⟩ := by
  refine ⟨?_, ?_, ?_⟩
  · exact (checkGraphValidity_selfLoop_disconnected selfLoopConfig).1 ⟨1, by decide⟩
  · have h := ((checkGraphValidity_selfLoop_disconnected selfLoopConfig).2.1
      (by decide) (1, 1) (by decide)).2
    exact h.trans (by decide)
  · exact (checkGraphValidity_selfLoop_disconnected disconnConfig).2.2
      (by decide) (by decide) (by decide) (by decide)

theorem sorted_map_evLe (ev : List α) (idx : List Nat) :
    ((List.insertionSort (evLe ev) idx).map (fun i => ev.getD i 0)).Sorted
      (fun a b => a ≤ b) := by
  have tot : IsTotal Nat (evLe ev) := ⟨fun a b => le_total _ _⟩
  have tra : IsTrans Nat (evLe ev) := ⟨fun _ _ _ => le_trans⟩
  have hs := @List.sorted_insertionSort Nat (evLe ev) _ tot tra idx
  exact List.Pairwise.map _ (fun _ _ h => h) hs

/-- Eigenvalues returned by `intrinsicSpectrum` are sorted ascending. -/
theorem intrinsicSpectrum_sorted (eig : List (List α) → List α × List (List α))
    (H : List (List α)) (tol : α) :
    ((intrinsicSpectrum eig H tol).1).Sorted (fun a b => a ≤ b) := by
  unfold intrinsicSpectrum
  exact sorted_map_evLe _ _

/-- The sorted eigenpairs of `intrinsicSpectrum` are a permutation of the
solver's raw eigenpairs: eigenvectors are permuted identically with their
eigenvalues. -/
theorem intrinsicSpectrum_perm (eig : List (List α) → List α × List (List α))
    (H : List (List α)) (tol : α) :
    ((intrinsicSpectrum eig H tol).1.zip (intrinsicSpectrum eig H tol).2).Perm
      (rawSpectrumPairs eig H tol) := by
  unfold intrinsicSpectrum rawSpectrumPairs
  rw [List.zip_map']
  exact (List.perm_insertionSort _ _).map _

/-- Claim C5: every `HessianResult` produced by `computeHessian` with
positive rolling dimension has its eigenvalues sorted ascending with the
eigenvectors permuted identically (the sorted eigenpairs are a permutation
of the solver's raw eigenpairs for the projected Hessian `res.hessian`),
a Morse index equal to the count of eigenvalues strictly below `-1e-6`,
and `isLocalMinimum` exactly when that index is `0`. -/
theorem computeHessian_spectrum {α : Type} [LinearOrderedField α]
    (sqrt : α → α)
    (svd : List (List α) → List (List α) × List α × List (List α))
    (eig : List (List α) → List α × List (List α))
    (config : Configuration α) (R : List (List α)) (res : HessianResult α)
    (hdim : rollDimOf R ≠ 0)
    (hok : computeHessian sqrt svd eig config R = Except.ok res) :
    res.eigenvalues.Sorted (fun a b => a ≤ b) ∧
    (res.eigenvalues.zip res.eigenvectors).Perm
      (rawSpectrumPairs eig res.hessian (1 / 10 ^ 10)) ∧
    res.indexMorseCritical =
      res.eigenvalues.countP (fun v => decide (v < -(1 / 10 ^ 6))) ∧
    (res.isLocalMinimum = true ↔ res.indexMorseCritical = 0) := by
  unfold computeHessian at hok
  rw [if_neg hdim] at hok
  split at hok
  · exact Except.noConfusion hok
  · rw [Except.ok.injEq] at hok
    subst hok
    refine ⟨intrinsicSpectrum_sorted _ _ _, intrinsicSpectrum_perm _ _ _, ?_, ?_⟩
    · simp [List.countP_eq_length_filter]
    · simp

/-- Witness for C5: the single-disk configuration with a one-column rolling
matrix runs the full Hessian branch; the resulting spectrum is sorted, the
eigenpairs match the solver's raw output, and the classification fields
agree. -/
theorem computeHessian_spectrum_witness :
    rollDimOf soloRoll ≠ 0 ∧
    computeHessian sqrtZero emptySvd oneEig soloConfig soloRoll = Except.ok hessOkRes ∧
    (hessOkRes.eigenvalues.Sorted (fun a b => a ≤ b) ∧
     (hessOkRes.eigenvalues.zip hessOkRes.eigenvectors).Perm
       (rawSpectrumPairs oneEig hessOkRes.hessian (1 / 10 ^ 10)) ∧
     hessOkRes.indexMorseCritical =
       hessOkRes.eigenvalues.countP (fun v => decide (v < -(1 / 10 ^ 6))) ∧
     (hessOkRes.isLocalMinimum = true ↔ hessOkRes.indexMorseCritical = 0)) := by
  have hok : computeHessian sqrtZero emptySvd oneEig soloConfig soloRoll =
      Except.ok hessOkRes := by
    norm_num [computeHessian, rollDimOf, soloRoll, soloConfig, hessOkRes,
      buildContactMatrix, buildEuclideanHessian, convexHullIndices, isCollinear,
      collinearEuclHessian, extremalPairDist, pairsL, perimeterGradient,
      solveLagrangeMultipliers, buildGeometricHessian, projectToRoll, mmulL,
      transposeL, dotL, getEntry, intrinsicSpectrum, symmetrize, snapped, evLe,
      List.insertionSort, List.orderedInsert, sqrtZero, emptySvd, oneEig,
      List.range_succ, buildRows]
  exact ⟨by decide, hok,
    computeHessian_spectrum sqrtZero emptySvd oneEig soloConfig soloRoll hessOkRes
      (by decide) hok⟩

/-- Claim C1 (amended): with no contacts, `buildContactMatrix` returns the
empty matrix, `rollingSpaceBasis` returns the empty list (not a `2n`-sized
basis), and the reported rolling dimension is `0` (not `2n`), for every
eigendecomposition oracle — the oracle is never consulted. -/
theorem computeConstraints_noContacts {α : Type} [LinearOrderedField α]
    (sqrt : α → α) (eig : List (List α) → List α × List (List α))
    (config : Configuration α) (h : config.contacts = []) :
    computeConstraints sqrt eig config = Except.ok ⟨[], [], 0⟩ := by
  unfold computeConstraints buildContactMatrix
  rw [h]
  simp [rollingSpaceBasis, buildRows]

/-- Counterexample for C1 as frozen: for one disk and no contacts the
reported rolling dimension is `0`, not `2n = 2`. -/
theorem c1_counterexample :
    soloConfig.contacts = [] ∧
    computeConstraints sqrtZero emptyEig soloConfig =
      Except.ok ⟨([] : List (List ℚ)), [], 0⟩ ∧
    (0 : Nat) ≠ 2 * soloConfig.n := by decide

/-- Witness for C1 (amended) at the single-disk configuration. -/
theorem c1_witness :
    soloConfig.contacts = [] ∧
    computeConstraints sqrtZero emptyEig soloConfig =
      Except.ok ⟨([] : List (List ℚ)), [], 0⟩ :=
  ⟨rfl, computeConstraints_noContacts sqrtZero emptyEig soloConfig rfl⟩

/-- Claim C4: whenever the rolling matrix has zero columns, `computeHessian`
skips the assembly entirely and returns the trivial result: empty Hessian,
empty spectrum, `isLocalMinimum = true` and Morse index `0`. -/
theorem computeHessian_zeroRollDim {α : Type} [LinearOrderedField α]
    (sqrt : α → α)
    (svd : List (List α) → List (List α) × List α × List (List α))
    (eig : List (List α) → List α × List (List α))
    (config : Configuration α) (R : List (List α))
    (h : rollDimOf R = 0) :
    computeHessian sqrt svd eig config R = Except.ok ⟨[], [], [], true, 0⟩ := by
  unfold computeHessian
  rw [if_pos h]

/-- Witness for C4 at the empty rolling matrix. -/
theorem c4_witness :
    rollDimOf ([] : List (List ℚ)) = 0 ∧
    computeHessian sqrtZero emptySvd emptyEig soloConfig [] =
      Except.ok ⟨[], [], [], true, 0⟩ :=
  ⟨rfl, computeHessian_zeroRollDim sqrtZero emptySvd emptyEig soloConfig [] rfl⟩

theorem contactRow_error_iff (sqrt : α → α) (config : Configuration α) (i j : Nat) :
    (∃ e, contactRow sqrt config i j = Except.error e) ↔
      sqrt (((config.positions.getD j (0,0)).1 - (config.positions.getD i (0,0)).1) *
            ((config.positions.getD j (0,0)).1 - (config.positions.getD i (0,0)).1) +
            ((config.positions.getD j (0,0)).2 - (config.positions.getD i (0,0)).2) *
            ((config.positions.getD j (0,0)).2 - (config.positions.getD i (0,0)).2)) <
        1 / 10 ^ 15 := by
  by_cases h : sqrt (((config.positions.getD j (0,0)).1 - (config.positions.getD i (0,0)).1) *
      ((config.positions.getD j (0,0)).1 - (config.positions.getD i (0,0)).1) +
      ((config.positions.getD j (0,0)).2 - (config.positions.getD i (0,0)).2) *
      ((config.positions.getD j (0,0)).2 - (config.positions.getD i (0,0)).2)) <
      1 / 10 ^ 15
  · simp only [contactRow]
    rw [if_pos h]
    constructor
    · intro _
      exact h
    · intro _
      exact ⟨_, rfl⟩
  · simp only [contactRow]
    rw [if_neg h]
    constructor
    · rintro ⟨e, he⟩
      exact Except.noConfusion he
    · intro hc
      exact absurd hc h

theorem contactRow_ok (sqrt : α → α) (config : Configuration α) (i j : Nat)
    (h : ¬ sqrt (((config.positions.getD j (0,0)).1 - (config.positions.getD i (0,0)).1) *
            ((config.positions.getD j (0,0)).1 - (config.positions.getD i (0,0)).1) +
            ((config.positions.getD j (0,0)).2 - (config.positions.getD i (0,0)).2) *
            ((config.positions.getD j (0,0)).2 - (config.positions.getD i (0,0)).2)) <
        1 / 10 ^ 15) :
    contactRow sqrt config i j = Except.ok (contactRowValue sqrt config i j) := by
  simp only [contactRow, contactRowValue]
  rw [if_neg h]

theorem buildRows_ok (sqrt : α → α) (config : Configuration α) :
    ∀ l : List (Nat × Nat),
    (∀ uv ∈ l, contactRow sqrt config uv.1 uv.2 =
      Except.ok (contactRowValue sqrt config uv.1 uv.2)) →
    buildRows sqrt config l =
      Except.ok (l.map (fun uv => contactRowValue sqrt config uv.1 uv.2))
  | [], _ => rfl
  | uv :: rest, h => by
      rw [buildRows, h uv (List.mem_cons_self _ _),
        buildRows_ok sqrt config rest (fun x hx => h x (List.mem_cons_of_mem _ hx))]
      simp

theorem buildRows_error (sqrt : α → α) (config : Configuration α) :
    ∀ l : List (Nat × Nat),
    (∃ uv ∈ l, ∃ e, contactRow sqrt config uv.1 uv.2 = Except.error e) →
    ∃ e, buildRows sqrt config l = Except.error e
  | uv :: rest, hex => by
      rw [buildRows]
      cases hf : contactRow sqrt config uv.1 uv.2 with
      | error e => exact ⟨e, rfl⟩
      | ok b =>
          obtain ⟨y, hy, e, he⟩ := hex
          have hyr : y ∈ rest := by
            rcases List.mem_cons.mp hy with h | h
            · subst h
              rw [hf] at he
              exact Except.noConfusion he
            · exact h
          obtain ⟨e2, he2⟩ := buildRows_error sqrt config rest ⟨y, hyr, e, he⟩
          rw [he2]
          exact ⟨e2, rfl⟩

theorem setChain_length (n i j : Nat) (w x y z : α) :
    (((((List.replicate (2 * n) (0 : α)).set (2 * i) w).set (2 * i + 1) x).set
      (2 * j) y).set (2 * j + 1) z).length = 2 * n := by
  simp

theorem setChain_getD (n i j : Nat) (hi : i < n) (hj : j < n) (hij : i ≠ j)
    (w x y z : α) (c : Nat) :
    ((((((List.replicate (2 * n) (0 : α)).set (2 * i) w).set (2 * i + 1) x).set
      (2 * j) y).set (2 * j + 1) z).getD c 0) =
      (if c = 2 * i then w else if c = 2 * i + 1 then x
       else if c = 2 * j then y else if c = 2 * j + 1 then z else 0) := by
  have len1 : ((List.replicate (2 * n) (0 : α)).set (2 * i) w).length = 2 * n := by simp
  have len2 : (((List.replicate (2 * n) (0 : α)).set (2 * i) w).set (2 * i + 1) x).length
      = 2 * n := by simp
  have len3 : ((((List.replicate (2 * n) (0 : α)).set (2 * i) w).set (2 * i + 1) x).set
      (2 * j) y).length = 2 * n := by simp
  by_cases h4 : c = 2 * j + 1
  · subst h4
    rw [getD_set_self _ _ (by rw [len3]; omega)]
    have h1 : ¬ (2 * j + 1 = 2 * i) := by omega
    have h2 : ¬ (2 * j + 1 = 2 * i + 1) := by omega
    have h3 : ¬ (2 * j + 1 = 2 * j) := by omega
    simp [h1, h2, h3]
  · rw [getD_set_other _ _ _ (fun he => h4 he.symm)]
    by_cases h3 : c = 2 * j
    · subst h3
      rw [getD_set_self _ _ (by rw [len2]; omega)]
      have h1 : ¬ (2 * j = 2 * i) := by omega
      have h2 : ¬ (2 * j = 2 * i + 1) := by omega
      simp [h1, h2]
    · rw [getD_set_other _ _ _ (fun he => h3 he.symm)]
      by_cases h2 : c = 2 * i + 1
      · subst h2
        rw [getD_set_self _ _ (by rw [len1]; omega)]
        have h1 : ¬ (2 * i + 1 = 2 * i) := by omega
        simp [h1]
      · rw [getD_set_other _ _ _ (fun he => h2 he.symm)]
        by_cases h1 : c = 2 * i
        · subst h1
          rw [getD_set_self _ _ (by simp; omega)]
          simp
        · rw [getD_set_other _ _ _ (fun he => h1 he.symm)]
          rcases lt_or_ge c (2 * n) with hc | hc
          · rw [List.getD_eq_getElem _ _ (by simpa using hc)]
            simp [h1, h2, h3, h4]
          · rw [List.getD_eq_default _ _ (by simpa using hc)]
            simp [h1, h2, h3, h4]

/-- Claim C6: `buildContactMatrix` reports the coincident-center geometry
failure exactly when some contact's center distance is below `1e-15`;
otherwise it returns a matrix with one row of width `2n` per contact whose
only nonzero entries are `-u` at columns `(2i, 2i+1)` and `+u` at columns
`(2j, 2j+1)`, `u` being the unit vector from center `i` to center `j`. -/
theorem buildContactMatrix_spec (config : Configuration ℝ)
    (hin : ∀ uv ∈ config.contacts, uv.1 < config.n ∧ uv.2 < config.n) :
    ((∃ uv ∈ config.contacts,
        distOf Real.sqrt (config.positions.getD uv.1 (0, 0))
          (config.positions.getD uv.2 (0, 0)) < 1 / 10 ^ 15) ↔
      (∃ e, buildContactMatrix Real.sqrt config = Except.error e)) ∧
    (∀ A, buildContactMatrix Real.sqrt config = Except.ok A →
      A.length = config.contacts.length ∧
      (∀ row ∈ A, row.length = 2 * config.n) ∧
      (∀ k, k < config.contacts.length →
        (config.contacts.getD k (0, 0)).1 ≠ (config.contacts.getD k (0, 0)).2 ∧
        ∀ c, (A.getD k []).getD c 0 =
          (let uv := config.contacts.getD k (0, 0)
           let p := config.positions.getD uv.1 (0, 0)
           let q := config.positions.getD uv.2 (0, 0)
           let dist := distOf Real.sqrt p q
           let ux := (q.1 - p.1) / dist
           let uy := (q.2 - p.2) / dist
           if c = 2 * uv.1 then -ux else if c = 2 * uv.1 + 1 then -uy
           else if c = 2 * uv.2 then ux else if c = 2 * uv.2 + 1 then uy
           else 0))) := by
  have hgood : ∀ uv : Nat × Nat, ¬ (distOf Real.sqrt (config.positions.getD uv.1 (0, 0))
      (config.positions.getD uv.2 (0, 0)) < 1 / 10 ^ 15) →
      contactRow Real.sqrt config uv.1 uv.2 =
        Except.ok (contactRowValue Real.sqrt config uv.1 uv.2) := by
    intro uv h
    exact contactRow_ok Real.sqrt config uv.1 uv.2 (by simpa [distOf] using h)
  unfold buildContactMatrix
  constructor
  · constructor
    · rintro ⟨uv, huv, hbad⟩
      exact buildRows_error Real.sqrt config config.contacts
        ⟨uv, huv, (contactRow_error_iff Real.sqrt config uv.1 uv.2).mpr
          (by simpa [distOf] using hbad)⟩
    · rintro ⟨e, he⟩
      by_contra hno
      push_neg at hno
      have hok := buildRows_ok Real.sqrt config config.contacts
        (fun uv huv => hgood uv (not_lt.mpr (hno uv huv)))
      rw [he] at hok
      exact Except.noConfusion hok
  · intro A hA
    have hnone : ∀ uv ∈ config.contacts, ¬ (distOf Real.sqrt
        (config.positions.getD uv.1 (0, 0))
        (config.positions.getD uv.2 (0, 0)) < 1 / 10 ^ 15) := by
      intro uv huv hbad
      obtain ⟨e, he⟩ := buildRows_error Real.sqrt config config.contacts
        ⟨uv, huv, (contactRow_error_iff Real.sqrt config uv.1 uv.2).mpr
          (by simpa [distOf] using hbad)⟩
      rw [hA] at he
      exact Except.noConfusion he
    have hmap := buildRows_ok Real.sqrt config config.contacts
      (fun uv huv => hgood uv (hnone uv huv))
    rw [hA] at hmap
    rw [Except.ok.injEq] at hmap
    subst hmap
    refine ⟨by simp, ?_, ?_⟩
    · intro row hrow
      obtain ⟨uv, _, hre⟩ := List.mem_map.mp hrow
      rw [← hre]
      rw [contactRowValue]
      exact setChain_length _ _ _ _ _ _ _
    · intro k hk
      have hkmem : config.contacts.getD k (0, 0) ∈ config.contacts := by
        rw [List.getD_eq_getElem _ _ hk]
        exact List.getElem_mem _
      have hij : (config.contacts.getD k (0, 0)).1 ≠ (config.contacts.getD k (0, 0)).2 := by
        intro he
        apply hnone _ hkmem
        rw [he]
        have hz : distOf Real.sqrt
            (config.positions.getD (config.contacts.getD k (0, 0)).2 (0, 0))
            (config.positions.getD (config.contacts.getD k (0, 0)).2 (0, 0)) = 0 := by
          simp [distOf]
        rw [hz]
        norm_num
      refine ⟨hij, ?_⟩
      intro c
      have hAk : (config.contacts.map
            (fun uv => contactRowValue Real.sqrt config uv.1 uv.2)).getD k [] =
          contactRowValue Real.sqrt config (config.contacts.getD k (0, 0)).1
            (config.contacts.getD k (0, 0)).2 := by
        rw [List.getD_eq_getElem _ _ (by simpa using hk)]
        rw [List.getElem_map]
        rw [List.getD_eq_getElem _ _ hk]
      rw [hAk]
      rw [contactRowValue]
      rw [setChain_getD config.n _ _ (hin _ hkmem).1 (hin _ hkmem).2 hij _ _ _ _ c]
      simp only [distOf]


/-- Witness for C6 at the two-disk contact configuration: the hypotheses
hold, the matrix evaluates to `[[-1, 0, 1, 0]]`, and the specification
applies. -/
theorem buildContactMatrix_spec_witness :
    (∀ uv ∈ (twoDiskConfig ℝ).contacts,
      uv.1 < (twoDiskConfig ℝ).n ∧ uv.2 < (twoDiskConfig ℝ).n) ∧
    buildContactMatrix Real.sqrt (twoDiskConfig ℝ) = Except.ok [[-1, 0, 1, 0]] ∧
    ((∃ uv ∈ (twoDiskConfig ℝ).contacts,
        distOf Real.sqrt ((twoDiskConfig ℝ).positions.getD uv.1 (0, 0))
          ((twoDiskConfig ℝ).positions.getD uv.2 (0, 0)) < 1 / 10 ^ 15) ↔
      (∃ e, buildContactMatrix Real.sqrt (twoDiskConfig ℝ) = Except.error e)) := by
  have h4 : Real.sqrt 4 = 2 := by
    rw [show (4 : ℝ) = 2 ^ 2 by norm_num, Real.sqrt_sq (by norm_num)]
  refine ⟨by decide, ?_, (buildContactMatrix_spec (twoDiskConfig ℝ) (by decide)).1⟩
  norm_num [buildContactMatrix, buildRows, contactRow, twoDiskConfig, h4,
    List.replicate, List.set]

theorem hull_of_two (pts : List (α × α)) (h : pts.length = 2) :
    ∃ i j : Nat, i ≠ j ∧ i < 2 ∧ j < 2 ∧ convexHullIndices pts = [i, j] := by
  match pts, h with
  | [p, q], _ =>
    by_cases hc : lexLe (IndexedPoint.mk p.1 p.2 0) (IndexedPoint.mk q.1 q.2 1)
    · refine ⟨0, 1, by omega, by omega, by omega, ?_⟩
      simp [convexHullIndices, List.insertionSort, List.orderedInsert, hc,
        buildHalf, chainStep, dedupFirst, dedupFirstGo]
    · refine ⟨1, 0, by omega, by omega, by omega, ?_⟩
      simp [convexHullIndices, List.insertionSort, List.orderedInsert, hc,
        buildHalf, chainStep, dedupFirst, dedupFirstGo]

/-- Claim C10: `isCollinear` answers `true` for fewer than three points for
every sqrt/SVD stand-in (the rank test is never consulted), and every
two-disk Configuration is routed through the collinear (stadium) branch of
`perimeterOfCenters`, `perimeterGradient` and `buildEuclideanHessian`. -/
theorem twoDisk_collinear_routing {β : Type} [LinearOrderedField β] :
    (∀ (sqrt : β → β) (pts : List (β × β)), pts.length < 3 →
      isCollinear sqrt pts = true) ∧
    (∀ (sqrt : β → β) (config : Configuration β), config.positions.length = 2 →
      perimeterOfCenters sqrt config =
        collinearPerimeter sqrt config.positions (convexHullIndices config.positions) ∧
      perimeterGradient sqrt config =
        collinearGradient sqrt config (convexHullIndices config.positions) ∧
      buildEuclideanHessian sqrt config =
        collinearEuclHessian sqrt config (convexHullIndices config.positions)) := by
  have hcol : ∀ (sqrt : β → β) (pts : List (β × β)), pts.length < 3 →
      isCollinear sqrt pts = true := by
    intro sqrt pts h
    unfold isCollinear
    rw [if_pos h]
  refine ⟨hcol, ?_⟩
  intro sqrt config h2
  obtain ⟨i, j, hij, hi2, hj2, hhull⟩ := hull_of_two config.positions h2
  have hlen : ¬ ((convexHullIndices config.positions).length ≤ 1) := by
    rw [hhull]
    simp
  have hc := hcol sqrt config.positions (by omega)
  refine ⟨?_, ?_, ?_⟩
  · unfold perimeterOfCenters
    rw [if_neg hlen, if_pos (by simpa using hc)]
  · unfold perimeterGradient
    rw [if_neg hlen, if_pos (by simpa using hc)]
  · unfold buildEuclideanHessian
    rw [if_pos (by simpa using hc)]

theorem twoDisk_collinear_routing_witness :
    isCollinear sqrtZero (soloConfig.positions) = true ∧
    ((twoDiskConfig ℚ).positions.length = 2 ∧
     perimeterOfCenters sqrtZero (twoDiskConfig ℚ) =
       collinearPerimeter sqrtZero (twoDiskConfig ℚ).positions
         (convexHullIndices (twoDiskConfig ℚ).positions) ∧
     perimeterGradient sqrtZero (twoDiskConfig ℚ) =
       collinearGradient sqrtZero (twoDiskConfig ℚ)
         (convexHullIndices (twoDiskConfig ℚ).positions) ∧
     buildEuclideanHessian sqrtZero (twoDiskConfig ℚ) =
       collinearEuclHessian sqrtZero (twoDiskConfig ℚ)
         (convexHullIndices (twoDiskConfig ℚ).positions)) :=
  ⟨twoDisk_collinear_routing.1 sqrtZero soloConfig.positions (by decide),
   rfl, twoDisk_collinear_routing.2 sqrtZero (twoDiskConfig ℚ) rfl⟩

theorem sum_map_affine (ts : List α) (c k : α) :
    (ts.map (fun t => c + t * k)).sum = ts.length * c + k * ts.sum := by
  induction ts with
  | nil => simp
  | cons t ts ih =>
      simp [ih]
      ring

theorem sum_map_sq_mul (ts : List α) (f : α → α) (k : α) :
    (ts.map (fun t => (f t * k) * (f t * k))).sum =
      k * k * (ts.map (fun t => f t * f t)).sum := by
  induction ts with
  | nil => simp
  | cons t ts ih =>
      simp [ih]
      ring

theorem zipWith_mul_map_self (ts : List α) (f g : α → α) :
    (List.zipWith (fun a b => a * b) (ts.map f) (ts.map g)).sum =
      (ts.map (fun t => f t * g t)).sum := by
  induction ts with
  | nil => simp
  | cons t ts ih => simp [ih]

theorem sum_sq_nonneg (ts : List α) (f : α → α) :
    0 ≤ (ts.map (fun t => f t * f t)).sum := by
  apply List.sum_nonneg
  intro x hx
  obtain ⟨t, _, ht⟩ := List.mem_map.mp hx
  rw [← ht]
  exact mul_self_nonneg _

theorem sigma2_eq_zero (tr det : ℝ) (hdet : det = 0) (htr : 0 ≤ tr) :
    Real.sqrt ((tr - Real.sqrt (tr * tr - 4 * det)) / 2) = 0 := by
  subst hdet
  rw [show tr * tr - 4 * 0 = tr * tr by ring, Real.sqrt_mul_self htr]
  simp

theorem sum_map_mul_mul (ts : List α) (f : α → α) (k1 k2 : α) :
    (ts.map (fun t => (f t * k1) * (f t * k2))).sum =
      k1 * k2 * (ts.map (fun t => f t * f t)).sum := by
  induction ts with
  | nil => simp
  | cons t ts ih =>
      simp [ih]
      ring

theorem collinear_sigma2_zero (p d : ℝ × ℝ) (ts : List ℝ) (hne : ts ≠ []) :
    secondSingularValue Real.sqrt
      (ts.map (fun t => (p.1 + t * d.1, p.2 + t * d.2))) = 0 := by
  have hlen : ((ts.map (fun t => (p.1 + t * d.1, p.2 + t * d.2))).length : ℝ) ≠ 0 := by
    simp only [List.length_map, Nat.cast_ne_zero]
    intro h
    exact hne (List.length_eq_zero.mp h)
  have hlen' : (ts.length : ℝ) ≠ 0 := by simpa using hlen
  have hca : (ts.map (fun t => (p.1 + t * d.1, p.2 + t * d.2))).map
      (fun q => q.1 - ((ts.map (fun t => (p.1 + t * d.1, p.2 + t * d.2))).map Prod.fst).sum /
        (((ts.map (fun t => (p.1 + t * d.1, p.2 + t * d.2))).length : ℝ))) =
      ts.map (fun t => (t - ts.sum / (ts.length : ℝ)) * d.1) := by
    rw [List.map_map, List.map_map, List.length_map]
    have hx : (List.map (Prod.fst ∘ fun t => (p.1 + t * d.1, p.2 + t * d.2)) ts).sum
        = ts.length * p.1 + d.1 * ts.sum := by
      rw [show (Prod.fst ∘ fun t => (p.1 + t * d.1, p.2 + t * d.2)) =
        (fun t => p.1 + t * d.1) from rfl]
      exact sum_map_affine ts p.1 d.1
    rw [hx]
    apply List.map_congr_left
    intro t _
    simp only [Function.comp]
    field_simp
    ring
  have hcb : (ts.map (fun t => (p.1 + t * d.1, p.2 + t * d.2))).map
      (fun q => q.2 - ((ts.map (fun t => (p.1 + t * d.1, p.2 + t * d.2))).map Prod.snd).sum /
        (((ts.map (fun t => (p.1 + t * d.1, p.2 + t * d.2))).length : ℝ))) =
      ts.map (fun t => (t - ts.sum / (ts.length : ℝ)) * d.2) := by
    rw [List.map_map, List.map_map, List.length_map]
    have hx : (List.map (Prod.snd ∘ fun t => (p.1 + t * d.1, p.2 + t * d.2)) ts).sum
        = ts.length * p.2 + d.2 * ts.sum := by
      rw [show (Prod.snd ∘ fun t => (p.1 + t * d.1, p.2 + t * d.2)) =
        (fun t => p.2 + t * d.2) from rfl]
      exact sum_map_affine ts p.2 d.2
    rw [hx]
    apply List.map_congr_left
    intro t _
    simp only [Function.comp]
    field_simp
    ring
  simp only [secondSingularValue]
  rw [hca, hcb]
  rw [List.map_map, List.map_map]
  rw [show ((fun t => t * t) ∘ fun t => (t - ts.sum / (ts.length : ℝ)) * d.1) =
    (fun t => ((t - ts.sum / (ts.length : ℝ)) * d.1) * ((t - ts.sum / (ts.length : ℝ)) * d.1))
    from rfl]
  rw [show ((fun t => t * t) ∘ fun t => (t - ts.sum / (ts.length : ℝ)) * d.2) =
    (fun t => ((t - ts.sum / (ts.length : ℝ)) * d.2) * ((t - ts.sum / (ts.length : ℝ)) * d.2))
    from rfl]
  rw [sum_map_mul_mul ts (fun t => t - ts.sum / (ts.length : ℝ)) d.1 d.1]
  rw [sum_map_mul_mul ts (fun t => t - ts.sum / (ts.length : ℝ)) d.2 d.2]
  rw [zipWith_mul_map_self]
  rw [sum_map_mul_mul ts (fun t => t - ts.sum / (ts.length : ℝ)) d.1 d.2]
  apply sigma2_eq_zero
  · ring
  · have hs2 := sum_sq_nonneg ts (fun t => t - ts.sum / (ts.length : ℝ))
    nlinarith [mul_self_nonneg d.1, mul_self_nonneg d.2, hs2,
      mul_nonneg (mul_self_nonneg d.1) hs2, mul_nonneg (mul_self_nonneg d.2) hs2]

theorem isCollinear_of_collinear (p d : ℝ × ℝ) (ts : List ℝ) :
    isCollinear Real.sqrt (ts.map (fun t => (p.1 + t * d.1, p.2 + t * d.2))) = true := by
  unfold isCollinear
  split
  · rfl
  · rename_i h
    have hne : ts ≠ [] := by
      intro he
      subst he
      simp at h
    rw [collinear_sigma2_zero p d ts hne]
    norm_num

theorem le_foldl_max [LinearOrder β] (l : List β) :
    ∀ a : β, a ≤ l.foldl max a ∧ ∀ x ∈ l, x ≤ l.foldl max a := by
  induction l with
  | nil => exact fun a => ⟨le_refl a, by simp⟩
  | cons y l ih =>
      intro a
      rw [List.foldl_cons]
      refine ⟨le_trans (le_max_left a y) (ih (max a y)).1, ?_⟩
      intro x hx
      rcases List.mem_cons.mp hx with h | h
      · subst h
        exact le_trans (le_max_right a x) (ih (max a x)).1
      · exact (ih (max a y)).2 x h

theorem foldl_max_mem [LinearOrder β] (l : List β) :
    ∀ a : β, l.foldl max a ∈ l ∨ l.foldl max a = a := by
  induction l with
  | nil => exact fun a => Or.inr rfl
  | cons y l ih =>
      intro a
      rw [List.foldl_cons]
      rcases ih (max a y) with h | h
      · exact Or.inl (List.mem_cons_of_mem _ h)
      · rcases max_choice a y with hm | hm
        · exact Or.inr (h.trans hm)
        · exact Or.inl (by rw [h, hm]; exact List.mem_cons_self _ _)

theorem foldl_max_map [LinearOrder β] {γ : Type} (f : γ → β) (l : List γ) :
    ∀ a : β, l.foldl (fun m x => max m (f x)) a = (l.map f).foldl max a := by
  induction l with
  | nil => intro a; rfl
  | cons y l ih => intro a; rw [List.foldl_cons, List.map_cons, List.foldl_cons, ih]

theorem pairsL_ne_nil {γ : Type} (l : List γ) (h : 2 ≤ l.length) : pairsL l ≠ [] := by
  match l, h with
  | a :: b :: t, _ => simp [pairsL]

/-- Claim C7: for collinear centers with at least two hull points,
`isCollinear` answers true and `perimeterOfCenters` is exactly twice the
maximum pairwise distance among the hull points. -/
theorem collinear_perimeter_spec (config : Configuration ℝ)
    (hcol : ∃ (p d : ℝ × ℝ) (ts : List ℝ),
      config.positions = ts.map (fun t => (p.1 + t * d.1, p.2 + t * d.2)))
    (hhull : 2 ≤ (convexHullIndices config.positions).length) :
    isCollinear Real.sqrt config.positions = true ∧
    ∃ m, perimeterOfCenters Real.sqrt config = 2 * m ∧
      m ∈ ((pairsL (convexHullIndices config.positions)).map (fun ij =>
        distOf Real.sqrt (config.positions.getD ij.1 (0, 0))
          (config.positions.getD ij.2 (0, 0)))) ∧
      ∀ x ∈ ((pairsL (convexHullIndices config.positions)).map (fun ij =>
        distOf Real.sqrt (config.positions.getD ij.1 (0, 0))
          (config.positions.getD ij.2 (0, 0)))), x ≤ m := by
  obtain ⟨p, d, ts, hrep⟩ := hcol
  have hic : isCollinear Real.sqrt config.positions = true := by
    rw [hrep]
    exact isCollinear_of_collinear p d ts
  refine ⟨hic, ?_⟩
  set dists := (pairsL (convexHullIndices config.positions)).map (fun ij =>
    distOf Real.sqrt (config.positions.getD ij.1 (0, 0))
      (config.positions.getD ij.2 (0, 0))) with hdists
  have hnn : ∀ x ∈ dists, 0 ≤ x := by
    intro x hx
    rw [hdists] at hx
    obtain ⟨ij, _, hij⟩ := List.mem_map.mp hx
    rw [← hij]
    exact Real.sqrt_nonneg _
  have hne : dists ≠ [] := by
    rw [hdists]
    intro hemp
    exact pairsL_ne_nil _ hhull (List.map_eq_nil_iff.mp hemp)
  refine ⟨dists.foldl max 0, ?_, ?_, (le_foldl_max dists 0).2⟩
  · unfold perimeterOfCenters
    rw [if_neg (by omega), if_pos (by simpa using hic)]
    unfold collinearPerimeter
    rw [foldl_max_map]
  · rcases foldl_max_mem dists 0 with h | h
    · exact h
    · have hall : ∀ x ∈ dists, x = 0 := fun x hx =>
        le_antisymm (h ▸ (le_foldl_max dists 0).2 x hx) (hnn x hx)
      rw [h]
      obtain ⟨x, hx⟩ := List.exists_mem_of_ne_nil dists hne
      rw [← hall x hx]
      exact hx


theorem threeCollinear_hull :
    convexHullIndices ((threeCollinearConfig ℝ).positions) = [0, 1, 2] := by
  norm_num [threeCollinearConfig, convexHullIndices, lexLe, List.insertionSort,
    List.orderedInsert, chainStep, buildHalf, crossIP, dedupFirst, dedupFirstGo]

theorem collinear_perimeter_spec_witness :
    isCollinear Real.sqrt ((threeCollinearConfig ℝ).positions) = true ∧
    ∃ m, perimeterOfCenters Real.sqrt (threeCollinearConfig ℝ) = 2 * m ∧
      m ∈ ((pairsL (convexHullIndices ((threeCollinearConfig ℝ).positions))).map (fun ij =>
        distOf Real.sqrt (((threeCollinearConfig ℝ).positions).getD ij.1 (0, 0))
          (((threeCollinearConfig ℝ).positions).getD ij.2 (0, 0)))) ∧
      ∀ x ∈ ((pairsL (convexHullIndices ((threeCollinearConfig ℝ).positions))).map (fun ij =>
        distOf Real.sqrt (((threeCollinearConfig ℝ).positions).getD ij.1 (0, 0))
          (((threeCollinearConfig ℝ).positions).getD ij.2 (0, 0)))), x ≤ m :=
  collinear_perimeter_spec (threeCollinearConfig ℝ)
    ⟨(0, 0), (1, 0), [0, 1, 2], by norm_num [threeCollinearConfig]⟩
    (by rw [threeCollinear_hull]; norm_num)

theorem pairsL_mem_mem {β : Type} (l : List β) (ij : β × β) (h : ij ∈ pairsL l) :
    ij.1 ∈ l ∧ ij.2 ∈ l := by
  induction l with
  | nil => simp [pairsL] at h
  | cons x xs ih =>
      rw [pairsL, List.mem_append] at h
      rcases h with h | h
      · obtain ⟨y, hy, he⟩ := List.mem_map.mp h
        rw [← he]
        exact ⟨List.mem_cons_self _ _, List.mem_cons_of_mem _ hy⟩
      · obtain ⟨h1, h2⟩ := ih h
        exact ⟨List.mem_cons_of_mem _ h1, List.mem_cons_of_mem _ h2⟩

theorem pairsL_mem_ne {β : Type} (l : List β) (hl : l.Nodup) (ij : β × β)
    (h : ij ∈ pairsL l) : ij.1 ≠ ij.2 := by
  induction l with
  | nil => simp [pairsL] at h
  | cons x xs ih =>
      rw [pairsL, List.mem_append] at h
      rcases h with h | h
      · obtain ⟨y, hy, he⟩ := List.mem_map.mp h
        rw [← he]
        intro hxy
        simp only [] at hxy
        apply (List.nodup_cons.mp hl).1
        rw [hxy]
        exact hy
      · exact ih (List.nodup_cons.mp hl).2 h

theorem dedupFirstGo_nodup [DecidableEq β] (l : List β) :
    ∀ seen : List β, (dedupFirstGo seen l).Nodup ∧
      ∀ y ∈ dedupFirstGo seen l, y ∈ l ∧ y ∉ seen := by
  induction l with
  | nil => intro seen; exact ⟨List.nodup_nil, by simp [dedupFirstGo]⟩
  | cons x xs ih =>
      intro seen
      rw [dedupFirstGo]
      by_cases hx : seen.contains x
      · rw [if_pos hx]
        refine ⟨(ih seen).1, fun y hy => ?_⟩
        obtain ⟨h1, h2⟩ := (ih seen).2 y hy
        exact ⟨List.mem_cons_of_mem _ h1, h2⟩
      · rw [if_neg hx]
        constructor
        · rw [List.nodup_cons]
          refine ⟨fun hmem => ?_, (ih (x :: seen)).1⟩
          exact ((ih (x :: seen)).2 x hmem).2 (List.mem_cons_self _ _)
        · intro y hy
          rcases List.mem_cons.mp hy with h | h
          · subst h
            exact ⟨List.mem_cons_self _ _, fun hc => hx (List.elem_iff.mpr hc)⟩
          · obtain ⟨h1, h2⟩ := (ih (x :: seen)).2 y h
            exact ⟨List.mem_cons_of_mem _ h1,
              fun hc => h2 (List.mem_cons_of_mem _ hc)⟩

theorem dedupFirst_nodup [DecidableEq β] (l : List β) : (dedupFirst l).Nodup :=
  (dedupFirstGo_nodup l []).1

theorem dedupFirst_subset [DecidableEq β] (l : List β) (y : β)
    (h : y ∈ dedupFirst l) : y ∈ l :=
  ((dedupFirstGo_nodup l []).2 y h).1

theorem chainStep_subset (p : IndexedPoint α) :
    ∀ (acc : List (IndexedPoint α)) (y : IndexedPoint α),
      y ∈ chainStep p acc → y = p ∨ y ∈ acc
  | [], y => by
      intro hy
      rw [show chainStep p ([] : List (IndexedPoint α)) = [p] from rfl] at hy
      simpa using hy
  | [b], y => by
      intro hy
      rw [show chainStep p [b] = [p, b] from rfl] at hy
      simpa using hy
  | b :: c :: rest, y => by
      rw [chainStep]
      by_cases hc : crossIP c b p < -(1 / 10 ^ 12)
      · rw [if_pos hc]
        intro hy
        rcases chainStep_subset p (c :: rest) y hy with h | h
        · exact Or.inl h
        · exact Or.inr (List.mem_cons_of_mem _ h)
      · rw [if_neg hc]
        intro hy
        simpa using hy

theorem foldl_chainStep_subset (pts : List (IndexedPoint α)) :
    ∀ (acc : List (IndexedPoint α)) (y : IndexedPoint α),
      y ∈ pts.foldl (fun acc p => chainStep p acc) acc → y ∈ acc ∨ y ∈ pts := by
  induction pts with
  | nil => intro acc y hy; exact Or.inl hy
  | cons p pts ih =>
      intro acc y hy
      rw [List.foldl_cons] at hy
      rcases ih (chainStep p acc) y hy with h | h
      · rcases chainStep_subset p acc y h with h | h
        · exact Or.inr (h ▸ List.mem_cons_self _ _)
        · exact Or.inl h
      · exact Or.inr (List.mem_cons_of_mem _ h)

theorem buildHalf_subset (pts : List (IndexedPoint α)) (y : IndexedPoint α)
    (hy : y ∈ buildHalf pts) : y ∈ pts := by
  rcases foldl_chainStep_subset pts [] y hy with h | h
  · simp at h
  · exact h

theorem convexHullIndices_lt (points : List (α × α)) (k : Nat)
    (hk : k ∈ convexHullIndices points) : k < points.length := by
  unfold convexHullIndices at hk
  by_cases hn : points.length ≤ 1
  · rw [if_pos hn] at hk
    exact List.mem_range.mp hk
  · rw [if_neg hn] at hk
    have hsub := dedupFirst_subset _ _ hk
    obtain ⟨q, hq, hqk⟩ := List.mem_map.mp hsub
    have hq2 : q ∈ (points.enum.map (fun p => IndexedPoint.mk p.2.1 p.2.2 p.1)) := by
      rcases List.mem_append.mp hq with h | h
      · have h1 : q ∈ (buildHalf (List.insertionSort lexLe
            (points.enum.map (fun p => IndexedPoint.mk p.2.1 p.2.2 p.1)))).reverse :=
          List.dropLast_subset _ h
        rw [List.mem_reverse] at h1
        exact (List.perm_insertionSort lexLe _).mem_iff.mp (buildHalf_subset _ _ h1)
      · have h1 : q ∈ (buildHalf (List.insertionSort lexLe
            (points.enum.map (fun p => IndexedPoint.mk p.2.1 p.2.2 p.1))).reverse).reverse :=
          List.dropLast_subset _ h
        rw [List.mem_reverse] at h1
        have h2 := buildHalf_subset _ _ h1
        rw [List.mem_reverse] at h2
        exact (List.perm_insertionSort lexLe _).mem_iff.mp h2
    obtain ⟨e, he, heq⟩ := List.mem_map.mp hq2
    have : e.1 < points.length := by
      have := List.mem_enum_iff_getElem?.mp he
      exact (List.getElem?_eq_some.mp this).1
    rw [← hqk, ← heq]
    exact this

theorem convexHullIndices_nodup (points : List (α × α)) :
    (convexHullIndices points).Nodup := by
  unfold convexHullIndices
  by_cases hn : points.length ≤ 1
  · rw [if_pos hn]
    exact List.nodup_range _
  · rw [if_neg hn]
    exact dedupFirst_nodup _


theorem maxPairStep_le (d : Nat × Nat → α) (st : α × Nat × Nat) (ij : Nat × Nat) :
    st.1 ≤ (maxPairStep d st ij).1 := by
  unfold maxPairStep
  split
  · exact le_of_lt (by assumption)
  · exact le_refl _

theorem maxPairFold_self (d : Nat × Nat → α) (l : List (Nat × Nat)) :
    ∀ st0 : α × Nat × Nat, st0.1 ≤ (l.foldl (maxPairStep d) st0).1 := by
  induction l with
  | nil => intro st0; exact le_refl _
  | cons ij l ih =>
      intro st0
      rw [List.foldl_cons]
      exact le_trans (maxPairStep_le d st0 ij) (ih (maxPairStep d st0 ij))

theorem maxPairFold_le (d : Nat × Nat → α) (l : List (Nat × Nat)) :
    ∀ st0 : α × Nat × Nat, ∀ ij ∈ l, d ij ≤ (l.foldl (maxPairStep d) st0).1 := by
  induction l with
  | nil => intro st0 ij h; simp at h
  | cons kl l ih =>
      intro st0 ij hij
      rw [List.foldl_cons]
      rcases List.mem_cons.mp hij with h | h
      · subst h
        refine le_trans ?_ (maxPairFold_self d l (maxPairStep d st0 ij))
        unfold maxPairStep
        split
        · exact le_refl _
        · exact le_of_not_lt (by assumption)
      · exact ih (maxPairStep d st0 kl) ij h

theorem maxPairFold_mem (d : Nat × Nat → α) (l : List (Nat × Nat)) :
    ∀ st0 : α × Nat × Nat, l.foldl (maxPairStep d) st0 = st0 ∨
      ∃ ij ∈ l, l.foldl (maxPairStep d) st0 = (d ij, ij.1, ij.2) := by
  induction l with
  | nil => intro st0; exact Or.inl rfl
  | cons ij l ih =>
      intro st0
      rw [List.foldl_cons]
      rcases ih (maxPairStep d st0 ij) with h | h
      · rw [h]
        unfold maxPairStep
        split
        · exact Or.inr ⟨ij, List.mem_cons_self _ _, rfl⟩
        · exact Or.inl rfl
      · obtain ⟨kl, hkl, he⟩ := h
        exact Or.inr ⟨kl, List.mem_cons_of_mem _ hkl, he⟩


theorem extremalPairSq_eq_fold (positions : List (α × α)) (hull : List Nat) :
    extremalPairSq positions hull =
      (pairsL hull).foldl
        (maxPairStep (fun ij => sqDistPts positions ij.1 ij.2)) (0, 0, 0) := rfl

theorem getD_replicate_zero (m k : Nat) : (List.replicate m (0 : α)).getD k 0 = 0 := by
  by_cases h : k < m
  · rw [List.getD_eq_getElem _ _ (by simpa using h)]
    simp
  · rw [List.getD_eq_default _ _ (by simpa using Nat.le_of_not_lt h)]

theorem collinearGradient_extremal (config : Configuration ℝ)
    (hlen : config.positions.length = config.n)
    (hcol : isCollinear Real.sqrt config.positions = true)
    (hhull : 2 ≤ (convexHullIndices config.positions).length)
    (hdist : ¬ Real.sqrt (extremalPairSq config.positions
        (convexHullIndices config.positions)).1 < 1 / 10 ^ 15) :
    ∃ a b : Nat, a ≠ b ∧ a < config.n ∧ b < config.n ∧
      (∀ ij ∈ pairsL (convexHullIndices config.positions),
        sqDistPts config.positions ij.1 ij.2 ≤ sqDistPts config.positions a b) ∧
      (((config.positions.getD b (0, 0)).1 - (config.positions.getD a (0, 0)).1) /
          Real.sqrt (sqDistPts config.positions a b)) ^ 2 +
        (((config.positions.getD b (0, 0)).2 - (config.positions.getD a (0, 0)).2) /
          Real.sqrt (sqDistPts config.positions a b)) ^ 2 = 1 ∧
      perimeterGradient Real.sqrt config =
        ((((List.replicate (2 * config.n) (0 : ℝ)).set (2 * a)
          (-(2 * (((config.positions.getD b (0, 0)).1 - (config.positions.getD a (0, 0)).1) /
            Real.sqrt (sqDistPts config.positions a b))))).set (2 * a + 1)
          (-(2 * (((config.positions.getD b (0, 0)).2 - (config.positions.getD a (0, 0)).2) /
            Real.sqrt (sqDistPts config.positions a b))))).set (2 * b)
          (2 * (((config.positions.getD b (0, 0)).1 - (config.positions.getD a (0, 0)).1) /
            Real.sqrt (sqDistPts config.positions a b)))).set (2 * b + 1)
          (2 * (((config.positions.getD b (0, 0)).2 - (config.positions.getD a (0, 0)).2) /
            Real.sqrt (sqDistPts config.positions a b))) := by
  have hacc := extremalPairSq_eq_fold config.positions (convexHullIndices config.positions)
  rcases maxPairFold_mem (fun ij => sqDistPts config.positions ij.1 ij.2)
      (pairsL (convexHullIndices config.positions)) (0, 0, 0) with h0 | ⟨ij, hijmem, hije⟩
  · exfalso
    apply hdist
    rw [hacc, h0]
    norm_num
  · have hne : ij.1 ≠ ij.2 :=
      pairsL_mem_ne _ (convexHullIndices_nodup config.positions) ij hijmem
    have hmem := pairsL_mem_mem _ ij hijmem
    have hacc1 : (extremalPairSq config.positions (convexHullIndices config.positions)).1 =
        sqDistPts config.positions ij.1 ij.2 := by
      rw [hacc, hije]
    have hpos : 0 < sqDistPts config.positions ij.1 ij.2 := by
      rw [hacc1] at hdist
      have h15 : (0 : ℝ) < 1 / 10 ^ 15 := by norm_num
      exact Real.sqrt_pos.mp (lt_of_lt_of_le h15 (le_of_not_lt hdist))
    have hsne : Real.sqrt (sqDistPts config.positions ij.1 ij.2) ≠ 0 :=
      ne_of_gt (Real.sqrt_pos.mpr hpos)
    have hsq : Real.sqrt (sqDistPts config.positions ij.1 ij.2) ^ 2 =
        sqDistPts config.positions ij.1 ij.2 := Real.sq_sqrt (le_of_lt hpos)
    refine ⟨ij.1, ij.2, hne, hlen ▸ convexHullIndices_lt _ _ hmem.1,
      hlen ▸ convexHullIndices_lt _ _ hmem.2, ?_, ?_, ?_⟩
    · intro kl hkl
      have h := maxPairFold_le (fun ij => sqDistPts config.positions ij.1 ij.2)
        (pairsL (convexHullIndices config.positions)) (0, 0, 0) kl hkl
      rw [hije] at h
      exact h
    · field_simp
      simp only [sqDistPts, List.getD, List.get?_eq_getElem?, Prod.mk_zero_zero]
      ring
    · simp only [perimeterGradient]
      rw [if_neg (by omega), if_pos hcol]
      simp only [collinearGradient]
      rw [hacc, hije]
      rw [if_neg (by rw [hacc1] at hdist; simpa using hdist)]
      simp only []
      rw [getD_replicate_zero,
        getD_set_other _ _ _ (by omega),
        getD_replicate_zero,
        getD_set_other _ _ _ (by omega),
        getD_set_other _ _ _ (by omega),
        getD_replicate_zero,
        getD_set_other _ _ _ (by omega),
        getD_set_other _ _ _ (by omega),
        getD_set_other _ _ _ (by omega),
        getD_replicate_zero]
      norm_num


theorem twoDisk_hull : convexHullIndices ((twoDiskConfig ℝ).positions) = [0, 1] := by
  norm_num [twoDiskConfig, convexHullIndices, lexLe, List.insertionSort,
    List.orderedInsert, chainStep, buildHalf, crossIP, dedupFirst, dedupFirstGo]

theorem sqrt_four : Real.sqrt 4 = 2 := by
  rw [show (4 : ℝ) = 2 ^ 2 by norm_num, Real.sqrt_sq (by norm_num : (0 : ℝ) ≤ 2)]

theorem twoDisk_gradient : perimeterGradient Real.sqrt (twoDiskConfig ℝ) = [-2, 0, 2, 0] := by
  simp only [perimeterGradient]
  rw [twoDisk_hull]
  norm_num [twoDiskConfig, isCollinear, collinearGradient, extremalPairSq, pairsL,
    sqrt_four, List.replicate, List.set]

theorem twoDisk_diskPerimeter :
    perimeterOfDisks Real.pi Real.sqrt (twoDiskConfig ℝ) = 4 + 2 * Real.pi := by
  simp only [perimeterOfDisks, perimeterOfCenters]
  rw [twoDisk_hull]
  norm_num [twoDiskConfig, isCollinear, collinearPerimeter, pairsL, distOf, sqrt_four]

theorem tinyPair_hull : convexHullIndices ((tinyPairConfig ℝ).positions) = [0, 1] := by
  norm_num [tinyPairConfig, convexHullIndices, lexLe, List.insertionSort,
    List.orderedInsert, chainStep, buildHalf, crossIP, dedupFirst, dedupFirstGo]


/-- Counterexample to the unamended claim C8: two distinct collinear centers a
distance `1e-20` apart, whose perimeter gradient is identically zero because the
extremal distance falls below the `1e-15` guard. -/
theorem c8_counterexample :
    (tinyPairConfig ℝ).positions.getD 0 (0, 0) ≠ (tinyPairConfig ℝ).positions.getD 1 (0, 0) ∧
    isCollinear Real.sqrt ((tinyPairConfig ℝ).positions) = true ∧
    2 ≤ (convexHullIndices ((tinyPairConfig ℝ).positions)).length ∧
    perimeterGradient Real.sqrt (tinyPairConfig ℝ) = [0, 0, 0, 0] := by
  refine ⟨by norm_num [tinyPairConfig, Prod.ext_iff], by norm_num [tinyPairConfig, isCollinear], ?_, ?_⟩
  · rw [tinyPair_hull]
    norm_num
  · simp only [perimeterGradient]
    rw [tinyPair_hull]
    norm_num [tinyPairConfig, isCollinear, collinearGradient, extremalPairSq, pairsL,
      List.replicate]
    rw [show (10000000000000000000000000000000000000000 : ℝ) = (10 ^ 20 : ℝ) ^ 2 by norm_num,
      Real.sqrt_sq (by norm_num : (0 : ℝ) ≤ 10 ^ 20)]
    norm_num

/-- Claim C8 (amended): for a collinear configuration whose extremal hull
distance passes the `1e-15` guard, the gradient is supported on the two
extremal endpoints `a ≠ b`, receiving `∓2u` and `±2u` for the unit vector `u`
along the line; concretely, two disks at `(-1,0)` and `(1,0)` of radius 1 have
hull both points, are collinear, have disk perimeter `4 + 2π`, and gradient
`[-2, 0, 2, 0]`. -/
theorem perimeterGradient_collinear_spec :
    (∀ config : Configuration ℝ,
      config.positions.length = config.n →
      isCollinear Real.sqrt config.positions = true →
      2 ≤ (convexHullIndices config.positions).length →
      ¬ Real.sqrt (extremalPairSq config.positions
          (convexHullIndices config.positions)).1 < 1 / 10 ^ 15 →
      ∃ a b : Nat, a ≠ b ∧ a < config.n ∧ b < config.n ∧
        (∀ ij ∈ pairsL (convexHullIndices config.positions),
          sqDistPts config.positions ij.1 ij.2 ≤ sqDistPts config.positions a b) ∧
        (((config.positions.getD b (0, 0)).1 - (config.positions.getD a (0, 0)).1) /
            Real.sqrt (sqDistPts config.positions a b)) ^ 2 +
          (((config.positions.getD b (0, 0)).2 - (config.positions.getD a (0, 0)).2) /
            Real.sqrt (sqDistPts config.positions a b)) ^ 2 = 1 ∧
        perimeterGradient Real.sqrt config =
          ((((List.replicate (2 * config.n) (0 : ℝ)).set (2 * a)
            (-(2 * (((config.positions.getD b (0, 0)).1 - (config.positions.getD a (0, 0)).1) /
              Real.sqrt (sqDistPts config.positions a b))))).set (2 * a + 1)
            (-(2 * (((config.positions.getD b (0, 0)).2 - (config.positions.getD a (0, 0)).2) /
              Real.sqrt (sqDistPts config.positions a b))))).set (2 * b)
            (2 * (((config.positions.getD b (0, 0)).1 - (config.positions.getD a (0, 0)).1) /
              Real.sqrt (sqDistPts config.positions a b)))).set (2 * b + 1)
            (2 * (((config.positions.getD b (0, 0)).2 - (config.positions.getD a (0, 0)).2) /
              Real.sqrt (sqDistPts config.positions a b)))) ∧
    (convexHullIndices ((twoDiskConfig ℝ).positions) = [0, 1] ∧
     isCollinear Real.sqrt ((twoDiskConfig ℝ).positions) = true ∧
     perimeterOfDisks Real.pi Real.sqrt (twoDiskConfig ℝ) = 4 + 2 * Real.pi ∧
     perimeterGradient Real.sqrt (twoDiskConfig ℝ) = [-2, 0, 2, 0]) :=
  ⟨fun config hlen hcol hhull hdist =>
      collinearGradient_extremal config hlen hcol hhull hdist,
   twoDisk_hull, by norm_num [twoDiskConfig, isCollinear],
   twoDisk_diskPerimeter, twoDisk_gradient⟩

theorem perimeterGradient_collinear_spec_witness :
    ∃ a b : Nat, a ≠ b ∧ a < (twoDiskConfig ℝ).n ∧ b < (twoDiskConfig ℝ).n ∧
      (∀ ij ∈ pairsL (convexHullIndices ((twoDiskConfig ℝ).positions)),
        sqDistPts ((twoDiskConfig ℝ).positions) ij.1 ij.2 ≤
          sqDistPts ((twoDiskConfig ℝ).positions) a b) ∧
      ((((twoDiskConfig ℝ).positions.getD b (0, 0)).1 -
          ((twoDiskConfig ℝ).positions.getD a (0, 0)).1) /
          Real.sqrt (sqDistPts ((twoDiskConfig ℝ).positions) a b)) ^ 2 +
        ((((twoDiskConfig ℝ).positions.getD b (0, 0)).2 -
          ((twoDiskConfig ℝ).positions.getD a (0, 0)).2) /
          Real.sqrt (sqDistPts ((twoDiskConfig ℝ).positions) a b)) ^ 2 = 1 ∧
      perimeterGradient Real.sqrt (twoDiskConfig ℝ) =
        ((((List.replicate (2 * (twoDiskConfig ℝ).n) (0 : ℝ)).set (2 * a)
          (-(2 * ((((twoDiskConfig ℝ).positions.getD b (0, 0)).1 -
            ((twoDiskConfig ℝ).positions.getD a (0, 0)).1) /
            Real.sqrt (sqDistPts ((twoDiskConfig ℝ).positions) a b))))).set (2 * a + 1)
          (-(2 * ((((twoDiskConfig ℝ).positions.getD b (0, 0)).2 -
            ((twoDiskConfig ℝ).positions.getD a (0, 0)).2) /
            Real.sqrt (sqDistPts ((twoDiskConfig ℝ).positions) a b))))).set (2 * b)
          (2 * ((((twoDiskConfig ℝ).positions.getD b (0, 0)).1 -
            ((twoDiskConfig ℝ).positions.getD a (0, 0)).1) /
            Real.sqrt (sqDistPts ((twoDiskConfig ℝ).positions) a b)))).set (2 * b + 1)
          (2 * ((((twoDiskConfig ℝ).positions.getD b (0, 0)).2 -
            ((twoDiskConfig ℝ).positions.getD a (0, 0)).2) /
            Real.sqrt (sqDistPts ((twoDiskConfig ℝ).positions) a b))) :=
  perimeterGradient_collinear_spec.1 (twoDiskConfig ℝ) rfl
    (by norm_num [twoDiskConfig, isCollinear])
    (by simp [twoDisk_hull])
    (by rw [twoDisk_hull]
        norm_num [twoDiskConfig, extremalPairSq, pairsL, sqrt_four])


theorem getD_map_lt {β γ : Type} (f : β → γ) (L : List β) (i : Nat)
    (h : i < L.length) (d : γ) (d' : β) : (L.map f).getD i d = f (L.getD i d') := by
  rw [List.getD_eq_getElem _ _ (by simpa using h), List.getD_eq_getElem _ _ h]
  simp

theorem getD_ofFn {β : Type} {n : Nat} (v : Fin n → β) (i : Fin n) (d : β) :
    (List.ofFn v).getD i d = v i := by
  rw [List.getD_eq_getElem _ _ (by simp)]
  simp

theorem toMat_fromMat {m n : Nat} (M : Matrix (Fin m) (Fin n) α) :
    toMat m n (fromMat M) = M := by
  ext i j
  show ((fromMat M).getD i []).getD j 0 = M i j
  unfold fromMat
  rw [getD_ofFn _ i, getD_ofFn _ j]

theorem fromMat_length {m n : Nat} (M : Matrix (Fin m) (Fin n) α) :
    (fromMat M).length = m := by
  simp [fromMat]

theorem fromMat_rows {m n : Nat} (M : Matrix (Fin m) (Fin n) α) :
    ∀ r ∈ fromMat M, r.length = n := by
  intro r hr
  obtain ⟨i, hi⟩ := (List.mem_ofFn _ _).mp hr
  rw [← hi]
  simp

theorem dotL_eq_sum (xs ys : List α) (h : xs.length = ys.length) :
    dotL xs ys = ∑ k ∈ Finset.range xs.length, xs.getD k 0 * ys.getD k 0 := by
  induction xs generalizing ys with
  | nil => simp [dotL]
  | cons x xs ih =>
      match ys, h with
      | y :: ys, h =>
          rw [show dotL (x :: xs) (y :: ys) = x * y + dotL xs ys from rfl]
          rw [List.length_cons, Finset.sum_range_succ']
          rw [ih ys (by simpa using h)]
          simp [add_comm]

theorem getD_mem_of_lt {β : Type} (L : List β) (i : Nat) (d : β) (h : i < L.length) :
    L.getD i d ∈ L := by
  rw [List.getD_eq_getElem _ _ h]
  exact List.getElem_mem _

theorem getD_range (k t : Nat) (h : t < k) : (List.range k).getD t 0 = t := by
  rw [List.getD_eq_getElem _ _ (by simpa using h)]
  simp

theorem transposeL_shape (L : List (List α)) (m n : Nat) (hm : L.length = m)
    (hn : ∀ r ∈ L, r.length = n) (hm0 : 0 < m) :
    (transposeL L).length = n ∧ ∀ r ∈ transposeL L, r.length = m := by
  rcases L with _ | ⟨r0, rest⟩
  · simp at hm
    omega
  · rw [show transposeL (r0 :: rest) =
      (List.range r0.length).map
        (fun j => (r0 :: rest).map (fun row => row.getD j 0)) from rfl]
    constructor
    · rw [List.length_map, List.length_range, hn r0 (List.mem_cons_self _ _)]
    · intro r hr
      obtain ⟨j, _, hj⟩ := List.mem_map.mp hr
      rw [← hj, List.length_map, hm]

theorem transposeL_entry (L : List (List α)) (m n : Nat) (hm : L.length = m)
    (hn : ∀ r ∈ L, r.length = n) (i : Fin m) (j : Fin n) :
    ((transposeL L).getD j []).getD i 0 = (L.getD i []).getD j 0 := by
  rcases L with _ | ⟨r0, rest⟩
  · exfalso
    rw [List.length_nil] at hm
    have := i.isLt
    omega
  · rw [show transposeL (r0 :: rest) =
      (List.range r0.length).map
        (fun j => (r0 :: rest).map (fun row => row.getD j 0)) from rfl]
    have hr0 : r0.length = n := hn r0 (List.mem_cons_self _ _)
    have hj : (j : Nat) < (List.range r0.length).length := by
      rw [List.length_range, hr0]
      exact j.isLt
    rw [getD_map_lt _ _ _ hj _ 0]
    have hjj : (List.range r0.length).getD (j : Nat) 0 = (j : Nat) := by
      rw [getD_range _ _ (by rw [hr0]; exact j.isLt)]
    rw [hjj]
    have hi : (i : Nat) < (r0 :: rest).length := by rw [hm]; exact i.isLt
    rw [getD_map_lt _ _ _ hi _ []]

theorem toMat_transposeL (L : List (List α)) (m n : Nat) (hm : L.length = m)
    (hn : ∀ r ∈ L, r.length = n) (hm0 : 0 < m) :
    toMat n m (transposeL L) = Matrix.transpose (toMat m n L) := by
  ext j i
  exact transposeL_entry L m n hm hn i j

theorem mmulL_shape (X Y : List (List α)) (a b c : Nat) (hX : X.length = a)
    (hY : Y.length = b) (hYr : ∀ r ∈ Y, r.length = c) (hb0 : 0 < b) :
    (mmulL X Y).length = a ∧ ∀ r ∈ mmulL X Y, r.length = c := by
  unfold mmulL
  constructor
  · rw [List.length_map, hX]
  · intro r hr
    obtain ⟨row, _, hrow⟩ := List.mem_map.mp hr
    rw [← hrow, List.length_map]
    exact (transposeL_shape Y b c hY hYr hb0).1

theorem mmulL_entry (X Y : List (List α)) (a b c : Nat) (hX : X.length = a)
    (hXr : ∀ r ∈ X, r.length = b) (hY : Y.length = b) (hYr : ∀ r ∈ Y, r.length = c)
    (hb0 : 0 < b) (i : Fin a) (j : Fin c) :
    ((mmulL X Y).getD i []).getD j 0 =
      ∑ k ∈ Finset.range b, (X.getD i []).getD k 0 * (Y.getD k []).getD j 0 := by
  unfold mmulL
  have hi : (i : Nat) < X.length := by rw [hX]; exact i.isLt
  rw [getD_map_lt _ _ _ hi _ []]
  have hj : (j : Nat) < (transposeL Y).length := by
    rw [(transposeL_shape Y b c hY hYr hb0).1]
    exact j.isLt
  rw [getD_map_lt _ _ _ hj _ []]
  have hlen : (X.getD i []).length = ((transposeL Y).getD j []).length := by
    rw [hXr _ (getD_mem_of_lt _ _ _ hi)]
    rw [(transposeL_shape Y b c hY hYr hb0).2 _ (getD_mem_of_lt _ _ _ hj)]
  rw [dotL_eq_sum _ _ hlen, hXr _ (getD_mem_of_lt _ _ _ hi)]
  apply Finset.sum_congr rfl
  intro k hk
  have hkb : k < b := Finset.mem_range.mp hk
  rw [transposeL_entry Y b c hY hYr ⟨k, hkb⟩ j]

theorem toMat_mmulL (X Y : List (List α)) (a b c : Nat) (hX : X.length = a)
    (hXr : ∀ r ∈ X, r.length = b) (hY : Y.length = b) (hYr : ∀ r ∈ Y, r.length = c)
    (hb0 : 0 < b) :
    toMat a c (mmulL X Y) = toMat a b X * toMat b c Y := by
  ext i j
  rw [show toMat a c (mmulL X Y) i j = ((mmulL X Y).getD i []).getD j 0 from rfl]
  rw [mmulL_entry X Y a b c hX hXr hY hYr hb0 i j, Matrix.mul_apply]
  rw [← Fin.sum_univ_eq_sum_range
    (fun k => (X.getD i []).getD k 0 * (Y.getD k []).getD j 0) b]
  apply Finset.sum_congr rfl
  intro k _
  rfl

theorem sqrt3_sq : Real.sqrt 3 * Real.sqrt 3 = 3 :=
  Real.mul_self_sqrt (by norm_num)

theorem tri_contactMatrix :
    buildContactMatrix Real.sqrt (triConfig ℝ (Real.sqrt 3)) =
      Except.ok (triA ℝ (Real.sqrt 3)) := by
  norm_num [triConfig, triA, buildContactMatrix, buildRows, contactRow, sqrt3_sq,
    sqrt_four, List.replicate, List.set]

theorem sqrt3_pos : (0 : ℝ) < Real.sqrt 3 := Real.sqrt_pos.mpr (by norm_num)

theorem sqrt3_gt_one : (1 : ℝ) < Real.sqrt 3 := by
  have h := sqrt3_sq
  nlinarith [sqrt3_pos]

theorem tri_hull :
    convexHullIndices ((triConfig ℝ (Real.sqrt 3)).positions) = [0, 1, 2] := by
  have h1 : -(2 * Real.sqrt 3) < -(1 / 10 ^ 12) := by nlinarith [sqrt3_gt_one]
  have h2 : ¬ (2 * Real.sqrt 3 < -(1 / 10 ^ 12)) := by nlinarith [sqrt3_gt_one]
  have h3 : (1 : ℝ) / 1000000000000 < Real.sqrt 3 * 2 := by nlinarith [sqrt3_gt_one]
  have h4 : ¬ (Real.sqrt 3 * 2 < -(1 / 1000000000000)) := by nlinarith [sqrt3_gt_one]
  norm_num [triConfig, convexHullIndices, lexLe, List.insertionSort,
    List.orderedInsert, chainStep, buildHalf, crossIP, dedupFirst, dedupFirstGo,
    h1, h2, h3, h4]

theorem sqrt2_ge_one : (1 : ℝ) ≤ Real.sqrt 2 := by
  rw [show (1 : ℝ) = Real.sqrt 1 by simp]
  exact Real.sqrt_le_sqrt (by norm_num)

theorem tri_not_collinear :
    isCollinear Real.sqrt ((triConfig ℝ (Real.sqrt 3)).positions) = false := by
  unfold isCollinear
  rw [if_neg (by norm_num [triConfig])]
  have hsig : secondSingularValue Real.sqrt ((triConfig ℝ (Real.sqrt 3)).positions) =
      Real.sqrt 2 := by
    simp only [secondSingularValue, triConfig]
    have e1 : Real.sqrt 3 / 3 * (Real.sqrt 3 / 3) = 1 / 3 := by
      rw [div_mul_div_comm, sqrt3_sq]
      norm_num
    have e2 : (Real.sqrt 3 - Real.sqrt 3 / 3) * (Real.sqrt 3 - Real.sqrt 3 / 3) = 4 / 3 := by
      nlinarith [sqrt3_sq]
    norm_num [e1, e2, sqrt_four]
  rw [hsig]
  simp only [decide_eq_false_iff_not, not_lt]
  nlinarith [sqrt2_ge_one]

theorem tri_perimeter :
    perimeterOfDisks Real.pi Real.sqrt (triConfig ℝ (Real.sqrt 3)) =
      6 + 2 * Real.pi := by
  simp only [perimeterOfDisks, perimeterOfCenters]
  rw [tri_hull, tri_not_collinear]
  norm_num [triConfig, hullCyclePerimeter, distOf, List.range_succ, sqrt3_sq, sqrt_four]

theorem tri_gradient :
    perimeterGradient Real.sqrt (triConfig ℝ (Real.sqrt 3)) =
      [-(3 / 2), -(Real.sqrt 3 / 2), 3 / 2, -(Real.sqrt 3 / 2), 0, Real.sqrt 3] := by
  simp only [perimeterGradient]
  rw [tri_hull, tri_not_collinear]
  norm_num [triConfig, hullCycleGradient, List.range_succ, sqrt3_sq, sqrt_four,
    List.replicate, List.set]
  constructor
  · ring
  · ring

theorem hullCycleEuclHessian_eq_fold (sqrt : α → α) (config : Configuration α)
    (hull : List Nat) :
    hullCycleEuclHessian sqrt config hull =
      (List.range hull.length).foldl (euclEdgeStep sqrt config hull)
        (List.replicate (2 * config.n) (List.replicate (2 * config.n) 0)) := rfl

theorem tri_estep0 :
    euclEdgeStep Real.sqrt (triConfig ℝ (Real.sqrt 3)) [0, 1, 2]
      (List.replicate 6 (List.replicate 6 0)) 0 =
    [[0, 0, 0, 0, 0, 0],
     [0, 1 / 2, 0, -(1 / 2), 0, 0],
     [0, 0, 0, 0, 0, 0],
     [0, -(1 / 2), 0, 1 / 2, 0, 0],
     [0, 0, 0, 0, 0, 0],
     [0, 0, 0, 0, 0, 0]] := by
  simp only [euclEdgeStep, triConfig]
  norm_num [sqrt_four]
  norm_num [addBlock, addEntry, getEntry, computeEdgeBlock, List.replicate, List.set]

theorem tri_estep1 :
    euclEdgeStep Real.sqrt (triConfig ℝ (Real.sqrt 3)) [0, 1, 2]
      [[0, 0, 0, 0, 0, 0],
       [0, 1 / 2, 0, -(1 / 2), 0, 0],
       [0, 0, 0, 0, 0, 0],
       [0, -(1 / 2), 0, 1 / 2, 0, 0],
       [0, 0, 0, 0, 0, 0],
       [0, 0, 0, 0, 0, 0]] 1 =
    [[0, 0, 0, 0, 0, 0],
     [0, 1 / 2, 0, -(1 / 2), 0, 0],
     [0, 0, 3 / 8, Real.sqrt 3 / 8, -(3 / 8), -(Real.sqrt 3 / 8)],
     [0, -(1 / 2), Real.sqrt 3 / 8, 5 / 8, -(Real.sqrt 3 / 8), -(1 / 8)],
     [0, 0, -(3 / 8), -(Real.sqrt 3 / 8), 3 / 8, Real.sqrt 3 / 8],
     [0, 0, -(Real.sqrt 3 / 8), -(1 / 8), Real.sqrt 3 / 8, 1 / 8]] := by
  simp only [euclEdgeStep, triConfig]
  norm_num [sqrt3_sq, sqrt_four]
  norm_num [addBlock, addEntry, getEntry, computeEdgeBlock, List.set, sqrt3_sq]
  have e1 : Real.sqrt 3 / 2 * (Real.sqrt 3 / 2) = 3 / 4 := by
    linear_combination (1 / 4) * sqrt3_sq
  norm_num [e1]
  repeat' apply And.intro
  all_goals ring

theorem tri_estep2 :
    euclEdgeStep Real.sqrt (triConfig ℝ (Real.sqrt 3)) [0, 1, 2]
      [[0, 0, 0, 0, 0, 0],
       [0, 1 / 2, 0, -(1 / 2), 0, 0],
       [0, 0, 3 / 8, Real.sqrt 3 / 8, -(3 / 8), -(Real.sqrt 3 / 8)],
       [0, -(1 / 2), Real.sqrt 3 / 8, 5 / 8, -(Real.sqrt 3 / 8), -(1 / 8)],
       [0, 0, -(3 / 8), -(Real.sqrt 3 / 8), 3 / 8, Real.sqrt 3 / 8],
       [0, 0, -(Real.sqrt 3 / 8), -(1 / 8), Real.sqrt 3 / 8, 1 / 8]] 2 =
    triEucl ℝ (Real.sqrt 3) := by
  simp only [euclEdgeStep, triConfig, triEucl]
  norm_num [sqrt3_sq, sqrt_four]
  norm_num [addBlock, addEntry, getEntry, computeEdgeBlock, List.set, sqrt3_sq]
  have e1 : Real.sqrt 3 / 2 * (Real.sqrt 3 / 2) = 3 / 4 := by
    linear_combination (1 / 4) * sqrt3_sq
  have e2 : -Real.sqrt 3 / 2 * (-Real.sqrt 3 / 2) = 3 / 4 := by
    linear_combination (1 / 4) * sqrt3_sq
  norm_num [e1, e2]
  repeat' apply And.intro
  all_goals ring

theorem tri_HEucl :
    buildEuclideanHessian Real.sqrt (triConfig ℝ (Real.sqrt 3)) =
      triEucl ℝ (Real.sqrt 3) := by
  simp only [buildEuclideanHessian]
  rw [tri_hull, tri_not_collinear]
  simp only [Bool.false_eq_true, if_false]
  rw [hullCycleEuclHessian_eq_fold]
  rw [show (2 * (triConfig ℝ (Real.sqrt 3)).n) = 6 from rfl,
    show List.range ([0, 1, 2] : List Nat).length = [0, 1, 2] from rfl]
  rw [List.foldl_cons, List.foldl_cons, List.foldl_cons, List.foldl_nil]
  rw [tri_estep0, tri_estep1, tri_estep2]

theorem buildGeometricHessian_eq_fold (sqrt : α → α) (config : Configuration α)
    (lambdas : List α) :
    buildGeometricHessian sqrt config lambdas =
      config.contacts.enum.foldl (geomContactStep sqrt config lambdas)
        (List.replicate (2 * config.n) (List.replicate (2 * config.n) 0)) := rfl

theorem tri_gstep0 :
    geomContactStep Real.sqrt (triConfig ℝ (Real.sqrt 3)) [1, 1, 1]
      (List.replicate 6 (List.replicate 6 0)) (0, 0, 1) =
    [[0, 0, 0, 0, 0, 0],
     [0, -(1 / 2), 0, 1 / 2, 0, 0],
     [0, 0, 0, 0, 0, 0],
     [0, 1 / 2, 0, -(1 / 2), 0, 0],
     [0, 0, 0, 0, 0, 0],
     [0, 0, 0, 0, 0, 0]] := by
  simp only [geomContactStep, triConfig]
  norm_num [sqrt_four]
  norm_num [addBlock, addEntry, getEntry, List.replicate, List.set]

theorem tri_gstep1 :
    geomContactStep Real.sqrt (triConfig ℝ (Real.sqrt 3)) [1, 1, 1]
      [[0, 0, 0, 0, 0, 0],
       [0, -(1 / 2), 0, 1 / 2, 0, 0],
       [0, 0, 0, 0, 0, 0],
       [0, 1 / 2, 0, -(1 / 2), 0, 0],
       [0, 0, 0, 0, 0, 0],
       [0, 0, 0, 0, 0, 0]] (1, 0, 2) =
    [[-(3 / 8), Real.sqrt 3 / 8, 0, 0, 3 / 8, -(Real.sqrt 3 / 8)],
     [Real.sqrt 3 / 8, -(5 / 8), 0, 1 / 2, -(Real.sqrt 3 / 8), 1 / 8],
     [0, 0, 0, 0, 0, 0],
     [0, 1 / 2, 0, -(1 / 2), 0, 0],
     [3 / 8, -(Real.sqrt 3 / 8), 0, 0, -(3 / 8), Real.sqrt 3 / 8],
     [-(Real.sqrt 3 / 8), 1 / 8, 0, 0, Real.sqrt 3 / 8, -(1 / 8)]] := by
  simp only [geomContactStep, triConfig]
  norm_num [sqrt3_sq, sqrt_four]
  norm_num [addBlock, addEntry, getEntry, List.set, sqrt3_sq]
  have e1 : Real.sqrt 3 / 2 * (Real.sqrt 3 / 2) = 3 / 4 := by
    linear_combination (1 / 4) * sqrt3_sq
  norm_num [e1]
  repeat' apply And.intro
  all_goals ring

theorem tri_gstep2 :
    geomContactStep Real.sqrt (triConfig ℝ (Real.sqrt 3)) [1, 1, 1]
      [[-(3 / 8), Real.sqrt 3 / 8, 0, 0, 3 / 8, -(Real.sqrt 3 / 8)],
       [Real.sqrt 3 / 8, -(5 / 8), 0, 1 / 2, -(Real.sqrt 3 / 8), 1 / 8],
       [0, 0, 0, 0, 0, 0],
       [0, 1 / 2, 0, -(1 / 2), 0, 0],
       [3 / 8, -(Real.sqrt 3 / 8), 0, 0, -(3 / 8), Real.sqrt 3 / 8],
       [-(Real.sqrt 3 / 8), 1 / 8, 0, 0, Real.sqrt 3 / 8, -(1 / 8)]] (2, 1, 2) =
    triGeom ℝ (Real.sqrt 3) := by
  simp only [geomContactStep, triConfig, triGeom]
  norm_num [sqrt3_sq, sqrt_four]
  norm_num [addBlock, addEntry, getEntry, List.set, sqrt3_sq]
  have e1 : Real.sqrt 3 / 2 * (Real.sqrt 3 / 2) = 3 / 4 := by
    linear_combination (1 / 4) * sqrt3_sq
  have e2 : -Real.sqrt 3 / 2 * (-Real.sqrt 3 / 2) = 3 / 4 := by
    linear_combination (1 / 4) * sqrt3_sq
  norm_num [e1, e2]
  repeat' apply And.intro
  all_goals ring

theorem tri_HGeom :
    buildGeometricHessian Real.sqrt (triConfig ℝ (Real.sqrt 3)) [1, 1, 1] =
      triGeom ℝ (Real.sqrt 3) := by
  rw [buildGeometricHessian_eq_fold]
  rw [show (2 * (triConfig ℝ (Real.sqrt 3)).n) = 6 from rfl,
    show (triConfig ℝ (Real.sqrt 3)).contacts.enum = [(0, (0, 1)), (1, (0, 2)), (2, (1, 2))]
      from rfl]
  rw [List.foldl_cons, List.foldl_cons, List.foldl_cons, List.foldl_nil]
  rw [tri_gstep0, tri_gstep1, tri_gstep2]

theorem tri_HTotal :
    (List.range 6).map (fun i => (List.range 6).map (fun j =>
      getEntry (triEucl ℝ (Real.sqrt 3)) i j + getEntry (triGeom ℝ (Real.sqrt 3)) i j)) =
    List.replicate 6 (List.replicate 6 0) := by
  norm_num [triEucl, triGeom, getEntry, List.range_succ, List.replicate]

theorem dotL_zero_right (xs : List α) : ∀ n : Nat, dotL xs (List.replicate n 0) = 0 := by
  induction xs with
  | nil => intro n; rfl
  | cons x xs ih =>
      intro n
      match n with
      | 0 => rfl
      | n + 1 =>
          rw [show dotL (x :: xs) (List.replicate (n + 1) 0) =
            x * 0 + dotL xs (List.replicate n 0) from rfl, ih n]
          ring

theorem dotL_zero_left (ys : List α) : ∀ n : Nat, dotL (List.replicate n 0) ys = 0 := by
  induction ys with
  | nil => intro n; cases n <;> rfl
  | cons y ys ih =>
      intro n
      match n with
      | 0 => rfl
      | n + 1 =>
          rw [show dotL (List.replicate (n + 1) 0) (y :: ys) =
            0 * y + dotL (List.replicate n 0) ys from rfl, ih n]
          ring

theorem transposeL_zero (n m : Nat) :
    transposeL (List.replicate (n + 1) (List.replicate m (0 : α))) =
      List.replicate m (List.replicate (n + 1) 0) := by
  rw [show List.replicate (n + 1) (List.replicate m (0 : α)) =
    List.replicate m 0 :: List.replicate n (List.replicate m 0) from rfl]
  rw [show transposeL (List.replicate m (0 : α) :: List.replicate n (List.replicate m 0)) =
    (List.range (List.replicate m (0 : α)).length).map (fun j =>
      (List.replicate m (0 : α) :: List.replicate n (List.replicate m 0)).map
        (fun row => row.getD j 0)) from rfl]
  apply List.eq_replicate.mpr
  refine ⟨by simp, ?_⟩
  intro r hr
  obtain ⟨j, _, hj⟩ := List.mem_map.mp hr
  rw [← hj]
  rw [show (List.replicate m (0 : α) :: List.replicate n (List.replicate m 0)) =
    List.replicate (n + 1) (List.replicate m 0) from rfl]
  rw [List.map_replicate]
  rw [getD_replicate_zero]

theorem mmulL_zero_right (X : List (List α)) (n m : Nat) :
    mmulL X (List.replicate (n + 1) (List.replicate m (0 : α))) =
      List.replicate X.length (List.replicate m 0) := by
  unfold mmulL
  rw [transposeL_zero]
  apply List.eq_replicate.mpr
  refine ⟨by simp, ?_⟩
  intro r hr
  obtain ⟨row, _, hrow⟩ := List.mem_map.mp hr
  rw [← hrow, List.map_replicate, dotL_zero_right]

theorem mmulL_zero_left (k n : Nat) (R : List (List α)) :
    mmulL (List.replicate k (List.replicate n (0 : α))) R =
      List.replicate k (List.replicate (transposeL R).length 0) := by
  unfold mmulL
  rw [List.map_replicate]
  congr 1
  apply List.eq_replicate.mpr
  refine ⟨by simp, ?_⟩
  intro x hx
  obtain ⟨col, _, hcol⟩ := List.mem_map.mp hx
  rw [← hcol, dotL_zero_left]

theorem tri_AAT :
    toMat 3 6 (triA ℝ (Real.sqrt 3)) * Matrix.transpose (toMat 3 6 (triA ℝ (Real.sqrt 3))) =
      toMat 3 3 (triG ℝ) := by
  ext i j
  fin_cases i <;> fin_cases j <;>
    simp [Matrix.mul_apply, Fin.sum_univ_six, toMat, triA, triG, Matrix.transpose_apply,
      show ((3 : Fin 6) : ℕ) = 3 from rfl, show ((4 : Fin 6) : ℕ) = 4 from rfl,
      show ((5 : Fin 6) : ℕ) = 5 from rfl]
  all_goals try ring_nf
  all_goals norm_num [show Real.sqrt 3 ^ 2 = 3 from Real.sq_sqrt (by norm_num)]

theorem tri_G_sq :
    toMat 3 3 (triG ℝ) * toMat 3 3 (triG ℝ) =
      (9 / 2 : ℝ) • toMat 3 3 (triG ℝ) - (9 / 2 : ℝ) • 1 := by
  ext i j
  fin_cases i <;> fin_cases j <;>
    simp [Matrix.mul_apply, Fin.sum_univ_three, toMat, triG, Matrix.one_apply] <;>
    norm_num

theorem tri_G_isUnit : IsUnit (toMat 3 3 (triG ℝ)) := by
  rw [Matrix.isUnit_iff_isUnit_det, Matrix.det_fin_three]
  simp [toMat, triG]
  norm_num

theorem tri_G_rank : (toMat 3 3 (triG ℝ)).rank = 3 := by
  rw [Matrix.rank_of_isUnit _ tri_G_isUnit]
  simp

theorem tri_A_rank : (toMat 3 6 (triA ℝ (Real.sqrt 3))).rank = 3 := by
  have h := Matrix.rank_self_mul_transpose (toMat 3 6 (triA ℝ (Real.sqrt 3)))
  rw [tri_AAT, tri_G_rank] at h
  exact h.symm

theorem tri_M_rank :
    (Matrix.transpose (toMat 3 6 (triA ℝ (Real.sqrt 3))) *
      toMat 3 6 (triA ℝ (Real.sqrt 3))).rank = 3 := by
  rw [Matrix.rank_transpose_mul_self, tri_A_rank]

theorem tri_M_poly :
    (Matrix.transpose (toMat 3 6 (triA ℝ (Real.sqrt 3))) * toMat 3 6 (triA ℝ (Real.sqrt 3))) *
      ((Matrix.transpose (toMat 3 6 (triA ℝ (Real.sqrt 3))) * toMat 3 6 (triA ℝ (Real.sqrt 3))) *
        (Matrix.transpose (toMat 3 6 (triA ℝ (Real.sqrt 3))) * toMat 3 6 (triA ℝ (Real.sqrt 3)))) -
      (9 / 2 : ℝ) • ((Matrix.transpose (toMat 3 6 (triA ℝ (Real.sqrt 3))) * toMat 3 6 (triA ℝ (Real.sqrt 3))) *
        (Matrix.transpose (toMat 3 6 (triA ℝ (Real.sqrt 3))) * toMat 3 6 (triA ℝ (Real.sqrt 3)))) +
      (9 / 2 : ℝ) • (Matrix.transpose (toMat 3 6 (triA ℝ (Real.sqrt 3))) * toMat 3 6 (triA ℝ (Real.sqrt 3))) = 0 := by
  set A := toMat 3 6 (triA ℝ (Real.sqrt 3)) with hA
  have hsq : (Matrix.transpose A * A) * (Matrix.transpose A * A) =
      Matrix.transpose A * (toMat 3 3 (triG ℝ) * A) := by
    rw [show Matrix.transpose A * A * (Matrix.transpose A * A) =
      Matrix.transpose A * (A * Matrix.transpose A) * A by
        rw [Matrix.mul_assoc, Matrix.mul_assoc, Matrix.mul_assoc]]
    rw [tri_AAT, Matrix.mul_assoc]
  have hcube : (Matrix.transpose A * A) *
      ((Matrix.transpose A * A) * (Matrix.transpose A * A)) =
      Matrix.transpose A * ((toMat 3 3 (triG ℝ) * toMat 3 3 (triG ℝ)) * A) := by
    rw [hsq]
    rw [show Matrix.transpose A * A * (Matrix.transpose A * (toMat 3 3 (triG ℝ) * A)) =
      Matrix.transpose A * (A * Matrix.transpose A) * (toMat 3 3 (triG ℝ) * A) by
        rw [Matrix.mul_assoc, Matrix.mul_assoc, Matrix.mul_assoc]]
    rw [tri_AAT, Matrix.mul_assoc, Matrix.mul_assoc]
  rw [hcube, hsq, tri_G_sq]
  simp only [Matrix.sub_mul, Matrix.smul_mul, Matrix.one_mul, Matrix.mul_sub,
    Matrix.mul_smul]
  abel

theorem col_eigen {k : Nat} (M V : Matrix (Fin k) (Fin k) ℝ) (ev : Fin k → ℝ)
    (h : M * V = V * Matrix.diagonal ev) (i : Fin k) :
    M.mulVec (fun r => V r i) = ev i • (fun r => V r i) := by
  funext r
  have he := congrFun (congrFun h r) i
  rw [Matrix.mul_apply, Matrix.mul_diagonal] at he
  show ∑ l, M r l * V l i = _
  rw [he]
  show V r i * ev i = ev i * V r i
  ring

theorem col_norm_one {k : Nat} (V : Matrix (Fin k) (Fin k) ℝ)
    (h : Matrix.transpose V * V = 1) (i : Fin k) :
    ∑ r, V r i * V r i = 1 := by
  have he := congrFun (congrFun h i) i
  rw [Matrix.mul_apply, Matrix.one_apply_eq] at he
  rw [← he]
  apply Finset.sum_congr rfl
  intro r _
  rw [Matrix.transpose_apply]

theorem col_ne_zero {k : Nat} (V : Matrix (Fin k) (Fin k) ℝ)
    (h : Matrix.transpose V * V = 1) (i : Fin k) :
    (fun r => V r i) ≠ 0 := by
  intro h0
  have h1 := col_norm_one V h i
  have h3 : ∑ r, V r i * V r i = 0 :=
    Finset.sum_eq_zero (fun r _ => by rw [show V r i = 0 from congrFun h0 r]; ring)
  rw [h3] at h1
  exact zero_ne_one h1

theorem cols_linearIndependent {k : Nat} (V : Matrix (Fin k) (Fin k) ℝ)
    (h : Matrix.transpose V * V = 1) :
    LinearIndependent ℝ (fun i : Fin k => (fun r => V r i : Fin k → ℝ)) := by
  rw [Fintype.linearIndependent_iff]
  intro g hg i
  have hV : V.mulVec g = 0 := by
    funext r
    have := congrFun hg r
    simp only [Finset.sum_apply, Pi.smul_apply, Pi.zero_apply, smul_eq_mul] at this
    show ∑ l, V r l * g l = 0
    rw [← this]
    apply Finset.sum_congr rfl
    intro l _
    ring
  have hVt := congrArg (fun W => (Matrix.transpose V).mulVec W) hV
  simp only [Matrix.mulVec_mulVec] at hVt
  rw [h] at hVt
  have : (1 : Matrix (Fin k) (Fin k) ℝ).mulVec g = g := by
    simp [Matrix.one_mulVec]
  rw [this] at hVt
  simp only [Matrix.mulVec_zero] at hVt
  exact congrFun hVt i

theorem tri_M_ev_location (V : Matrix (Fin 6) (Fin 6) ℝ) (ev : Fin 6 → ℝ)
    (hMV : (Matrix.transpose (toMat 3 6 (triA ℝ (Real.sqrt 3))) *
      toMat 3 6 (triA ℝ (Real.sqrt 3))) * V = V * Matrix.diagonal ev)
    (hVtV : Matrix.transpose V * V = 1) (i : Fin 6) :
    ev i = 0 ∨ ev i = 3 ∨ ev i = 3 / 2 := by
  set M := Matrix.transpose (toMat 3 6 (triA ℝ (Real.sqrt 3))) *
    toMat 3 6 (triA ℝ (Real.sqrt 3)) with hM
  have hv := col_eigen M V ev hMV i
  set v : Fin 6 → ℝ := fun r => V r i with hvdef
  have hv2 : M.mulVec (M.mulVec v) = (ev i * ev i) • v := by
    rw [hv, Matrix.mulVec_smul, hv, smul_smul]
  have hv3 : M.mulVec (M.mulVec (M.mulVec v)) = (ev i * ev i * ev i) • v := by
    rw [hv2, Matrix.mulVec_smul, hv, smul_smul]
  have hp' : M * (M * M) - (9 / 2 : ℝ) • (M * M) + (9 / 2 : ℝ) • M = 0 := by
    rw [hM]
    exact tri_M_poly
  have hap := congrArg (fun W => W.mulVec v) hp'
  simp only [Matrix.add_mulVec, Matrix.sub_mulVec, Matrix.smul_mulVec_assoc,
    Matrix.zero_mulVec, ← Matrix.mulVec_mulVec] at hap
  rw [hv3, hv2, hv] at hap
  have hscal : (ev i * ev i * ev i - 9 / 2 * (ev i * ev i) + 9 / 2 * ev i) • v = 0 := by
    rw [show (ev i * ev i * ev i - 9 / 2 * (ev i * ev i) + 9 / 2 * ev i) • v =
      (ev i * ev i * ev i) • v - (9 / 2 : ℝ) • (ev i * ev i) • v +
        (9 / 2 : ℝ) • ev i • v by module]
    exact hap
  rcases smul_eq_zero.mp hscal with hs | hv0
  · have hfact : ev i * (ev i - 3) * (ev i - 3 / 2) = 0 := by linear_combination hs
    rcases mul_eq_zero.mp hfact with h12 | h3
    · rcases mul_eq_zero.mp h12 with h1 | h2
      · exact Or.inl h1
      · exact Or.inr (Or.inl (by linarith [sub_eq_zero.mp h2]))
    · exact Or.inr (Or.inr (by linarith [sub_eq_zero.mp h3]))
  · exact absurd hv0 (col_ne_zero V hVtV i)

theorem tri_M_zero_count (V : Matrix (Fin 6) (Fin 6) ℝ) (ev : Fin 6 → ℝ)
    (hMV : (Matrix.transpose (toMat 3 6 (triA ℝ (Real.sqrt 3))) *
      toMat 3 6 (triA ℝ (Real.sqrt 3))) * V = V * Matrix.diagonal ev)
    (hVtV : Matrix.transpose V * V = 1) :
    (Finset.univ.filter (fun i : Fin 6 => ev i = 0)).card = 3 := by
  set M := Matrix.transpose (toMat 3 6 (triA ℝ (Real.sqrt 3))) *
    toMat 3 6 (triA ℝ (Real.sqrt 3)) with hM
  have hrank : M.rank = 3 := tri_M_rank
  have hrange : Module.finrank ℝ (LinearMap.range M.mulVecLin) = 3 := hrank
  have hrn := LinearMap.finrank_range_add_finrank_ker M.mulVecLin
  rw [Module.finrank_fin_fun, hrange] at hrn
  have hker : Module.finrank ℝ (LinearMap.ker M.mulVecLin) = 3 := by omega
  have hli := cols_linearIndependent V hVtV
  -- zero-eigenvalue columns sit in the kernel
  set Z := Finset.univ.filter (fun i : Fin 6 => ev i = 0) with hZ
  set N := Finset.univ.filter (fun i : Fin 6 => ¬ ev i = 0) with hN
  have hmemZ : ∀ i : Z, (fun r => V r i.1) ∈ LinearMap.ker M.mulVecLin := by
    intro i
    rw [LinearMap.mem_ker, Matrix.mulVecLin_apply]
    rw [col_eigen M V ev hMV i.1]
    rw [show ev i.1 = 0 from (Finset.mem_filter.mp i.2).2]
    exact zero_smul _ _
  have hcardZ : Z.card ≤ 3 := by
    have hliZ : LinearIndependent ℝ
        (fun i : Z => (fun r => V r i.1 : Fin 6 → ℝ)) :=
      hli.comp Subtype.val Subtype.val_injective
    have hliZ' : LinearIndependent ℝ
        (fun i : Z => (⟨fun r => V r i.1, hmemZ i⟩ :
          LinearMap.ker M.mulVecLin)) := by
      apply LinearIndependent.of_comp (LinearMap.ker M.mulVecLin).subtype
      exact hliZ
    have := hliZ'.fintype_card_le_finrank
    rw [hker] at this
    rw [← Fintype.card_coe]
    exact this
  have hmemN : ∀ i : N, (fun r => V r i.1) ∈ LinearMap.range M.mulVecLin := by
    intro i
    have hne : ev i.1 ≠ 0 := (Finset.mem_filter.mp i.2).2
    refine ⟨(1 / ev i.1) • (fun r => V r i.1), ?_⟩
    rw [Matrix.mulVecLin_apply, Matrix.mulVec_smul, col_eigen M V ev hMV i.1, smul_smul]
    rw [show 1 / ev i.1 * ev i.1 = 1 by field_simp]
    exact one_smul _ _
  have hcardN : N.card ≤ 3 := by
    have hliN : LinearIndependent ℝ
        (fun i : N => (fun r => V r i.1 : Fin 6 → ℝ)) :=
      hli.comp Subtype.val Subtype.val_injective
    have hliN' : LinearIndependent ℝ
        (fun i : N => (⟨fun r => V r i.1, hmemN i⟩ :
          LinearMap.range M.mulVecLin)) := by
      apply LinearIndependent.of_comp (LinearMap.range M.mulVecLin).subtype
      exact hliN
    have := hliN'.fintype_card_le_finrank
    rw [hrange] at this
    rw [← Fintype.card_coe]
    exact this
  have hsum := @Finset.filter_card_add_filter_neg_card_eq_card (Fin 6)
    Finset.univ (fun i => ev i = 0) _ _
  rw [← hZ, ← hN] at hsum
  simp only [Finset.card_univ, Fintype.card_fin] at hsum
  omega

theorem filter_length_eq_sum {β : Type} (p : β → Bool) (l : List β) :
    (l.filter p).length = (l.map (fun x => if p x then 1 else 0)).sum := by
  induction l with
  | nil => rfl
  | cons x l ih =>
      rw [List.filter_cons, List.map_cons, List.sum_cons]
      by_cases hx : p x
      · rw [if_pos hx, if_pos hx, List.length_cons, ih]
        omega
      · rw [if_neg hx, if_neg hx, ih]
        omega

theorem sum_map_range (n : Nat) (f : Nat → Nat) :
    ((List.range n).map f).sum = ∑ i ∈ Finset.range n, f i := by
  induction n with
  | zero => rfl
  | succ n ih =>
      rw [List.range_succ, List.map_append, List.sum_append, Finset.sum_range_succ, ih]
      simp

theorem filter_range_card (n : Nat) (p : Nat → Bool) :
    ((List.range n).filter p).length =
      (Finset.univ.filter (fun i : Fin n => p i = true)).card := by
  rw [filter_length_eq_sum, sum_map_range, Finset.card_filter]
  rw [← Fin.sum_univ_eq_sum_range (fun i => if p i then 1 else 0) n]

theorem triA_shape :
    (triA ℝ (Real.sqrt 3)).length = 3 ∧ ∀ r ∈ triA ℝ (Real.sqrt 3), r.length = 6 := by
  constructor
  · rfl
  · intro r hr
    rcases List.mem_cons.mp hr with h | hr
    · rw [h]; rfl
    rcases List.mem_cons.mp hr with h | hr
    · rw [h]; rfl
    rcases List.mem_cons.mp hr with h | hr
    · rw [h]; rfl
    simp at hr

theorem tri_AtA_toMat :
    toMat 6 6 (mmulL (transposeL (triA ℝ (Real.sqrt 3))) (triA ℝ (Real.sqrt 3))) =
      Matrix.transpose (toMat 3 6 (triA ℝ (Real.sqrt 3))) * toMat 3 6 (triA ℝ (Real.sqrt 3)) := by
  have hsh := triA_shape
  have hts := transposeL_shape (triA ℝ (Real.sqrt 3)) 3 6 hsh.1 hsh.2 (by norm_num)
  rw [toMat_mmulL (transposeL (triA ℝ (Real.sqrt 3))) (triA ℝ (Real.sqrt 3)) 6 3 6
    hts.1 hts.2 hsh.1 hsh.2 (by norm_num)]
  rw [toMat_transposeL (triA ℝ (Real.sqrt 3)) 3 6 hsh.1 hsh.2 (by norm_num)]

theorem tri_ev_location_list (eig : List (List ℝ) → List ℝ × List (List ℝ))
    (h : eigSpecValid 6 (mmulL (transposeL (triA ℝ (Real.sqrt 3))) (triA ℝ (Real.sqrt 3)))
      (eig (mmulL (transposeL (triA ℝ (Real.sqrt 3))) (triA ℝ (Real.sqrt 3)))))
    (i : Fin 6) :
    (eig (mmulL (transposeL (triA ℝ (Real.sqrt 3))) (triA ℝ (Real.sqrt 3)))).1.getD i 0 = 0 ∨
    (eig (mmulL (transposeL (triA ℝ (Real.sqrt 3))) (triA ℝ (Real.sqrt 3)))).1.getD i 0 = 3 ∨
    (eig (mmulL (transposeL (triA ℝ (Real.sqrt 3))) (triA ℝ (Real.sqrt 3)))).1.getD i 0 = 3 / 2 := by
  obtain ⟨hevlen, hVlen, hVrows, hMV0, hVtV⟩ := h
  rw [tri_AtA_toMat] at hMV0
  exact tri_M_ev_location _ _ hMV0 hVtV i

theorem tri_zero_count_list (eig : List (List ℝ) → List ℝ × List (List ℝ))
    (h : eigSpecValid 6 (mmulL (transposeL (triA ℝ (Real.sqrt 3))) (triA ℝ (Real.sqrt 3)))
      (eig (mmulL (transposeL (triA ℝ (Real.sqrt 3))) (triA ℝ (Real.sqrt 3))))) :
    (Finset.univ.filter (fun i : Fin 6 =>
      (eig (mmulL (transposeL (triA ℝ (Real.sqrt 3))) (triA ℝ (Real.sqrt 3)))).1.getD i 0 =
        0)).card = 3 := by
  obtain ⟨hevlen, hVlen, hVrows, hMV0, hVtV⟩ := h
  rw [tri_AtA_toMat] at hMV0
  exact tri_M_zero_count _ _ hMV0 hVtV

theorem tri_nullIndices_length (eig : List (List ℝ) → List ℝ × List (List ℝ))
    (h : eigSpecValid 6 (mmulL (transposeL (triA ℝ (Real.sqrt 3))) (triA ℝ (Real.sqrt 3)))
      (eig (mmulL (transposeL (triA ℝ (Real.sqrt 3))) (triA ℝ (Real.sqrt 3))))) :
    ((List.range (eig (mmulL (transposeL (triA ℝ (Real.sqrt 3))) (triA ℝ (Real.sqrt 3)))).1.length).filter
      (fun i => decide (|(eig (mmulL (transposeL (triA ℝ (Real.sqrt 3))) (triA ℝ (Real.sqrt 3)))).1.getD i 0| <
        1 / 10 ^ 10))).length = 3 := by
  rw [h.1, filter_range_card]
  rw [← tri_zero_count_list eig h]
  apply Finset.card_bij (fun a _ => a)
  · intro a ha
    rw [Finset.mem_filter] at ha ⊢
    refine ⟨Finset.mem_univ _, ?_⟩
    have hd := of_decide_eq_true ha.2
    rcases tri_ev_location_list eig h a with h0 | h3 | h32
    · exact h0
    · rw [h3] at hd
      norm_num at hd
    · rw [h32, abs_of_nonneg (by norm_num : (0:ℝ) ≤ 3 / 2)] at hd
      norm_num at hd
  · intro a _ b _ hab
    exact hab
  · intro b hb
    rw [Finset.mem_filter] at hb
    refine ⟨b, ?_, rfl⟩
    rw [Finset.mem_filter]
    refine ⟨Finset.mem_univ _, ?_⟩
    rw [decide_eq_true_iff, hb.2]
    norm_num

theorem tri_rollingBasis_shape (eig : List (List ℝ) → List ℝ × List (List ℝ))
    (h : eigSpecValid 6 (mmulL (transposeL (triA ℝ (Real.sqrt 3))) (triA ℝ (Real.sqrt 3)))
      (eig (mmulL (transposeL (triA ℝ (Real.sqrt 3))) (triA ℝ (Real.sqrt 3))))) :
    (rollingSpaceBasis eig (triA ℝ (Real.sqrt 3)) (1 / 10 ^ 10)).length = 6 ∧
    ∀ r ∈ rollingSpaceBasis eig (triA ℝ (Real.sqrt 3)) (1 / 10 ^ 10), r.length = 3 := by
  unfold rollingSpaceBasis
  rw [if_neg (by simp [triA])]
  rw [if_neg (by
    intro hnil
    have := tri_nullIndices_length eig h
    rw [hnil] at this
    simp at this)]
  constructor
  · rw [List.length_map, h.2.1]
  · intro r hr
    obtain ⟨row, _, hrow⟩ := List.mem_map.mp hr
    rw [← hrow, List.length_map]
    exact tri_nullIndices_length eig h

theorem tri_computeConstraints (eig : List (List ℝ) → List ℝ × List (List ℝ))
    (h : eigSpecValid 6 (mmulL (transposeL (triA ℝ (Real.sqrt 3))) (triA ℝ (Real.sqrt 3)))
      (eig (mmulL (transposeL (triA ℝ (Real.sqrt 3))) (triA ℝ (Real.sqrt 3))))) :
    computeConstraints Real.sqrt eig (triConfig ℝ (Real.sqrt 3)) =
      Except.ok ⟨triA ℝ (Real.sqrt 3),
        rollingSpaceBasis eig (triA ℝ (Real.sqrt 3)) (1 / 10 ^ 10), 3⟩ := by
  unfold computeConstraints
  rw [tri_contactMatrix]
  have hsh := tri_rollingBasis_shape eig h
  have hpos : (rollingSpaceBasis eig (triA ℝ (Real.sqrt 3)) (1 / 10 ^ 10)).length > 0 := by
    rw [hsh.1]
    norm_num
  have hhead : ((rollingSpaceBasis eig (triA ℝ (Real.sqrt 3)) (1 / 10 ^ 10)).headD []).length = 3 := by
    rcases he : rollingSpaceBasis eig (triA ℝ (Real.sqrt 3)) (1 / 10 ^ 10) with _ | ⟨r0, rest⟩
    · rw [he] at hpos
      simp at hpos
    · exact hsh.2 r0 (by rw [he]; exact List.mem_cons_self _ _)
  simp only [hpos, hhead, if_pos]

theorem foldl_max_le [LinearOrder β] (l : List β) :
    ∀ a b : β, a ≤ b → (∀ x ∈ l, x ≤ b) → l.foldl max a ≤ b := by
  induction l with
  | nil => intro a b ha _; exact ha
  | cons y l ih =>
      intro a b ha h
      rw [List.foldl_cons]
      exact ih _ b (max_le ha (h y (List.mem_cons_self _ _)))
        (fun x hx => h x (List.mem_cons_of_mem _ hx))

theorem jsMax_le (l : List α) (b : α) (hb : 0 ≤ b) (h : ∀ x ∈ l, x ≤ b) :
    jsMax l ≤ b := by
  match l with
  | [] => exact hb
  | x :: xs =>
      rw [show jsMax (x :: xs) = xs.foldl max x from rfl]
      exact foldl_max_le xs x b (h x (List.mem_cons_self _ _))
        (fun y hy => h y (List.mem_cons_of_mem _ hy))

theorem mem_eq_getD {β : Type} (l : List β) (x : β) (d : β) (h : x ∈ l) :
    ∃ k, k < l.length ∧ l.getD k d = x := by
  obtain ⟨k, hk, he⟩ := List.mem_iff_getElem.mp h
  exact ⟨k, hk, by rw [List.getD_eq_getElem _ _ hk, he]⟩

theorem tri_At_toMat :
    toMat 6 3 (transposeL (triA ℝ (Real.sqrt 3))) =
      Matrix.transpose (toMat 3 6 (triA ℝ (Real.sqrt 3))) := by
  exact toMat_transposeL (triA ℝ (Real.sqrt 3)) 3 6 triA_shape.1 triA_shape.2 (by norm_num)

theorem tri_G_ev_location (W : Matrix (Fin 3) (Fin 3) ℝ) (mu : Fin 3 → ℝ)
    (hGW : toMat 3 3 (triG ℝ) * W = W * Matrix.diagonal mu)
    (hWtW : Matrix.transpose W * W = 1) (i : Fin 3) :
    mu i = 3 ∨ mu i = 3 / 2 := by
  have hw := col_eigen (toMat 3 3 (triG ℝ)) W mu hGW i
  set w : Fin 3 → ℝ := fun r => W r i with hwdef
  have hw2 : (toMat 3 3 (triG ℝ)).mulVec ((toMat 3 3 (triG ℝ)).mulVec w) =
      (mu i * mu i) • w := by
    rw [hw, Matrix.mulVec_smul, hw, smul_smul]
  have hap := congrArg (fun Z => Z.mulVec w) tri_G_sq
  simp only [Matrix.sub_mulVec, Matrix.smul_mulVec_assoc, ← Matrix.mulVec_mulVec] at hap
  rw [hw2, hw] at hap
  have hone : (1 : Matrix (Fin 3) (Fin 3) ℝ).mulVec w = w := Matrix.one_mulVec w
  rw [hone] at hap
  have hscal : (mu i * mu i - 9 / 2 * mu i + 9 / 2) • w = 0 := by
    rw [show (mu i * mu i - 9 / 2 * mu i + 9 / 2) • w =
      (mu i * mu i) • w - ((9 / 2 : ℝ) • mu i • w - (9 / 2 : ℝ) • w) by module]
    rw [hap]
    abel
  rcases smul_eq_zero.mp hscal with hs | hw0
  · have hfact : (mu i - 3) * (mu i - 3 / 2) = 0 := by linear_combination hs
    rcases mul_eq_zero.mp hfact with h1 | h2
    · exact Or.inl (by linarith [sub_eq_zero.mp h1])
    · exact Or.inr (by linarith [sub_eq_zero.mp h2])
  · exact absurd hw0 (col_ne_zero W hWtW i)

theorem tri_svd_S_bounds (svd : List (List ℝ) → List (List ℝ) × List ℝ × List (List ℝ))
    (h : svdSpecValid 6 3 (transposeL (triA ℝ (Real.sqrt 3)))
      (svd (transposeL (triA ℝ (Real.sqrt 3))))) (i : Fin 3) :
    1 < (svd (transposeL (triA ℝ (Real.sqrt 3)))).2.1.getD i 0 ∧
    (svd (transposeL (triA ℝ (Real.sqrt 3)))).2.1.getD i 0 ≤ 2 := by
  obtain ⟨hUl, hUr, hSl, hVl, hVr, hSnn, hdec, hUtU, hVtV⟩ := h
  set U := toMat 6 3 (svd (transposeL (triA ℝ (Real.sqrt 3)))).1 with hU
  set Sv := toVec 3 (svd (transposeL (triA ℝ (Real.sqrt 3)))).2.1 with hSv
  set V := toMat 3 3 (svd (transposeL (triA ℝ (Real.sqrt 3)))).2.2 with hV
  rw [tri_At_toMat] at hdec
  have hGm : toMat 3 3 (triG ℝ) =
      V * Matrix.diagonal (fun j => Sv j * Sv j) * Matrix.transpose V := by
    have h1 : Matrix.transpose (Matrix.transpose (toMat 3 6 (triA ℝ (Real.sqrt 3)))) *
        Matrix.transpose (toMat 3 6 (triA ℝ (Real.sqrt 3))) =
        toMat 3 3 (triG ℝ) := by
      rw [Matrix.transpose_transpose]
      exact tri_AAT
    rw [← h1, ← hdec]
    rw [Matrix.transpose_mul, Matrix.transpose_mul, Matrix.transpose_transpose,
      Matrix.diagonal_transpose]
    simp only [Matrix.mul_assoc]
    rw [show Matrix.transpose U * (U * (Matrix.diagonal Sv * Matrix.transpose V)) =
      (Matrix.transpose U * U) * (Matrix.diagonal Sv * Matrix.transpose V) from
        (Matrix.mul_assoc _ _ _).symm]
    rw [hUtU, Matrix.one_mul]
    rw [show Matrix.diagonal Sv * (Matrix.diagonal Sv * Matrix.transpose V) =
      (Matrix.diagonal Sv * Matrix.diagonal Sv) * Matrix.transpose V from
        (Matrix.mul_assoc _ _ _).symm]
    rw [Matrix.diagonal_mul_diagonal]
  have hGW : toMat 3 3 (triG ℝ) * V = V * Matrix.diagonal (fun j => Sv j * Sv j) := by
    rw [hGm, Matrix.mul_assoc, hVtV, Matrix.mul_one]
  have hloc := tri_G_ev_location V (fun j => Sv j * Sv j) hGW hVtV i
  have hnn : 0 ≤ Sv i := hSnn i
  have hSvi : Sv i = (svd (transposeL (triA ℝ (Real.sqrt 3)))).2.1.getD i 0 := rfl
  rw [← hSvi]
  rcases hloc with h3 | h32
  · constructor
    · nlinarith
    · nlinarith
  · constructor
    · nlinarith
    · nlinarith

theorem tri_grad_eq_At_ones :
    toVec 6 [-(3 / 2), -(Real.sqrt 3 / 2), 3 / 2, -(Real.sqrt 3 / 2), 0, Real.sqrt 3] =
      (Matrix.transpose (toMat 3 6 (triA ℝ (Real.sqrt 3)))).mulVec (fun _ => 1) := by
  funext r
  fin_cases r <;>
    simp [toVec, toMat, triA, Matrix.mulVec, Matrix.dotProduct, Fin.sum_univ_three,
      Matrix.transpose_apply,
      show ((3 : Fin 6) : ℕ) = 3 from rfl, show ((4 : Fin 6) : ℕ) = 4 from rfl,
      show ((5 : Fin 6) : ℕ) = 5 from rfl] <;>
    ring

theorem tri_Utb_entry (svd : List (List ℝ) → List (List ℝ) × List ℝ × List (List ℝ))
    (h : svdSpecValid 6 3 (transposeL (triA ℝ (Real.sqrt 3)))
      (svd (transposeL (triA ℝ (Real.sqrt 3))))) (i : Fin 3) :
    getEntry (mmulL (transposeL (svd (transposeL (triA ℝ (Real.sqrt 3)))).1)
      ([-(3 / 2), -(Real.sqrt 3 / 2), 3 / 2, -(Real.sqrt 3 / 2), 0,
        Real.sqrt 3].map (fun g => [g]))) i 0 =
    ∑ k ∈ Finset.range 6,
      (((svd (transposeL (triA ℝ (Real.sqrt 3)))).1.getD k []).getD i 0 *
        ([-(3 / 2), -(Real.sqrt 3 / 2), 3 / 2, -(Real.sqrt 3 / 2), 0,
          Real.sqrt 3].getD k 0 : ℝ)) := by
  obtain ⟨hUl, hUr, hSl, hVl, hVr, hSnn, hdec, hUtU, hVtV⟩ := h
  have hts := transposeL_shape (svd (transposeL (triA ℝ (Real.sqrt 3)))).1 6 3 hUl hUr
    (by norm_num)
  rw [show mmulL (transposeL (svd (transposeL (triA ℝ (Real.sqrt 3)))).1)
      ([-(3 / 2), -(Real.sqrt 3 / 2), 3 / 2, -(Real.sqrt 3 / 2), 0,
        Real.sqrt 3].map (fun g => [g])) =
    (transposeL (svd (transposeL (triA ℝ (Real.sqrt 3)))).1).map (fun row =>
      [dotL row [-(3 / 2), -(Real.sqrt 3 / 2), 3 / 2, -(Real.sqrt 3 / 2), 0,
        Real.sqrt 3]]) from rfl]
  show (((transposeL (svd (transposeL (triA ℝ (Real.sqrt 3)))).1).map (fun row =>
      [dotL row [-(3 / 2), -(Real.sqrt 3 / 2), 3 / 2, -(Real.sqrt 3 / 2), 0,
        Real.sqrt 3]])).getD i []).getD 0 0 = _
  have hi3 : (i : Nat) < (transposeL (svd (transposeL (triA ℝ (Real.sqrt 3)))).1).length := by
    rw [hts.1]
    exact i.isLt
  rw [getD_map_lt _ _ _ hi3 [] []]
  rw [show ([dotL ((transposeL (svd (transposeL (triA ℝ (Real.sqrt 3)))).1).getD (i : Nat) [])
      [-(3 / 2), -(Real.sqrt 3 / 2), 3 / 2, -(Real.sqrt 3 / 2), 0, Real.sqrt 3]]).getD 0 0 =
    dotL ((transposeL (svd (transposeL (triA ℝ (Real.sqrt 3)))).1).getD (i : Nat) [])
      [-(3 / 2), -(Real.sqrt 3 / 2), 3 / 2, -(Real.sqrt 3 / 2), 0, Real.sqrt 3] from rfl]
  have hrlen : ((transposeL (svd (transposeL (triA ℝ (Real.sqrt 3)))).1).getD (i : Nat) []).length =
      ([-(3 / 2), -(Real.sqrt 3 / 2), 3 / 2, -(Real.sqrt 3 / 2), 0,
        Real.sqrt 3] : List ℝ).length := by
    rw [hts.2 _ (getD_mem_of_lt _ _ _ hi3)]
    rfl
  rw [dotL_eq_sum _ _ hrlen]
  rw [hts.2 _ (getD_mem_of_lt _ _ _ hi3)]
  apply Finset.sum_congr rfl
  intro k hk
  have hk6 : k < 6 := Finset.mem_range.mp hk
  rw [transposeL_entry _ 6 3 hUl hUr ⟨k, hk6⟩ i]

theorem tri_lambda_entry (svd : List (List ℝ) → List (List ℝ) × List ℝ × List (List ℝ))
    (h : svdSpecValid 6 3 (transposeL (triA ℝ (Real.sqrt 3)))
      (svd (transposeL (triA ℝ (Real.sqrt 3))))) (j : Fin 3) :
    ∑ i : Fin 3, toMat 3 3 (svd (transposeL (triA ℝ (Real.sqrt 3)))).2.2 j i *
      ((Matrix.transpose (toMat 6 3 (svd (transposeL (triA ℝ (Real.sqrt 3)))).1)).mulVec
        (toVec 6 [-(3 / 2), -(Real.sqrt 3 / 2), 3 / 2, -(Real.sqrt 3 / 2), 0, Real.sqrt 3]) i /
        (svd (transposeL (triA ℝ (Real.sqrt 3)))).2.1.getD i 0) = 1 := by
  have hb := tri_svd_S_bounds svd h
  obtain ⟨hUl, hUr, hSl, hVl, hVr, hSnn, hdec, hUtU, hVtV⟩ := h
  set U := toMat 6 3 (svd (transposeL (triA ℝ (Real.sqrt 3)))).1 with hU
  set Sv := toVec 3 (svd (transposeL (triA ℝ (Real.sqrt 3)))).2.1 with hSv
  set V := toMat 3 3 (svd (transposeL (triA ℝ (Real.sqrt 3)))).2.2 with hV
  rw [tri_At_toMat] at hdec
  have hw : (Matrix.transpose U).mulVec
      (toVec 6 [-(3 / 2), -(Real.sqrt 3 / 2), 3 / 2, -(Real.sqrt 3 / 2), 0, Real.sqrt 3]) =
      fun i => Sv i * ((Matrix.transpose V).mulVec (fun _ => 1) i) := by
    rw [tri_grad_eq_At_ones, ← hdec]
    rw [Matrix.mulVec_mulVec]
    rw [show Matrix.transpose U * (U * Matrix.diagonal Sv * Matrix.transpose V) =
      (Matrix.transpose U * U) * (Matrix.diagonal Sv * Matrix.transpose V) by
        rw [Matrix.mul_assoc, Matrix.mul_assoc]]
    rw [hUtU, Matrix.one_mul]
    rw [← Matrix.mulVec_mulVec]
    funext i
    rw [Matrix.mulVec_diagonal]
  rw [hw]
  simp only []
  have ht : ∀ i : Fin 3,
      V j i * (Sv i * (Matrix.transpose V).mulVec (fun _ => 1) i /
        (svd (transposeL (triA ℝ (Real.sqrt 3)))).2.1.getD i 0) =
      V j i * (Matrix.transpose V).mulVec (fun _ => 1) i := by
    intro i
    have hne : (svd (transposeL (triA ℝ (Real.sqrt 3)))).2.1.getD (i : Nat) 0 ≠ 0 := by
      have h1 := (hb i).1
      intro h0
      rw [h0] at h1
      norm_num at h1
    rw [show Sv i = (svd (transposeL (triA ℝ (Real.sqrt 3)))).2.1.getD (i : Nat) 0 from rfl]
    rw [mul_div_assoc]
    congr 1
    rw [mul_comm, div_mul_cancel₀ _ hne]
  rw [Finset.sum_congr rfl (fun i _ => ht i)]
  have hfin : ∑ i : Fin 3, V j i * (Matrix.transpose V).mulVec (fun _ => 1) i =
      (V * Matrix.transpose V).mulVec (fun _ => 1) j := by
    rw [← Matrix.mulVec_mulVec]
    rfl
  rw [hfin, Matrix.mul_eq_one_comm.mp hVtV, Matrix.one_mulVec]

theorem tri_Utb_entry' (svd : List (List ℝ) → List (List ℝ) × List ℝ × List (List ℝ))
    (h : svdSpecValid 6 3 (transposeL (triA ℝ (Real.sqrt 3)))
      (svd (transposeL (triA ℝ (Real.sqrt 3))))) (i : Fin 3) :
    (Matrix.transpose (toMat 6 3 (svd (transposeL (triA ℝ (Real.sqrt 3)))).1)).mulVec
      (toVec 6 [-(3 / 2), -(Real.sqrt 3 / 2), 3 / 2, -(Real.sqrt 3 / 2), 0, Real.sqrt 3]) i =
    getEntry (mmulL (transposeL (svd (transposeL (triA ℝ (Real.sqrt 3)))).1)
      [[-(3 / 2)], [-(Real.sqrt 3 / 2)], [3 / 2], [-(Real.sqrt 3 / 2)], [0],
        [Real.sqrt 3]]) i 0 := by
  have h1 := tri_Utb_entry svd h i
  rw [show ([-(3 / 2), -(Real.sqrt 3 / 2), 3 / 2, -(Real.sqrt 3 / 2), 0,
      (Real.sqrt 3 : ℝ)].map (fun g => [g])) =
    [[-(3 / 2)], [-(Real.sqrt 3 / 2)], [3 / 2], [-(Real.sqrt 3 / 2)], [0],
      [Real.sqrt 3]] from rfl] at h1
  rw [h1]
  rw [show (Matrix.transpose (toMat 6 3 (svd (transposeL (triA ℝ (Real.sqrt 3)))).1)).mulVec
      (toVec 6 [-(3 / 2), -(Real.sqrt 3 / 2), 3 / 2, -(Real.sqrt 3 / 2), 0, Real.sqrt 3]) i =
    ∑ k : Fin 6, (((svd (transposeL (triA ℝ (Real.sqrt 3)))).1.getD (k : Nat) []).getD (i : Nat) 0 *
      ([-(3 / 2), -(Real.sqrt 3 / 2), 3 / 2, -(Real.sqrt 3 / 2), 0,
        (Real.sqrt 3 : ℝ)].getD (k : Nat) 0)) from rfl]
  rw [Fin.sum_univ_eq_sum_range (fun k =>
    (((svd (transposeL (triA ℝ (Real.sqrt 3)))).1.getD k []).getD (i : Nat) 0 *
      ([-(3 / 2), -(Real.sqrt 3 / 2), 3 / 2, -(Real.sqrt 3 / 2), 0,
        (Real.sqrt 3 : ℝ)].getD k 0))) 6]

theorem tri_lambdas (svd : List (List ℝ) → List (List ℝ) × List ℝ × List (List ℝ))
    (h : svdSpecValid 6 3 (transposeL (triA ℝ (Real.sqrt 3)))
      (svd (transposeL (triA ℝ (Real.sqrt 3))))) :
    solveLagrangeMultipliers svd (triA ℝ (Real.sqrt 3))
      [-(3 / 2), -(Real.sqrt 3 / 2), 3 / 2, -(Real.sqrt 3 / 2), 0, Real.sqrt 3] = [1, 1, 1] := by
  have hb := tri_svd_S_bounds svd h
  have hmax : jsMax (svd (transposeL (triA ℝ (Real.sqrt 3)))).2.1 ≤ 2 := by
    apply jsMax_le _ _ (by norm_num)
    intro x hx
    obtain ⟨k, hk, he⟩ := mem_eq_getD _ x 0 hx
    rw [h.2.2.1] at hk
    rw [← he]
    exact (hb ⟨k, hk⟩).2
  have htol : ∀ k : Nat, k < 3 →
      1 / 10 ^ 10 * jsMax (svd (transposeL (triA ℝ (Real.sqrt 3)))).2.1 <
        (svd (transposeL (triA ℝ (Real.sqrt 3)))).2.1.getD k 0 := by
    intro k hk
    have h1 := (hb ⟨k, hk⟩).1
    nlinarith
  simp only [solveLagrangeMultipliers]
  rw [if_neg (by simp [triA])]
  rw [show min (svd (transposeL (triA ℝ (Real.sqrt 3)))).2.1.length
      ((triA ℝ (Real.sqrt 3)).length) = 3 by rw [h.2.2.1]; rfl]
  rw [show (triA ℝ (Real.sqrt 3)).length = 3 from rfl]
  rw [show List.range 3 = [0, 1, 2] from rfl]
  rw [List.foldl_cons, List.foldl_cons, List.foldl_cons, List.foldl_nil]
  rw [if_pos (htol 0 (by norm_num)), if_pos (htol 1 (by norm_num)),
    if_pos (htol 2 (by norm_num))]
  rw [List.foldl_cons, List.foldl_cons, List.foldl_cons, List.foldl_nil]
  norm_num [List.set]
  have key : ∀ j : Fin 3,
      getEntry (svd (transposeL (triA ℝ (Real.sqrt 3)))).2.2 j 0 *
        (getEntry (mmulL (transposeL (svd (transposeL (triA ℝ (Real.sqrt 3)))).1)
          [[-(3 / 2)], [-(Real.sqrt 3 / 2)], [3 / 2], [-(Real.sqrt 3 / 2)], [0],
            [Real.sqrt 3]]) 0 0 /
          (svd (transposeL (triA ℝ (Real.sqrt 3)))).2.1[0]?.getD 0) +
      getEntry (svd (transposeL (triA ℝ (Real.sqrt 3)))).2.2 j 1 *
        (getEntry (mmulL (transposeL (svd (transposeL (triA ℝ (Real.sqrt 3)))).1)
          [[-(3 / 2)], [-(Real.sqrt 3 / 2)], [3 / 2], [-(Real.sqrt 3 / 2)], [0],
            [Real.sqrt 3]]) 1 0 /
          (svd (transposeL (triA ℝ (Real.sqrt 3)))).2.1[1]?.getD 0) +
      getEntry (svd (transposeL (triA ℝ (Real.sqrt 3)))).2.2 j 2 *
        (getEntry (mmulL (transposeL (svd (transposeL (triA ℝ (Real.sqrt 3)))).1)
          [[-(3 / 2)], [-(Real.sqrt 3 / 2)], [3 / 2], [-(Real.sqrt 3 / 2)], [0],
            [Real.sqrt 3]]) 2 0 /
          (svd (transposeL (triA ℝ (Real.sqrt 3)))).2.1[2]?.getD 0) = 1 := by
    intro j
    have h0 := tri_lambda_entry svd h j
    rw [Fin.sum_univ_three] at h0
    rw [tri_Utb_entry' svd h 0, tri_Utb_entry' svd h 1, tri_Utb_entry' svd h 2] at h0
    simp only [toMat, Matrix.of_apply, getEntry, Fin.val_zero, Fin.val_one, Fin.val_two,
      List.getD_eq_getElem?_getD] at h0 ⊢
    exact h0
  exact ⟨key 0, key 1, key 2⟩

theorem symmetrize_zero3 :
    symmetrize (List.replicate 3 (List.replicate 3 (0 : ℝ))) =
      List.replicate 3 (List.replicate 3 (0 : ℝ)) := by
  norm_num [symmetrize, getEntry, List.range_succ, List.replicate]

theorem zero3_toMat :
    toMat 3 3 (List.replicate 3 (List.replicate 3 (0 : ℝ))) = 0 := by
  ext i j
  show ((List.replicate 3 (List.replicate 3 (0 : ℝ))).getD i []).getD j 0 = 0
  rw [List.getD_eq_getElem (List.replicate 3 (List.replicate 3 (0 : ℝ))) []
    (by simpa using i.isLt), List.getElem_replicate]
  exact getD_replicate_zero 3 j

theorem zero3_ev_entries (eig : List (List ℝ) → List ℝ × List (List ℝ))
    (h : eigSpecValid 3 (List.replicate 3 (List.replicate 3 (0 : ℝ)))
      (eig (List.replicate 3 (List.replicate 3 (0 : ℝ))))) :
    ∀ i : Nat, (eig (List.replicate 3 (List.replicate 3 (0 : ℝ)))).1.getD i 0 = 0 := by
  obtain ⟨hevl, hVl, hVr, hMV, hVtV⟩ := h
  intro i
  by_cases hi : i < 3
  · rw [zero3_toMat, Matrix.zero_mul] at hMV
    have h2 := congrArg (fun W =>
      Matrix.transpose (toMat 3 3 (eig (List.replicate 3 (List.replicate 3 (0 : ℝ)))).2) * W) hMV
    simp only [Matrix.mul_zero] at h2
    rw [← Matrix.mul_assoc, hVtV, Matrix.one_mul] at h2
    have h3 := congrFun (congrFun h2.symm ⟨i, hi⟩) ⟨i, hi⟩
    rw [Matrix.diagonal_apply_eq] at h3
    exact h3
  · rw [List.getD_eq_default _ _ (by rw [hevl]; omega)]

theorem snapped_zero_entries (l : List ℝ) (tol : ℝ) (htol : 0 < tol)
    (h : ∀ i : Nat, l.getD i 0 = 0) : ∀ i : Nat, (snapped l tol).getD i 0 = 0 := by
  intro i
  by_cases hi : i < l.length
  · unfold snapped
    rw [getD_map_lt _ _ _ hi _ 0, h i]
    rw [if_pos (by rw [abs_zero]; exact htol)]
  · rw [List.getD_eq_default _ _ (by simp [snapped]; omega)]

theorem intrinsicSpectrum_zero3 (eig : List (List ℝ) → List ℝ × List (List ℝ))
    (h : eigSpecValid 3 (List.replicate 3 (List.replicate 3 (0 : ℝ)))
      (eig (List.replicate 3 (List.replicate 3 (0 : ℝ))))) :
    ∀ x ∈ (intrinsicSpectrum eig (List.replicate 3 (List.replicate 3 (0 : ℝ)))
      (1 / 10 ^ 10)).1, x = 0 := by
  intro x hx
  simp only [intrinsicSpectrum, symmetrize_zero3] at hx
  obtain ⟨i, _, hi⟩ := List.mem_map.mp hx
  rw [← hi]
  exact snapped_zero_entries _ _ (by norm_num) (zero3_ev_entries eig h) i

theorem transposeL_length_headD (R : List (List α)) (hne : R ≠ []) :
    (transposeL R).length = (R.headD []).length := by
  rcases R with _ | ⟨r0, rest⟩
  · exact absurd rfl hne
  · rw [show transposeL (r0 :: rest) =
      (List.range r0.length).map
        (fun j => (r0 :: rest).map (fun row => row.getD j 0)) from rfl]
    rw [List.length_map, List.length_range]
    rfl

theorem mmulL_zero_right6 (X : List (List ℝ)) :
    mmulL X (List.replicate 6 (List.replicate 6 (0 : ℝ))) =
      List.replicate X.length (List.replicate 6 0) := by
  rw [show (List.replicate 6 (List.replicate 6 (0 : ℝ))) =
    List.replicate (5 + 1) (List.replicate 6 0) from rfl]
  exact mmulL_zero_right X 5 6

theorem tri_HRoll_zero (R : List (List ℝ)) (hRlen : R.length = 6)
    (hhead : (R.headD []).length = 3) :
    projectToRoll (List.replicate 6 (List.replicate 6 (0 : ℝ))) R =
      List.replicate 3 (List.replicate 3 0) := by
  have hne : R ≠ [] := by
    intro h
    rw [h] at hRlen
    simp at hRlen
  unfold projectToRoll
  rw [mmulL_zero_right6 (transposeL R)]
  rw [transposeL_length_headD R hne, hhead]
  rw [mmulL_zero_left 3 6 R]
  rw [transposeL_length_headD R hne, hhead]

theorem tri_computeHessian (svd : List (List ℝ) → List (List ℝ) × List ℝ × List (List ℝ))
    (eig : List (List ℝ) → List ℝ × List (List ℝ)) (R : List (List ℝ))
    (hRlen : R.length = 6) (hhead : (R.headD []).length = 3)
    (hsvd : svdSpecValid 6 3 (transposeL (triA ℝ (Real.sqrt 3)))
      (svd (transposeL (triA ℝ (Real.sqrt 3)))))
    (heig0 : eigSpecValid 3 (List.replicate 3 (List.replicate 3 (0 : ℝ)))
      (eig (List.replicate 3 (List.replicate 3 (0 : ℝ))))) :
    computeHessian Real.sqrt svd eig (triConfig ℝ (Real.sqrt 3)) R =
      Except.ok ⟨List.replicate 3 (List.replicate 3 0),
        (intrinsicSpectrum eig (List.replicate 3 (List.replicate 3 0)) (1 / 10 ^ 10)).1,
        (intrinsicSpectrum eig (List.replicate 3 (List.replicate 3 0)) (1 / 10 ^ 10)).2,
        true, 0⟩ := by
  have hroll : rollDimOf R = 3 := by
    unfold rollDimOf
    rw [if_pos (by omega)]
    exact hhead
  have hcount : ((intrinsicSpectrum eig (List.replicate 3 (List.replicate 3 (0 : ℝ)))
      (1 / 10 ^ 10)).1.filter (fun v => decide (v < -(1 / 10 ^ 6)))).length = 0 := by
    rw [List.length_eq_zero, List.filter_eq_nil_iff]
    intro x hx
    rw [intrinsicSpectrum_zero3 eig heig0 x hx]
    norm_num
  simp only [computeHessian, hroll]
  rw [if_neg (by norm_num)]
  rw [tri_contactMatrix]
  simp only []
  rw [tri_gradient, tri_lambdas svd hsvd, tri_HGeom, tri_HEucl]
  rw [show (2 * (triConfig ℝ (Real.sqrt 3)).n) = 6 from rfl]
  rw [tri_HTotal, tri_HRoll_zero R hRlen hhead]
  rw [hcount]
  norm_num

theorem real_spectral {k : Nat} (M : Matrix (Fin k) (Fin k) ℝ) (hM : M.IsHermitian) :
    ∃ (W : Matrix (Fin k) (Fin k) ℝ) (kap : Fin k → ℝ),
      M * W = W * Matrix.diagonal kap ∧ Matrix.transpose W * W = 1 ∧
      W * Matrix.transpose W = 1 := by
  obtain ⟨W, hW⟩ : ∃ W', ((Matrix.IsHermitian.eigenvectorUnitary hM :
      Matrix (Fin k) (Fin k) ℝ)) = W' := ⟨_, rfl⟩
  obtain ⟨d, hd⟩ : ∃ d', hM.eigenvalues = d' := ⟨_, rfl⟩
  have hsp := hM.spectral_theorem
  rw [RCLike.ofReal_real_eq_id, Function.id_comp] at hsp
  rw [Matrix.star_eq_conjTranspose, Matrix.conjTranspose_eq_transpose_of_trivial] at hsp
  rw [hW, hd] at hsp
  have hst : Matrix.transpose W * W = 1 := by
    have h2 := (Matrix.mem_unitaryGroup_iff').mp
      (Matrix.IsHermitian.eigenvectorUnitary hM).2
    rw [Matrix.star_eq_conjTranspose, Matrix.conjTranspose_eq_transpose_of_trivial,
      hW] at h2
    exact h2
  have hts : W * Matrix.transpose W = 1 := by
    have h2 := (Matrix.mem_unitaryGroup_iff).mp
      (Matrix.IsHermitian.eigenvectorUnitary hM).2
    rw [Matrix.star_eq_conjTranspose, Matrix.conjTranspose_eq_transpose_of_trivial,
      hW] at h2
    exact h2
  refine ⟨W, d, ?_, hst, hts⟩
  rw [hsp, Matrix.mul_assoc, Matrix.mul_assoc, hst, Matrix.mul_one]

theorem zero3_toMat66 :
    toMat 6 6 (List.replicate 3 (List.replicate 3 (0 : ℝ))) = 0 := by
  ext i j
  show ((List.replicate 3 (List.replicate 3 (0 : ℝ))).getD i []).getD j 0 = 0
  by_cases hi : (i : Nat) < 3
  · rw [List.getD_eq_getElem (List.replicate 3 (List.replicate 3 (0 : ℝ))) []
      (by simpa using hi), List.getElem_replicate]
    exact getD_replicate_zero 3 j
  · rw [List.getD_eq_default (List.replicate 3 (List.replicate 3 (0 : ℝ))) []
      (by simpa using Nat.le_of_not_lt hi)]
    rfl

theorem id3_toMat :
    toMat 3 3 [[(1 : ℝ), 0, 0], [0, 1, 0], [0, 0, 1]] = 1 := by
  ext i j
  fin_cases i <;> fin_cases j <;>
    simp [toMat, Matrix.one_apply]

theorem tri_exists_eig :
    ∃ eig : List (List ℝ) → List ℝ × List (List ℝ),
      eigSpecValid 6 (mmulL (transposeL (triA ℝ (Real.sqrt 3))) (triA ℝ (Real.sqrt 3)))
        (eig (mmulL (transposeL (triA ℝ (Real.sqrt 3))) (triA ℝ (Real.sqrt 3)))) ∧
      eigSpecValid 3 (List.replicate 3 (List.replicate 3 (0 : ℝ)))
        (eig (List.replicate 3 (List.replicate 3 (0 : ℝ)))) := by
  classical
  have hherm : (toMat 6 6 (mmulL (transposeL (triA ℝ (Real.sqrt 3)))
      (triA ℝ (Real.sqrt 3)))).IsHermitian := by
    rw [tri_AtA_toMat]
    have h1 := Matrix.isHermitian_transpose_mul_self (toMat 3 6 (triA ℝ (Real.sqrt 3)))
    rw [Matrix.conjTranspose_eq_transpose_of_trivial] at h1
    exact h1
  obtain ⟨W, kap, hMW, hWtW, hWWt⟩ := real_spectral _ hherm
  have hne : mmulL (transposeL (triA ℝ (Real.sqrt 3))) (triA ℝ (Real.sqrt 3)) ≠
      List.replicate 3 (List.replicate 3 (0 : ℝ)) := by
    intro he
    have h1 := tri_M_rank
    rw [← tri_AtA_toMat, he, zero3_toMat66, Matrix.rank_zero] at h1
    exact absurd h1 (by norm_num)
  refine ⟨fun M => if M = List.replicate 3 (List.replicate 3 (0 : ℝ)) then
      ([0, 0, 0], [[(1 : ℝ), 0, 0], [0, 1, 0], [0, 0, 1]])
    else (List.ofFn kap, fromMat W), ?_, ?_⟩
  · simp only [hne, if_false]
    refine ⟨by simp, fromMat_length W, fromMat_rows W, ?_, ?_⟩
    · rw [toMat_fromMat]
      rw [show (fun i : Fin 6 => (List.ofFn kap).getD (i : Nat) 0) = kap from
        funext (fun i => getD_ofFn kap i 0)]
      exact hMW
    · rw [toMat_fromMat]
      exact hWtW
  · simp only [eq_self_iff_true, if_true]
    refine ⟨by simp, by simp, ?_, ?_, ?_⟩
    · intro r hr
      rcases List.mem_cons.mp hr with h | hr
      · rw [h]; rfl
      rcases List.mem_cons.mp hr with h | hr
      · rw [h]; rfl
      rcases List.mem_cons.mp hr with h | hr
      · rw [h]; rfl
      simp at hr
    · rw [zero3_toMat, id3_toMat, Matrix.zero_mul]
      rw [show (fun i : Fin 3 => ([(0 : ℝ), 0, 0].getD (i : Nat) 0)) = fun _ => 0 from
        funext (fun i => by fin_cases i <;> rfl)]
      rw [Matrix.diagonal_zero, Matrix.mul_zero]
    · rw [id3_toMat, Matrix.transpose_one, Matrix.one_mul]

theorem tri_G_hermitian : (toMat 3 3 (triG ℝ)).IsHermitian := by
  unfold Matrix.IsHermitian
  rw [Matrix.conjTranspose_eq_transpose_of_trivial]
  ext i j
  fin_cases i <;> fin_cases j <;>
    simp [toMat, triG, Matrix.transpose_apply]

theorem tri_exists_svd :
    ∃ svd : List (List ℝ) → List (List ℝ) × List ℝ × List (List ℝ),
      svdSpecValid 6 3 (transposeL (triA ℝ (Real.sqrt 3)))
        (svd (transposeL (triA ℝ (Real.sqrt 3)))) := by
  classical
  obtain ⟨W, mu, hGW, hWtW, hWWt⟩ := real_spectral _ tri_G_hermitian
  have hloc := tri_G_ev_location W mu hGW hWtW
  have hpos : ∀ i, 0 < mu i := by
    intro i
    rcases hloc i with h | h <;> rw [h] <;> norm_num
  set S : Fin 3 → ℝ := fun i => Real.sqrt (mu i) with hSdef
  have hSpos : ∀ i, 0 < S i := fun i => Real.sqrt_pos.mpr (hpos i)
  have hS2 : ∀ i, S i * S i = mu i := fun i => Real.mul_self_sqrt (le_of_lt (hpos i))
  set Atm := Matrix.transpose (toMat 3 6 (triA ℝ (Real.sqrt 3))) with hAtm
  set Um := Atm * W * Matrix.diagonal (fun i => 1 / S i) with hUm
  refine ⟨fun _ => (fromMat Um, List.ofFn S, fromMat W),
    fromMat_length Um, fromMat_rows Um, by simp, fromMat_length W, fromMat_rows W,
    ?_, ?_, ?_, ?_⟩
  · intro i
    by_cases hi : i < 3
    · rw [List.getD_eq_getElem (List.ofFn S) 0 (by simpa using hi)]
      rw [List.getElem_ofFn]
      exact Real.sqrt_nonneg _
    · rw [List.getD_eq_default _ _ (by simpa using Nat.le_of_not_lt hi)]
  · rw [toMat_fromMat, toMat_fromMat, tri_At_toMat, ← hAtm]
    rw [show toVec 3 (List.ofFn S) = S from funext (fun i => getD_ofFn S i 0)]
    rw [hUm]
    rw [Matrix.mul_assoc (Atm * W), Matrix.diagonal_mul_diagonal]
    rw [show (fun i => 1 / S i * S i) = fun _ => (1 : ℝ) from
      funext (fun i => by rw [one_div, inv_mul_cancel₀ (ne_of_gt (hSpos i))])]
    rw [Matrix.diagonal_one, Matrix.mul_one, Matrix.mul_assoc, hWWt, Matrix.mul_one]
  · rw [toMat_fromMat]
    rw [hUm, Matrix.transpose_mul, Matrix.transpose_mul, Matrix.diagonal_transpose]
    have hAtA : Matrix.transpose Atm * Atm = toMat 3 3 (triG ℝ) := by
      rw [hAtm, Matrix.transpose_transpose]
      exact tri_AAT
    have hWGW : Matrix.transpose W * (toMat 3 3 (triG ℝ) * W) = Matrix.diagonal mu := by
      rw [hGW, ← Matrix.mul_assoc, hWtW, Matrix.one_mul]
    calc Matrix.diagonal (fun i => 1 / S i) * (Matrix.transpose W * Matrix.transpose Atm) *
          (Atm * W * Matrix.diagonal (fun i => 1 / S i))
        = Matrix.diagonal (fun i => 1 / S i) *
            (Matrix.transpose W * (Matrix.transpose Atm * Atm * W)) *
            Matrix.diagonal (fun i => 1 / S i) := by
          simp only [Matrix.mul_assoc]
      _ = Matrix.diagonal (fun i => 1 / S i) * Matrix.diagonal mu *
            Matrix.diagonal (fun i => 1 / S i) := by
          rw [hAtA, hWGW]
      _ = 1 := by
          rw [Matrix.diagonal_mul_diagonal, Matrix.diagonal_mul_diagonal]
          rw [show (fun i => 1 / S i * mu i * (1 / S i)) = fun _ => (1 : ℝ) from
            funext (fun i => by
              rw [← hS2 i]
              have hne := ne_of_gt (hSpos i)
              field_simp)]
          exact Matrix.diagonal_one
  · rw [toMat_fromMat]
    exact hWtW

theorem tri_rollingBasis_headD (eig : List (List ℝ) → List ℝ × List (List ℝ))
    (h : eigSpecValid 6 (mmulL (transposeL (triA ℝ (Real.sqrt 3))) (triA ℝ (Real.sqrt 3)))
      (eig (mmulL (transposeL (triA ℝ (Real.sqrt 3))) (triA ℝ (Real.sqrt 3))))) :
    ((rollingSpaceBasis eig (triA ℝ (Real.sqrt 3)) (1 / 10 ^ 10)).headD []).length = 3 := by
  have hsh := tri_rollingBasis_shape eig h
  rcases he : rollingSpaceBasis eig (triA ℝ (Real.sqrt 3)) (1 / 10 ^ 10) with _ | ⟨r0, rest⟩
  · rw [he] at hsh
    simp at hsh
  · rw [he] at hsh
    exact hsh.2 r0 (List.mem_cons_self _ _)

/-- Claim C2 (amended): for the configuration of 3 unit-radius disks at the
equilateral-triangle contact positions `(0,0)`, `(2,0)`, `(1,√3)` with the 3
pairwise contacts, and any eigendecomposition and SVD oracles that are exact on
the matrices the analysis feeds them: `computeConstraints` reports rolling
dimension 3 (the three trivial rigid motions; not 0), `computeHessian` on the
reported rolling matrix yields Morse index 0 and `isLocalMinimum = true`, and
the disk perimeter is `6 + 2π` (the three hull edges have length 2, not 1). -/
theorem triangle_analysis_spec :
    (∀ (eig : List (List ℝ) → List ℝ × List (List ℝ))
       (svd : List (List ℝ) → List (List ℝ) × List ℝ × List (List ℝ)),
      eigSpecValid 6 (mmulL (transposeL (triA ℝ (Real.sqrt 3))) (triA ℝ (Real.sqrt 3)))
        (eig (mmulL (transposeL (triA ℝ (Real.sqrt 3))) (triA ℝ (Real.sqrt 3)))) →
      eigSpecValid 3 (List.replicate 3 (List.replicate 3 (0 : ℝ)))
        (eig (List.replicate 3 (List.replicate 3 (0 : ℝ)))) →
      svdSpecValid 6 3 (transposeL (triA ℝ (Real.sqrt 3)))
        (svd (transposeL (triA ℝ (Real.sqrt 3)))) →
      ∃ cd : ConstraintData ℝ,
        computeConstraints Real.sqrt eig (triConfig ℝ (Real.sqrt 3)) = Except.ok cd ∧
        cd.dimension = 3 ∧
        ∃ hr : HessianResult ℝ,
          computeHessian Real.sqrt svd eig (triConfig ℝ (Real.sqrt 3)) cd.rollingMatrix =
            Except.ok hr ∧
          hr.indexMorseCritical = 0 ∧ hr.isLocalMinimum = true) ∧
    perimeterOfDisks Real.pi Real.sqrt (triConfig ℝ (Real.sqrt 3)) = 6 + 2 * Real.pi := by
  refine ⟨?_, tri_perimeter⟩
  intro eig svd heig heig0 hsvd
  refine ⟨⟨triA ℝ (Real.sqrt 3),
    rollingSpaceBasis eig (triA ℝ (Real.sqrt 3)) (1 / 10 ^ 10), 3⟩,
    tri_computeConstraints eig heig, rfl, ?_⟩
  exact ⟨_, tri_computeHessian svd eig _ (tri_rollingBasis_shape eig heig).1
    (tri_rollingBasis_headD eig heig) hsvd heig0, rfl, rfl⟩

/-- Counterexample to the unamended claim C2: the disk perimeter is `6 + 2π`,
not `3 + 2π`, and a valid eigendecomposition oracle exists for which the
reported rolling dimension is `3`, not `0`. -/
theorem c2_counterexample :
    perimeterOfDisks Real.pi Real.sqrt (triConfig ℝ (Real.sqrt 3)) ≠ 3 + 2 * Real.pi ∧
    ∃ eig : List (List ℝ) → List ℝ × List (List ℝ),
      eigSpecValid 6 (mmulL (transposeL (triA ℝ (Real.sqrt 3))) (triA ℝ (Real.sqrt 3)))
        (eig (mmulL (transposeL (triA ℝ (Real.sqrt 3))) (triA ℝ (Real.sqrt 3)))) ∧
      ∃ cd : ConstraintData ℝ,
        computeConstraints Real.sqrt eig (triConfig ℝ (Real.sqrt 3)) = Except.ok cd ∧
        cd.dimension ≠ 0 := by
  constructor
  · rw [tri_perimeter]
    intro h
    have h6 : (6 : ℝ) = 3 := by linarith
    norm_num at h6
  · obtain ⟨eig, h1, _⟩ := tri_exists_eig
    exact ⟨eig, h1, ⟨triA ℝ (Real.sqrt 3),
      rollingSpaceBasis eig (triA ℝ (Real.sqrt 3)) (1 / 10 ^ 10), 3⟩,
      tri_computeConstraints eig h1, by simp⟩

theorem triangle_analysis_spec_witness :
    (∃ (eig : List (List ℝ) → List ℝ × List (List ℝ))
       (svd : List (List ℝ) → List (List ℝ) × List ℝ × List (List ℝ)),
      ∃ cd : ConstraintData ℝ,
        computeConstraints Real.sqrt eig (triConfig ℝ (Real.sqrt 3)) = Except.ok cd ∧
        cd.dimension = 3 ∧
        ∃ hr : HessianResult ℝ,
          computeHessian Real.sqrt svd eig (triConfig ℝ (Real.sqrt 3)) cd.rollingMatrix =
            Except.ok hr ∧
          hr.indexMorseCritical = 0 ∧ hr.isLocalMinimum = true) ∧
    perimeterOfDisks Real.pi Real.sqrt (triConfig ℝ (Real.sqrt 3)) = 6 + 2 * Real.pi := by
  obtain ⟨eig, h1, h2⟩ := tri_exists_eig
  obtain ⟨svd, h3⟩ := tri_exists_svd
  exact ⟨⟨eig, svd, triangle_analysis_spec.1 eig svd h1 h2 h3⟩, triangle_analysis_spec.2⟩
